import Mathlib

/-!
# osgEarth `BiomeManager`: reference counting, residency and materialisation

A shallow embedding of `src/osgEarthProcedural/BiomeManager.cpp`.

* Pointers (`const Biome*`, `const ModelAsset*`, `osg::Node*`, ...) are addresses (`Nat`).
* `std::map` / `std::unordered_map` containers are key-unique association lists (`PtrMap`).
  The iteration order of the model is the insertion order; no theorem depends on it.
* `shared_ptr<ResidentModelAsset>` is an address into an explicit heap, so that sharing,
  identity and `use_count()` can be stated.
* `int` counters are unbounded integers.
* `float` values are only stored, negated and compared by this code; they are rationals.
-/

namespace osgEarth

/-! ## Key-unique association lists -/

/-- Association-list lookup: the value of the first entry with key `k`. -/
def alFind {K V : Type} [DecidableEq K] (k : K) : List (K × V) → Option V
  | [] => none
  | e :: t => if e.1 = k then some e.2 else alFind k t

/-- Apply `f` to the value of the first entry with key `k`. -/
def alModify {K V : Type} [DecidableEq K] (k : K) (f : V → V) : List (K × V) → List (K × V)
  | [] => []
  | e :: t => if e.1 = k then (e.1, f e.2) :: t else e :: alModify k f t

/-- Remove every entry with key `k`. -/
def alErase {K V : Type} [DecidableEq K] (k : K) : List (K × V) → List (K × V)
  | [] => []
  | e :: t => if e.1 = k then alErase k t else e :: alErase k t

/-- Add `(k, v)` unless `k` already has an entry. -/
def alEmplace {K V : Type} [DecidableEq K] (k : K) (v : V) (l : List (K × V)) : List (K × V) :=
  if (alFind k l).isSome then l else l ++ [(k, v)]

theorem alFind_isSome_iff {K V : Type} [DecidableEq K] (k : K) (l : List (K × V)) :
    (alFind k l).isSome ↔ k ∈ l.map Prod.fst := by
  induction l with
  | nil => simp [alFind]
  | cons e t ih =>
    by_cases h : e.1 = k
    · simp [alFind, h]
    · have h' : ¬ k = e.1 := fun h2 => h h2.symm
      simp [alFind, h, h', ih]

theorem alFind_eq_none_iff {K V : Type} [DecidableEq K] (k : K) (l : List (K × V)) :
    alFind k l = none ↔ k ∉ l.map Prod.fst := by
  rw [← alFind_isSome_iff]
  cases alFind k l <;> simp

theorem alFind_mem {K V : Type} [DecidableEq K] {k : K} {v : V} {l : List (K × V)}
    (h : alFind k l = some v) : (k, v) ∈ l := by
  induction l with
  | nil => simp [alFind] at h
  | cons e t ih =>
    by_cases he : e.1 = k
    · simp [alFind, he] at h
      simp [← h, ← he]
    · simp [alFind, he] at h
      exact List.mem_cons_of_mem _ (ih h)

theorem alFind_of_mem {K V : Type} [DecidableEq K] {k : K} {v : V} {l : List (K × V)}
    (hn : (l.map Prod.fst).Nodup) (h : (k, v) ∈ l) : alFind k l = some v := by
  induction l with
  | nil => simp at h
  | cons e t ih =>
    simp only [List.map_cons, List.nodup_cons] at hn
    rcases List.mem_cons.mp h with h1 | h1
    · simp [alFind, ← h1]
    · have hk : k ∈ t.map Prod.fst := List.mem_map.mpr ⟨(k, v), h1, rfl⟩
      have hne : e.1 ≠ k := fun he => hn.1 (he ▸ hk)
      simp [alFind, hne, ih hn.2 h1]

theorem alModify_keys {K V : Type} [DecidableEq K] (k : K) (f : V → V) (l : List (K × V)) :
    (alModify k f l).map Prod.fst = l.map Prod.fst := by
  induction l with
  | nil => rfl
  | cons e t ih =>
    by_cases h : e.1 = k
    · simp [alModify, h]
    · simp [alModify, h, ih]

theorem alFind_alModify {K V : Type} [DecidableEq K] (k k' : K) (f : V → V) (l : List (K × V)) :
    alFind k' (alModify k f l) = if k = k' then (alFind k' l).map f else alFind k' l := by
  induction l with
  | nil => simp [alFind, alModify]
  | cons e t ih =>
    obtain ⟨a, b⟩ := e
    by_cases h : a = k
    · by_cases h2 : k = k'
      · subst h; subst h2; simp [alModify, alFind]
      · subst h; simp [alModify, alFind, h2]
    · by_cases h2 : a = k'
      · have h3 : ¬ k = k' := fun h4 => h (h4 ▸ h2)
        subst h2
        simp [alModify, alFind, h, h3]
      · simp [alModify, alFind, h, h2, ih]

theorem alErase_sublist {K V : Type} [DecidableEq K] (k : K) (l : List (K × V)) :
    (alErase k l).Sublist l := by
  induction l with
  | nil => exact List.Sublist.refl _
  | cons e t ih =>
    by_cases h : e.1 = k
    · simpa [alErase, h] using ih.cons e
    · simpa [alErase, h] using ih.cons₂ e

theorem alErase_keys_nodup {K V : Type} [DecidableEq K] (k : K) (l : List (K × V))
    (hn : (l.map Prod.fst).Nodup) : ((alErase k l).map Prod.fst).Nodup :=
  hn.sublist ((alErase_sublist k l).map Prod.fst)

theorem alFind_alErase {K V : Type} [DecidableEq K] (k k' : K) (l : List (K × V)) :
    alFind k' (alErase k l) = if k = k' then none else alFind k' l := by
  induction l with
  | nil => simp [alFind, alErase]
  | cons e t ih =>
    obtain ⟨a, b⟩ := e
    by_cases h : a = k
    · by_cases h2 : k = k'
      · subst h; subst h2; simpa [alErase, alFind] using ih
      · subst h; simpa [alErase, alFind, h2] using ih
    · by_cases h2 : a = k'
      · have h3 : ¬ k = k' := fun h4 => h (h4 ▸ h2)
        subst h2
        simp [alErase, alFind, h, h3]
      · simp [alErase, alFind, h, h2, ih]

theorem alEmplace_keys_nodup {K V : Type} [DecidableEq K] (k : K) (v : V) (l : List (K × V))
    (hn : (l.map Prod.fst).Nodup) : ((alEmplace k v l).map Prod.fst).Nodup := by
  unfold alEmplace
  by_cases h : (alFind k l).isSome
  · simp [h, hn]
  · have hk : k ∉ l.map Prod.fst := fun hk => h ((alFind_isSome_iff k l).mpr hk)
    simp only [h, Bool.false_eq_true, if_false, List.map_append, List.map_cons, List.map_nil]
    exact List.Nodup.append hn (List.nodup_singleton k)
      (by simpa [List.disjoint_singleton] using hk)

theorem alFind_append {K V : Type} [DecidableEq K] (k : K) (l₁ l₂ : List (K × V)) :
    alFind k (l₁ ++ l₂) = (alFind k l₁).orElse (fun _ => alFind k l₂) := by
  induction l₁ with
  | nil => simp [alFind]
  | cons e t ih =>
    by_cases h : e.1 = k
    · simp [alFind, h]
    · simp [alFind, h, ih]

theorem alFind_alEmplace {K V : Type} [DecidableEq K] (k k' : K) (v : V) (l : List (K × V)) :
    alFind k' (alEmplace k v l) =
      if k = k' then some ((alFind k l).getD v) else alFind k' l := by
  unfold alEmplace
  by_cases h : (alFind k l).isSome
  · by_cases h2 : k = k'
    · subst h2
      obtain ⟨x, hx⟩ := Option.isSome_iff_exists.mp h
      simp [hx]
    · simp [h, h2]
  · have hnone : alFind k l = none := by simpa using h
    by_cases h2 : k = k'
    · subst h2
      simp [hnone, alFind_append, alFind]
    · simp [hnone, h2, alFind_append, alFind]

/-- Container keyed by identity, as `std::map` / `std::unordered_map`: at most one entry per
key. -/
structure PtrMap (K V : Type) where
  /-- Entries in iteration order. -/
  entries : List (K × V)
  /-- No key occurs twice. -/
  nodupKeys : (entries.map Prod.fst).Nodup

namespace PtrMap

variable {K V : Type} [DecidableEq K]

/-- Default-constructed (empty) container; also the result of `clear()`. -/
def empty : PtrMap K V := ⟨[], List.nodup_nil⟩

/-- Keys in iteration order. -/
def keys (m : PtrMap K V) : List K := m.entries.map Prod.fst

/-- Lookup, as `find(k)`: `none` stands for `end()`. -/
def find? (m : PtrMap K V) (k : K) : Option V := alFind k m.entries

/-- Insert `(k, v)` unless the key is present, as `emplace(k, v)`. -/
def emplace (m : PtrMap K V) (k : K) (v : V) : PtrMap K V :=
  ⟨alEmplace k v m.entries, alEmplace_keys_nodup k v m.entries m.nodupKeys⟩

/-- Update in place the value stored at `k` (nothing happens when `k` is absent). -/
def modify (m : PtrMap K V) (k : K) (f : V → V) : PtrMap K V :=
  ⟨alModify k f m.entries, by rw [alModify_keys]; exact m.nodupKeys⟩

/-- Assignment through `operator[]`: `m[k] = v`. -/
def insert (m : PtrMap K V) (k : K) (v : V) : PtrMap K V :=
  (m.emplace k v).modify k (fun _ => v)

/-- Remove the entry of `k`, as `erase(k)`. -/
def erase (m : PtrMap K V) (k : K) : PtrMap K V :=
  ⟨alErase k m.entries, alErase_keys_nodup k m.entries m.nodupKeys⟩

/-- Rewrite every stored value, keeping the keys (a loop `for (auto& e : m) e.second = f(...)`). -/
def mapValues (m : PtrMap K V) (f : K → V → V) : PtrMap K V :=
  ⟨m.entries.map (fun e => (e.1, f e.1 e.2)), by
    have : (m.entries.map (fun e => (e.1, f e.1 e.2))).map Prod.fst = m.entries.map Prod.fst := by
      simp [List.map_map, Function.comp_def]
    rw [this]; exact m.nodupKeys⟩

end PtrMap

/-! ## Data model -/

/-- Address of an object (pointer identity). -/
abbrev Addr := Nat

/-- Identity of a biome of the catalog (`const Biome*`). -/
abbrev Biome := Addr

/-- Identity of an asset definition of the catalog (`const ModelAsset*`). -/
abbrev ModelAsset := Addr

/-- Shared pointer to a `ResidentModelAsset` (`ResidentModelAsset::Ptr`): an address of `heap`. -/
abbrev Ptr := Addr

/-- Resource location, identified by its full text. -/
abbrev URI := String

/-- Values of the C++ type `float`. -/
abbrev float := Rat

/-- Largest finite `float`. -/
def FLT_MAX : float := 340282346638528859811704183484516925440

/-- Tile key argument of the three-argument `ref` (unused by the code). -/
abbrev TileKey := Nat

/-- Image argument of the three-argument `ref` (unused by the code). -/
abbrev GeoImage := Nat

/-- Load options handed to the resource loaders (`const osgDB::Options*`). -/
abbrev Options := Nat

/-- Scene-graph node object: its identity and the content it was loaded or built with. -/
structure Node where
  addr : Addr
  data : Nat
deriving DecidableEq, Repr

/-- Texture object (`osg::Texture2D`): its identity and the image it was made from. -/
structure Texture where
  addr : Addr
  image : Nat
deriving DecidableEq, Repr

/-- Axis-aligned box (`osg::BoundingBox`). -/
structure BoundingBox where
  xMin : float
  yMin : float
  zMin : float
  xMax : float
  yMax : float
  zMax : float
deriving DecidableEq, Repr

/-- Default-constructed box: inverted extents, hence not valid. -/
instance : Inhabited BoundingBox :=
  ⟨⟨FLT_MAX, FLT_MAX, FLT_MAX, -FLT_MAX, -FLT_MAX, -FLT_MAX⟩⟩

/-- Test `bbox.valid()`. -/
def BoundingBox.valid (b : BoundingBox) : Bool :=
  decide (b.xMin ≤ b.xMax) && decide (b.yMin ≤ b.yMax) && decide (b.zMin ≤ b.zMax)

/-- One `Chonk::add(node, far_pixel_scale, near_pixel_scale, factory)` call. -/
structure ChonkLOD where
  node : Node
  far_pixel_scale : float
  near_pixel_scale : float
deriving DecidableEq, Repr

/-- Draw batch: the nodes added to it, in the order of the `add` calls. -/
abbrev Chonk := List ChonkLOD

/-- Record of a materialised asset. -/
structure ResidentModelAsset where
  assetDef : Option ModelAsset := none
  model : Option Node := none
  boundingBox : BoundingBox := default
  sideBillboardTex : Option Texture := none
  sideBillboardNormalMap : Option Texture := none
  topBillboardTex : Option Texture := none
  topBillboardNormalMap : Option Texture := none
  impostor : Option Node := none
  chonk : Option Chonk := none
deriving DecidableEq, Repr

/-- Freshly created record, as `ResidentModelAsset::create()`. -/
def ResidentModelAsset.create : ResidentModelAsset := {}

instance : Inhabited ResidentModelAsset := ⟨ResidentModelAsset.create⟩

/-- One placed asset of a biome group. -/
structure ResidentModelAssetInstance where
  residentAsset : Ptr
  weight : float
  coverage : float
deriving DecidableEq, Repr

/-- Instance list of one asset group. -/
abbrev ResidentModelAssetInstances := List ResidentModelAssetInstance

/-- Entry of a biome group list of the catalog: `asset()` (may be null), `weight()`,
`coverage()`. -/
structure ModelAssetToUse where
  asset : Option ModelAsset
  weight : float
  coverage : float
deriving DecidableEq, Repr

/-- Fields of an asset definition read by the manager. -/
structure ModelAssetDef where
  modelURI : Option URI
  sideBillboardURI : Option URI
  topBillboardURI : Option URI
  width : float
  height : float
deriving DecidableEq, Repr

/-- Impostor-construction callback: from the box and the four textures to the content of the
node it builds (`none`: a null node). -/
abbrev createImpostorFunction := BoundingBox → List (Option Texture) → Option Nat

/-- External collaborators of the manager, whose code is not part of `BiomeManager.cpp`:
the catalog, the resource loaders and the library helpers. -/
structure World where
  /-- Number of asset groups (constant `NUM_ASSET_GROUPS` of the header). -/
  NUM_ASSET_GROUPS : Nat
  /-- Result of `biome->getModelAssetsToUse(group)`. -/
  getModelAssetsToUse : Biome → Nat → List ModelAssetToUse
  /-- Fields of `*assetDef`. -/
  assetDef : ModelAsset → ModelAssetDef
  /-- Result of `uri.getNode(readOptions)`: content of the loaded node, `none` on failure. -/
  getNode : Options → URI → Option Nat
  /-- Result of `uri.getImage(readOptions)`: the loaded image, `none` on failure. -/
  getImage : Options → URI → Option Nat
  /-- Box found by `osg::ComputeBoundsVisitor` on a loaded node. -/
  computeBounds : Nat → BoundingBox
  /-- Library helper `osgDB::getNameLessExtension`. -/
  getNameLessExtension : String → String
  /-- Library helper `osgDB::getFileExtension`. -/
  getFileExtension : String → String

/-- Table of resident biomes: per biome, one instance list per asset group. -/
abbrev ResidentBiomes := PtrMap Biome (List ResidentModelAssetInstances)

/-- State of a `BiomeManager`. -/
structure BiomeManager where
  _revision : Int
  _refs : PtrMap Biome Int
  _residentBiomes : ResidentBiomes
  _residentModelAssets : PtrMap ModelAsset Ptr
  _lodTransitionPixelScale : float
  _createImpostor : Nat → Option createImpostorFunction
  /-- Free store holding the `ResidentModelAsset` objects the shared pointers refer to. -/
  heap : PtrMap Ptr ResidentModelAsset
  /-- Next address the allocator hands out. -/
  nextAddr : Addr

namespace BiomeManager

/-- Constructor `BiomeManager::BiomeManager()`. -/
def new : BiomeManager where
  _revision := 0
  _refs := PtrMap.empty
  _residentBiomes := PtrMap.empty
  _residentModelAssets := PtrMap.empty
  _lodTransitionPixelScale := 8
  _createImpostor := fun _ => none
  heap := PtrMap.empty
  nextAddr := 0

/-! ## Reference tracking -/

/-- `BiomeManager::ref(const Biome*)`. -/
def ref (m : BiomeManager) (biome : Biome) : BiomeManager :=
  let refs := (m._refs.emplace biome 0).modify biome (fun c => c + 1)
  if refs.find? biome = some 1 then
    { m with _refs := refs, _revision := m._revision + 1 }
  else
    { m with _refs := refs }

/-- `BiomeManager::ref(const Biome*, const TileKey&, const GeoImage&)`. -/
def refTile (m : BiomeManager) (biome : Biome) (_key : TileKey) (_image : GeoImage) :
    BiomeManager :=
  let refs := (m._refs.emplace biome 0).modify biome (fun c => c + 1)
  if refs.find? biome = some 1 then
    { m with _refs := refs, _revision := m._revision + 1 }
  else
    { m with _refs := refs }

/-- `BiomeManager::unref`. -/
def unref (m : BiomeManager) (biome : Biome) : BiomeManager :=
  match m._refs.find? biome with
  | none => m
  | some c =>
    if c = 0 then m
    else
      let refs := m._refs.modify biome (fun c => c - 1)
      if refs.find? biome = some 0 then
        { m with _refs := refs, _revision := m._revision + 1 }
      else
        { m with _refs := refs }

/-- `BiomeManager::getRevision`. -/
def getRevision (m : BiomeManager) : Int := m._revision

/-- `BiomeManager::setLODTransitionPixelScale`. -/
def setLODTransitionPixelScale (m : BiomeManager) (value : float) : BiomeManager :=
  { m with
    _lodTransitionPixelScale := value
    _residentModelAssets := PtrMap.empty
    _revision := m._revision + 1 }

/-- `BiomeManager::getLODTransitionPixelScale`. -/
def getLODTransitionPixelScale (m : BiomeManager) : float := m._lodTransitionPixelScale

/-- All instances held by a resident-biome table. -/
def allInstances (rb : ResidentBiomes) : List ResidentModelAssetInstance :=
  (rb.entries.map (fun e => e.2.flatten)).flatten

/-- Value of `use_count()` for the record at `p` when the only holders are the manager's own
containers: the shared pointers in the resident-asset cache and in the instances of the
resident-biome table. Tables returned by `getResidentBiomes` that a caller still holds are
counted by `use_countHeld`. -/
def use_count (rb : ResidentBiomes) (cache : PtrMap ModelAsset Ptr) (p : Ptr) : Nat :=
  (cache.entries.filter (fun e => decide (e.2 = p))).length
    + ((allInstances rb).filter (fun i => decide (i.residentAsset = p))).length

/-- `BiomeManager::recalculateResidentBiomes`. -/
def recalculateResidentBiomes (w : World) (m : BiomeManager) : BiomeManager :=
  let biomes_to_add := (m._refs.entries.filter (fun e => decide (e.2 > 0))).map Prod.fst
  let biomes_to_remove := (m._refs.entries.filter (fun e => !decide (e.2 > 0))).map Prod.fst
  let added := biomes_to_add.foldl
    (fun rb biome => rb.emplace biome (List.replicate w.NUM_ASSET_GROUPS [])) m._residentBiomes
  let residentBiomes := biomes_to_remove.foldl (fun rb biome => rb.erase biome) added
  let to_delete := (m._residentModelAssets.entries.filter
    (fun e => decide (use_count residentBiomes m._residentModelAssets e.2 = 1))).map Prod.fst
  { m with
    _residentBiomes := residentBiomes
    _residentModelAssets := to_delete.foldl (fun c asset => c.erase asset) m._residentModelAssets }

/-- `BiomeManager::reset`. -/
def reset (w : World) (m : BiomeManager) : BiomeManager :=
  recalculateResidentBiomes w
    { m with _refs := m._refs.mapValues (fun _ _ => 0), _revision := m._revision + 1 }

/-- `BiomeManager::getActiveBiomes`. -/
def getActiveBiomes (m : BiomeManager) : List Biome :=
  (m._refs.entries.filter (fun e => decide (e.2 > 0))).map Prod.fst

/-- `BiomeManager::getResidentAssets`. -/
def getResidentAssets (m : BiomeManager) : List ModelAsset :=
  m._residentModelAssets.entries.map Prod.fst

/-- `BiomeManager::setCreateFunction`. -/
def setCreateFunction (m : BiomeManager) (group : Nat) (func : Option createImpostorFunction) :
    BiomeManager :=
  { m with _createImpostor := fun g => if g = group then func else m._createImpostor g }

/-- Read through a shared pointer in a manager state. -/
def deref (m : BiomeManager) (p : Ptr) : ResidentModelAsset := (m.heap.find? p).getD default

/-- Count stored for a biome; a biome with no entry counts as 0. -/
def count (m : BiomeManager) (b : Biome) : Int := (m._refs.find? b).getD 0

end BiomeManager

/-! ## Materialisation -/

/-- Entry of the pass-scoped model cache (`ModelCacheEntry`). -/
structure ModelCacheEntry where
  _node : Option Node := none
  _modelAABB : BoundingBox := default
deriving DecidableEq, Repr

/-- Call of a resource loader. -/
inductive LoadCall where
  | getNode (uri : URI)
  | getImage (uri : URI)
deriving DecidableEq, Repr

/-- Data a `materializeNewAssets` pass works on: the free store and allocator, the
resident-asset cache, the two pass-scoped caches, the loader calls made so far and the asset
definitions announced so far by the "Loading asset" log line (both oldest first). -/
structure Pass where
  heap : PtrMap Ptr ResidentModelAsset
  nextAddr : Addr
  _residentModelAssets : PtrMap ModelAsset Ptr
  texcache : PtrMap URI Ptr
  modelcache : PtrMap URI ModelCacheEntry
  calls : List LoadCall
  loading : List ModelAsset

namespace Pass

/-- Read through a shared pointer. -/
def deref (p : Pass) (a : Ptr) : ResidentModelAsset := (p.heap.find? a).getD default

/-- Write through a shared pointer. -/
def update (p : Pass) (a : Ptr) (f : ResidentModelAsset → ResidentModelAsset) : Pass :=
  { p with heap := p.heap.modify a f }

/-- Record a loader call. -/
def call (p : Pass) (c : LoadCall) : Pass := { p with calls := p.calls ++ [c] }

/-- Take a fresh address from the allocator. -/
def alloc (p : Pass) : Pass := { p with nextAddr := p.nextAddr + 1 }

end Pass

/-- Model block of `materializeNewAssets` (the body of `if (assetDef->modelURI().isSet())`),
for the record at `ra`. The material-loader traversal of the loaded node is not modelled. -/
def loadModel (w : World) (readOptions : Options) (uri : URI) (ra : Ptr) (p : Pass) : Pass :=
  match p.modelcache.find? uri with
  | some ic => p.update ra (fun r => { r with model := ic._node, boundingBox := ic._modelAABB })
  | none =>
    let p := p.call (.getNode uri)
    match w.getNode readOptions uri with
    | some data =>
      let node : Node := ⟨p.nextAddr, data⟩
      let p := p.alloc
      let p := p.update ra (fun r => { r with model := some node })
      let mc := (p.modelcache.emplace uri {}).modify uri (fun e => { e with _node := some node })
      let p := { p with modelcache := mc }
      let p := p.update ra (fun r => { r with boundingBox := w.computeBounds data })
      let aabb := (p.deref ra).boundingBox
      let mc := (p.modelcache.emplace uri {}).modify uri (fun e => { e with _modelAABB := aabb })
      { p with modelcache := mc }
    | none => p.update ra (fun r => { r with model := none })

/-- Normal-map probe made after a billboard image loaded: tries `<name>_NML.<ext>`, then
`<name>.normal.<ext>`; returns the texture made from the first image found. -/
def loadNormalMap (w : World) (readOptions : Options) (uri : URI) (p : Pass) :
    Pass × Option Texture :=
  let u0 : URI := w.getNameLessExtension uri ++ "_NML." ++ w.getFileExtension uri
  let p := p.call (.getImage u0)
  match w.getImage readOptions u0 with
  | some normalMap => (p.alloc, some ⟨p.nextAddr, normalMap⟩)
  | none =>
    let u1 : URI := w.getNameLessExtension uri ++ ".normal." ++ w.getFileExtension uri
    let p := p.call (.getImage u1)
    match w.getImage readOptions u1 with
    | some normalMap => (p.alloc, some ⟨p.nextAddr, normalMap⟩)
    | none => (p, none)

/-- Side-billboard block of `materializeNewAssets`, for the record at `ra`. -/
def loadSideBillboard (w : World) (readOptions : Options) (uri : URI) (ra : Ptr) (p : Pass) :
    Pass :=
  match p.texcache.find? uri with
  | some ic =>
    let p := p.update ra (fun r => { r with sideBillboardTex := (p.deref ic).sideBillboardTex })
    p.update ra (fun r => { r with sideBillboardNormalMap := (p.deref ic).sideBillboardNormalMap })
  | none =>
    let p := p.call (.getImage uri)
    match w.getImage readOptions uri with
    | some image =>
      let tex : Texture := ⟨p.nextAddr, image⟩
      let p := p.alloc
      let p := p.update ra (fun r => { r with sideBillboardTex := some tex })
      let p := { p with texcache := p.texcache.insert uri ra }
      let n := loadNormalMap w readOptions uri p
      match n.2 with
      | some nml => n.1.update ra (fun r => { r with sideBillboardNormalMap := some nml })
      | none => n.1
    | none => p

/-- Top-billboard block of `materializeNewAssets`, for the record at `ra`. -/
def loadTopBillboard (w : World) (readOptions : Options) (uri : URI) (ra : Ptr) (p : Pass) :
    Pass :=
  match p.texcache.find? uri with
  | some ic =>
    let p := p.update ra (fun r => { r with topBillboardTex := (p.deref ic).topBillboardTex })
    p.update ra (fun r => { r with topBillboardNormalMap := (p.deref ic).topBillboardNormalMap })
  | none =>
    let p := p.call (.getImage uri)
    match w.getImage readOptions uri with
    | some image =>
      let tex : Texture := ⟨p.nextAddr, image⟩
      let p := p.alloc
      let p := p.update ra (fun r => { r with topBillboardTex := some tex })
      let p := { p with texcache := p.texcache.insert uri ra }
      let n := loadNormalMap w readOptions uri p
      match n.2 with
      | some nml => n.1.update ra (fun r => { r with topBillboardNormalMap := some nml })
      | none => n.1
    | none => p

/-- Impostor block: runs the callback of the group, if one is registered (`assetDef` is the
definition stored in the record at `ra`). -/
def buildImpostor (w : World) (m : BiomeManager) (group : Nat) (assetDef : ModelAsset)
    (bbox : BoundingBox) (ra : Ptr) (p : Pass) : Pass :=
  let r := p.deref ra
  let textures := [r.sideBillboardTex, r.sideBillboardNormalMap,
    r.topBillboardTex, r.topBillboardNormalMap]
  match m._createImpostor group with
  | some createImpostor =>
    let d := w.assetDef assetDef
    let bbox := if bbox.valid then bbox
      else ⟨-d.width, -d.width, 0, d.width, d.width, d.height⟩
    match createImpostor bbox textures with
    | some data => (p.alloc).update ra (fun r => { r with impostor := some ⟨p.nextAddr, data⟩ })
    | none => p.update ra (fun r => { r with impostor := none })
  | none => p

/-- Value of `sideBB`: the side billboard URI of the definition, or `<model-uri>.side.png`. -/
def sideBB (w : World) (assetDef : ModelAsset) : URI :=
  match (w.assetDef assetDef).sideBillboardURI with
  | some u => u
  | none => (w.assetDef assetDef).modelURI.getD "" ++ ".side.png"

/-- Value of `topBB`: the top billboard URI of the definition, or `<model-uri>.top.png`. -/
def topBB (w : World) (assetDef : ModelAsset) : URI :=
  match (w.assetDef assetDef).topBillboardURI with
  | some u => u
  | none => (w.assetDef assetDef).modelURI.getD "" ++ ".top.png"

/-- Billboard part: the body of `if (!sideBB.empty())`, which holds the side block, the top
block and the impostor block. -/
def loadBillboards (w : World) (m : BiomeManager) (readOptions : Options) (group : Nat)
    (assetDef : ModelAsset) (bbox : BoundingBox) (ra : Ptr) (p : Pass) : Pass :=
  if sideBB w assetDef ≠ "" then
    let p := loadSideBillboard w readOptions (sideBB w assetDef) ra p
    let p := if topBB w assetDef ≠ "" then
      loadTopBillboard w readOptions (topBB w assetDef) ra p else p
    buildImpostor w m group assetDef bbox ra p
  else p

/-- Effect on `residentAsset->chonk()` of creating the chonk if it is null and then calling
`add(node, far_pixel_scale, near_pixel_scale, factory)`. -/
def chonkAdd (chonk : Option Chonk) (node : Node) (far_pixel_scale near_pixel_scale : float) :
    Option Chonk :=
  some (chonk.getD [] ++ [⟨node, far_pixel_scale, near_pixel_scale⟩])

/-- Last part of the population of a record ("Finally, chonkify"). -/
def chonkify (m : BiomeManager) (ra : Ptr) (p : Pass) : Pass :=
  let p := match (p.deref ra).model with
    | some model =>
      p.update ra (fun r =>
        { r with chonk := chonkAdd r.chonk model m._lodTransitionPixelScale FLT_MAX })
    | none => p
  match (p.deref ra).impostor with
  | some impostor =>
    let near_pixel_scale :=
      if (p.deref ra).model.isSome then m._lodTransitionPixelScale else FLT_MAX
    p.update ra (fun r => { r with chonk := chonkAdd r.chonk impostor 1 near_pixel_scale })
  | none => p

/-- Creation of the record of a definition that has none: the "Loading asset" line, the new
cache entry `_residentModelAssets[assetDef]`, `ResidentModelAsset::create()` and the
assignment of `assetDef()`. The new record sits at the address `p.nextAddr`. -/
def createRecord (assetDef : ModelAsset) (p : Pass) : Pass :=
  let p := { p with loading := p.loading ++ [assetDef] }
  let ra : Ptr := p.nextAddr
  let p := p.alloc
  let heap := p.heap.insert ra ResidentModelAsset.create
  let cache := p._residentModelAssets.insert assetDef ra
  let p := { p with heap := heap, _residentModelAssets := cache }
  p.update ra (fun r => { r with assetDef := some assetDef })

/-- The statement `if (assetDef->modelURI().isSet()) { ... }` without its last line. -/
def loadModelOf (w : World) (readOptions : Options) (assetDef : ModelAsset) (ra : Ptr)
    (p : Pass) : Pass :=
  match (w.assetDef assetDef).modelURI with
  | some uri => loadModel w readOptions uri ra p
  | none => p

/-- Value of the local `bbox` after the model block: the box of the record when the
definition has a model URI, a default-constructed box otherwise. -/
def bboxOf (w : World) (assetDef : ModelAsset) (ra : Ptr) (p : Pass) : BoundingBox :=
  match (w.assetDef assetDef).modelURI with
  | some _ => (p.deref ra).boundingBox
  | none => default

/-- Population of a newly created record (the body of `if (residentAsset == nullptr)`);
returns the pass data and the new shared pointer. -/
def populate (w : World) (m : BiomeManager) (readOptions : Options) (group : Nat)
    (assetDef : ModelAsset) (p : Pass) : Pass × Ptr :=
  let ra : Ptr := p.nextAddr
  let p := createRecord assetDef p
  let p := loadModelOf w readOptions assetDef ra p
  let p := loadBillboards w m readOptions group assetDef (bboxOf w assetDef ra p) ra p
  (chonkify m ra p, ra)

/-- The lookup `_residentModelAssets[assetDef]` followed by the population of the record
when the definition had none; returns the pass data and `residentAsset`. -/
def lookupOrPopulate (w : World) (m : BiomeManager) (readOptions : Options) (group : Nat)
    (assetDef : ModelAsset) (p : Pass) : Pass × Ptr :=
  match p._residentModelAssets.find? assetDef with
  | some ra => (p, ra)
  | none => populate w m readOptions group assetDef p

/-- Body of the loop over the entries of one group list. -/
def materializeEntry (w : World) (m : BiomeManager) (readOptions : Options) (group : Nat)
    (asset_ptr : ModelAssetToUse) (p : Pass) (assetInstances : ResidentModelAssetInstances) :
    Pass × ResidentModelAssetInstances :=
  match asset_ptr.asset with
  | none => (p, assetInstances)
  | some assetDef =>
    let r := lookupOrPopulate w m readOptions group assetDef p
    if (r.1.deref r.2).sideBillboardTex.isSome || (r.1.deref r.2).model.isSome then
      (r.1, assetInstances ++ [⟨r.2, asset_ptr.weight, asset_ptr.coverage⟩])
    else
      (r.1, assetInstances)

/-- Loop over the entries of one group list, filling the group's instance list. -/
def materializeGroup (w : World) (m : BiomeManager) (readOptions : Options) (group : Nat) :
    List ModelAssetToUse → Pass → ResidentModelAssetInstances →
      Pass × ResidentModelAssetInstances
  | [], p, assetInstances => (p, assetInstances)
  | asset_ptr :: rest, p, assetInstances =>
    let r := materializeEntry w m readOptions group asset_ptr p assetInstances
    materializeGroup w m readOptions group rest r.1 r.2

/-- Loop over the given groups of one biome; returns the instance lists, one per group. -/
def materializeBiome (w : World) (m : BiomeManager) (readOptions : Options) (biome : Biome) :
    List Nat → Pass → Pass × List ResidentModelAssetInstances
  | [], p => (p, [])
  | group :: rest, p =>
    let r := materializeGroup w m readOptions group (w.getModelAssetsToUse biome group) p []
    let s := materializeBiome w m readOptions biome rest r.1
    (s.1, r.2 :: s.2)

/-- Loop over the resident biomes (their instance lists were cleared before). -/
def materializeBiomes (w : World) (m : BiomeManager) (readOptions : Options) :
    List (Biome × List ResidentModelAssetInstances) → Pass →
      Pass × List (Biome × List ResidentModelAssetInstances)
  | [], p => (p, [])
  | e :: rest, p =>
    let r := materializeBiome w m readOptions e.1 (List.range w.NUM_ASSET_GROUPS) p
    let s := materializeBiomes w m readOptions rest r.1
    (s.1, (e.1, r.2) :: s.2)

theorem materializeBiomes_keys (w : World) (m : BiomeManager) (readOptions : Options)
    (l : List (Biome × List ResidentModelAssetInstances)) (p : Pass) :
    (materializeBiomes w m readOptions l p).2.map Prod.fst = l.map Prod.fst := by
  induction l generalizing p with
  | nil => rfl
  | cons e rest ih => simp [materializeBiomes, ih]

namespace BiomeManager

/-- Pass data at the start of `materializeNewAssets`: both pass-scoped caches are empty. -/
def startPass (m : BiomeManager) : Pass where
  heap := m.heap
  nextAddr := m.nextAddr
  _residentModelAssets := m._residentModelAssets
  texcache := PtrMap.empty
  modelcache := PtrMap.empty
  calls := []
  loading := []

/-- Result of running the loops of `materializeNewAssets` from the state `m`. -/
def runPass (w : World) (m : BiomeManager) (readOptions : Options) :
    Pass × List (Biome × List ResidentModelAssetInstances) :=
  materializeBiomes w m readOptions m._residentBiomes.entries m.startPass

/-- `BiomeManager::materializeNewAssets`. -/
def materializeNewAssets (w : World) (m : BiomeManager) (readOptions : Options) : BiomeManager :=
  { m with
    _residentBiomes := ⟨(runPass w m readOptions).2, by
      rw [runPass, materializeBiomes_keys]; exact m._residentBiomes.nodupKeys⟩
    _residentModelAssets := (runPass w m readOptions).1._residentModelAssets
    heap := (runPass w m readOptions).1.heap
    nextAddr := (runPass w m readOptions).1.nextAddr }

/-- Loader calls made by `materializeNewAssets` from the state `m`, oldest first. -/
def loadCalls (w : World) (m : BiomeManager) (readOptions : Options) : List LoadCall :=
  (runPass w m readOptions).1.calls

/-- `BiomeManager::getResidentBiomes`: the state after the call and the returned copy. -/
def getResidentBiomes (w : World) (m : BiomeManager) (readOptions : Options) :
    BiomeManager × ResidentBiomes :=
  let m := materializeNewAssets w (recalculateResidentBiomes w m) readOptions
  (m, m._residentBiomes)

end BiomeManager

/-! ## Call sequences -/

/-- A call of the reference-tracking interface. -/
inductive RefCall where
  | ref (biome : Biome)
  | refTile (biome : Biome) (key : TileKey) (image : GeoImage)
  | unref (biome : Biome)
deriving DecidableEq, Repr

/-- Effect of one reference-tracking call. -/
def RefCall.apply (m : BiomeManager) : RefCall → BiomeManager
  | .ref biome => m.ref biome
  | .refTile biome key image => m.refTile biome key image
  | .unref biome => m.unref biome

/-- Effect of a sequence of reference-tracking calls, first call first. -/
def runRefCalls (m : BiomeManager) : List RefCall → BiomeManager
  | [] => m
  | c :: rest => runRefCalls (c.apply m) rest

/-- Number of `ref(b)` calls of a sequence, both overloads counted. -/
def refCalls (b : Biome) : List RefCall → Nat
  | [] => 0
  | .ref biome :: rest => (if biome = b then 1 else 0) + refCalls b rest
  | .refTile biome _ _ :: rest => (if biome = b then 1 else 0) + refCalls b rest
  | .unref _ :: rest => refCalls b rest

/-- Number of `unref(b)` calls of a sequence run from `m` that are made while the count of `b`
is positive. -/
def appliedUnrefs (b : Biome) : List RefCall → BiomeManager → Nat
  | [], _ => 0
  | .unref biome :: rest, m =>
    (if biome = b ∧ 0 < m.count b then 1 else 0) + appliedUnrefs b rest (m.unref biome)
  | c :: rest, m => appliedUnrefs b rest (c.apply m)

/-- A call of a public operation of the manager. -/
inductive Op where
  | ref (biome : Biome)
  | refTile (biome : Biome) (key : TileKey) (image : GeoImage)
  | unref (biome : Biome)
  | reset
  | setLODTransitionPixelScale (value : float)
  | recalculateResidentBiomes
  | materializeNewAssets (readOptions : Options)
  | getResidentBiomes (readOptions : Options)
  | getActiveBiomes
  | getResidentAssets
  | setCreateFunction (group : Nat) (func : Option createImpostorFunction)

/-- State of the manager after a call (the value a call returns is not part of it). -/
def Op.apply (w : World) (m : BiomeManager) : Op → BiomeManager
  | .ref biome => m.ref biome
  | .refTile biome key image => m.refTile biome key image
  | .unref biome => m.unref biome
  | .reset => m.reset w
  | .setLODTransitionPixelScale value => m.setLODTransitionPixelScale value
  | .recalculateResidentBiomes => m.recalculateResidentBiomes w
  | .materializeNewAssets readOptions => m.materializeNewAssets w readOptions
  | .getResidentBiomes readOptions => (m.getResidentBiomes w readOptions).1
  | .getActiveBiomes => m
  | .getResidentAssets => m
  | .setCreateFunction group func => m.setCreateFunction group func

/-- State after a sequence of calls, first call first. -/
def run (w : World) (m : BiomeManager) : List Op → BiomeManager
  | [] => m
  | op :: rest => run w (op.apply w m) rest

/-- States a freshly constructed manager reaches through calls of its public operations. -/
inductive Reachable (w : World) : BiomeManager → Prop where
  | new : Reachable w BiomeManager.new
  | step (m : BiomeManager) (op : Op) : Reachable w m → Reachable w (op.apply w m)

/-- Whether a call made in state `m` is one of the four revision events: a `ref` raising a
count from 0 to 1, an `unref` lowering a count from 1 to 0, a `reset`, or a
`setLODTransitionPixelScale`. -/
def Op.isRevisionEvent (m : BiomeManager) : Op → Bool
  | .ref biome => decide (m.count biome = 0)
  | .refTile biome _ _ => decide (m.count biome = 0)
  | .unref biome => decide (m.count biome = 1)
  | .reset => true
  | .setLODTransitionPixelScale _ => true
  | _ => false

/-- Number of revision events among the calls of a sequence run from `m`. -/
def revisionEvents (w : World) (m : BiomeManager) : List Op → Nat
  | [] => 0
  | op :: rest => (if op.isRevisionEvent m then 1 else 0) + revisionEvents w (op.apply w m) rest

/-- What a block of the population of the record at `ra` may do to the pass data: it leaves
the resident-asset cache, the "Loading asset" log and every other record alone, and the
allocator only moves forward. -/
structure Pass.Frame (ra : Ptr) (p q : Pass) : Prop where
  cache_eq : q._residentModelAssets = p._residentModelAssets
  loading_eq : q.loading = p.loading
  next_le : p.nextAddr ≤ q.nextAddr
  heap_other : ∀ addr, addr ≠ ra → q.heap.find? addr = p.heap.find? addr

/-- Soundness of the resident-asset cache of a pass: cached records were allocated, and a
record is cached for one asset definition only. -/
structure Pass.CacheOK (p : Pass) : Prop where
  lt : ∀ a ptr, p._residentModelAssets.find? a = some ptr → ptr < p.nextAddr
  inj : ∀ a a' ptr, p._residentModelAssets.find? a = some ptr →
    p._residentModelAssets.find? a' = some ptr → a = a'

/-- How the pass data evolve from one point `p` of a pass to a later point `q`. -/
structure Pass.Grows (p q : Pass) : Prop where
  next_le : p.nextAddr ≤ q.nextAddr
  /-- Cache entries stay. -/
  cache_old : ∀ a ptr, p._residentModelAssets.find? a = some ptr →
    q._residentModelAssets.find? a = some ptr
  /-- New cache entries hold newly allocated records. -/
  cache_new : ∀ a ptr, q._residentModelAssets.find? a = some ptr →
    p._residentModelAssets.find? a = some ptr ∨
      (p._residentModelAssets.find? a = none ∧ p.nextAddr ≤ ptr ∧ ptr < q.nextAddr)
  /-- Records allocated before `p` are not written. -/
  heap_old : ∀ addr, addr < p.nextAddr → q.heap.find? addr = p.heap.find? addr
  ok : p.CacheOK → q.CacheOK
  /-- One "Loading asset" line per definition that entered the cache. -/
  loading : ∀ a, q.loading.count a = p.loading.count a +
    if (q._residentModelAssets.find? a).isSome ∧ (p._residentModelAssets.find? a).isNone
    then 1 else 0

/-- Instance that the pass ending with the data `pf` creates for the entry `e` of a group
list, if any. -/
def instanceOf (pf : Pass) (e : ModelAssetToUse) : Option ResidentModelAssetInstance :=
  match e.asset with
  | none => none
  | some a =>
    match pf._residentModelAssets.find? a with
    | none => none
    | some ptr =>
      if (pf.deref ptr).sideBillboardTex.isSome || (pf.deref ptr).model.isSome then
        some ⟨ptr, e.weight, e.coverage⟩
      else none

/-- Instance lists that the pass ending with the data `pf` gives a biome, for the listed
groups. -/
def instancesOfBiome (w : World) (pf : Pass) (biome : Biome) (groups : List Nat) :
    List ResidentModelAssetInstances :=
  groups.map (fun g => (w.getModelAssetsToUse biome g).filterMap (instanceOf pf))

/-- What the blocks that follow the model block may do: they leave the model cache, the
number of model-loader calls per URI and the model and box of the record at `ra` alone. -/
structure Pass.KeepsModel (ra : Ptr) (p q : Pass) : Prop where
  modelcache_eq : q.modelcache = p.modelcache
  getNode_eq : ∀ u, q.calls.count (.getNode u) = p.calls.count (.getNode u)
  model_eq : (q.deref ra).model = (p.deref ra).model
  bbox_eq : (q.deref ra).boundingBox = (p.deref ra).boundingBox

/-- Invariant of a pass that started with the resident-asset cache `c0`, for a model URI
`uri` that the loader loads (with content `data`): the URI was requested once if it is in
the model cache and never otherwise; its model-cache entry holds a node with that content
and the node's box; and every record made in this pass for a definition with this model URI
holds the node and the box of the model-cache entry. -/
structure ModelInv (w : World) (uri : URI) (data : Nat) (c0 : PtrMap ModelAsset Ptr)
    (p : Pass) : Prop where
  count : p.calls.count (.getNode uri) = if (p.modelcache.find? uri).isSome then 1 else 0
  entry : ∀ e, p.modelcache.find? uri = some e →
    (∃ n, e._node = some ⟨n, data⟩) ∧ e._modelAABB = w.computeBounds data
  records : ∀ a ptr, p._residentModelAssets.find? a = some ptr → c0.find? a = none →
    (w.assetDef a).modelURI = some uri →
      ∃ e, p.modelcache.find? uri = some e ∧ (p.deref ptr).model = e._node
        ∧ (p.deref ptr).boundingBox = e._modelAABB
  fresh : ∀ a ptr, p._residentModelAssets.find? a = some ptr → c0.find? a = none →
    ptr < p.nextAddr
  old : ∀ a ptr, c0.find? a = some ptr → p._residentModelAssets.find? a = some ptr

/-- Invariant of the manager states reachable from a fresh manager. -/
structure Inv (w : World) (m : BiomeManager) : Prop where
  /-- Every resident biome has an entry in the reference table. -/
  resident_referenced : ∀ b, b ∈ m._residentBiomes.keys → b ∈ m._refs.keys
  /-- Cached records were allocated. -/
  cache_lt : ∀ a p, m._residentModelAssets.find? a = some p → p < m.nextAddr
  /-- A record is cached for one asset definition only. -/
  cache_inj : ∀ a a' p, m._residentModelAssets.find? a = some p →
    m._residentModelAssets.find? a' = some p → a = a'
  /-- An instance holding the record cached for an asset definition sits in a group whose
  list names that definition. -/
  instance_listed : ∀ b groups insts inst a, m._residentBiomes.find? b = some groups →
    insts ∈ groups → inst ∈ insts →
    m._residentModelAssets.find? a = some inst.residentAsset →
    ∃ g, ∃ e ∈ w.getModelAssetsToUse b g, e.asset = some a

/-! ## A small catalog used to instantiate the theorems -/

/-- Catalog with two asset groups. Biome 1 lists the assets 10 and 11 in group 0; biome 2
lists asset 11 in group 0 and asset 12 in group 1. Assets 10 and 11 share the model
`tree.osgb`; asset 12 has no model. Every resource loads except `missing.png` and the
normal maps. -/
def demoWorld : World where
  NUM_ASSET_GROUPS := 2
  getModelAssetsToUse := fun b g =>
    if b = 1 ∧ g = 0 then [⟨some 10, 1, 1⟩, ⟨some 11, 2, 1⟩]
    else if b = 2 ∧ g = 0 then [⟨some 11, 1, 1⟩]
    else if b = 2 ∧ g = 1 then [⟨some 12, 3, 1⟩]
    else []
  assetDef := fun a =>
    if a = 10 then ⟨some "tree.osgb", some "tree.png", some "missing.png", 1, 2⟩
    else if a = 11 then ⟨some "tree.osgb", some "bush.png", some "missing.png", 1, 2⟩
    else ⟨none, some "grass.png", some "missing.png", 1, 1⟩
  getNode := fun _ u => if u = "tree.osgb" then some 7 else none
  getImage := fun _ u =>
    if u = "tree.png" then some 1 else if u = "bush.png" then some 2
    else if u = "grass.png" then some 3 else none
  computeBounds := fun _ => ⟨0, 0, 0, 1, 1, 1⟩
  getNameLessExtension := fun s => s
  getFileExtension := fun _ => "png"

/-- Catalog with one group and one biome (1) listing one asset (10) that has no model, a
side billboard `side.png` that does not load and a top billboard `top.png` that loads. -/
def topOnlyWorld : World where
  NUM_ASSET_GROUPS := 1
  getModelAssetsToUse := fun b g => if b = 1 ∧ g = 0 then [⟨some 10, 1, 1⟩] else []
  assetDef := fun _ => ⟨none, some "side.png", some "top.png", 1, 1⟩
  getNode := fun _ _ => none
  getImage := fun _ u => if u = "top.png" then some 5 else none
  computeBounds := fun _ => default
  getNameLessExtension := fun s => s
  getFileExtension := fun _ => "png"

/-- Catalog with one group and one biome (1) listing one asset (10) that has no model and
uses the image `x.png`, which loads, as side billboard and as top billboard. -/
def sameBillboardWorld : World where
  NUM_ASSET_GROUPS := 1
  getModelAssetsToUse := fun b g => if b = 1 ∧ g = 0 then [⟨some 10, 1, 1⟩] else []
  assetDef := fun _ => ⟨none, some "x.png", some "x.png", 1, 1⟩
  getNode := fun _ _ => none
  getImage := fun _ u => if u = "x.png" then some 7 else none
  computeBounds := fun _ => default
  getNameLessExtension := fun s => s
  getFileExtension := fun _ => "png"

/-- State after the first block of `reset` (every count set to 0, the revision raised), before
the call of `recalculateResidentBiomes`. -/
def BiomeManager.resetCounts (m : BiomeManager) : BiomeManager :=
  { m with _refs := m._refs.mapValues (fun _ _ => 0), _revision := m._revision + 1 }

/-- Shape of the chonk of a record, given the LOD transition pixel scale `s` it was built
with: the model, if any, added first with far `s` and near `FLT_MAX`; the impostor, if any,
added after it with far 1 and near `s` when there is a model and `FLT_MAX` when there is
none; no chonk when the record has neither. -/
structure ChonkOK (s : float) (r : ResidentModelAsset) : Prop where
  both : ∀ md imp, r.model = some md → r.impostor = some imp →
    r.chonk = some [⟨md, s, FLT_MAX⟩, ⟨imp, 1, s⟩]
  model_only : ∀ md, r.model = some md → r.impostor = none →
    r.chonk = some [⟨md, s, FLT_MAX⟩]
  impostor_only : ∀ imp, r.model = none → r.impostor = some imp →
    r.chonk = some [⟨imp, 1, FLT_MAX⟩]
  neither : r.model = none → r.impostor = none → r.chonk = none

/-- The blocks that precede "Finally, chonkify" leave the chonk of the record at `ra` alone. -/
def Pass.KeepsChonk (ra : Ptr) (p q : Pass) : Prop :=
  (q.deref ra).chonk = (p.deref ra).chonk

/-- Invariant of a pass that started with the resident-asset cache `c0`, for a property `Φ`
of records: every record made in this pass was allocated and has the property. -/
structure NewRecords (Φ : ResidentModelAsset → Prop) (c0 : PtrMap ModelAsset Ptr)
    (p : Pass) : Prop where
  holds : ∀ a ptr, p._residentModelAssets.find? a = some ptr → c0.find? a = none →
    ptr < p.nextAddr ∧ Φ (p.deref ptr)
  old : ∀ a ptr, c0.find? a = some ptr → p._residentModelAssets.find? a = some ptr

/-- An asset definition is listed by a resident-biome table when a group list of one of its
biomes, for a group index below `NUM_ASSET_GROUPS`, names it. -/
def listedBy (w : World) (rb : ResidentBiomes) (a : ModelAsset) : Prop :=
  ∃ b ∈ rb.keys, ∃ g ∈ List.range w.NUM_ASSET_GROUPS,
    ∃ e ∈ w.getModelAssetsToUse b g, e.asset = some a

/-- Invariant of the reachable states, sharpening `Inv.instance_listed`: the group list that
names the definition of a cached record held by an instance has an index below
`NUM_ASSET_GROUPS`. -/
structure ListedInv (w : World) (m : BiomeManager) : Prop where
  listed : ∀ b groups insts inst a, m._residentBiomes.find? b = some groups →
    insts ∈ groups → inst ∈ insts →
    m._residentModelAssets.find? a = some inst.residentAsset →
    ∃ g ∈ List.range w.NUM_ASSET_GROUPS, ∃ e ∈ w.getModelAssetsToUse b g, e.asset = some a

/-- State after `ref(1)` and `getResidentBiomes` on the catalog `topOnlyWorld`. -/
def topOnlyState : BiomeManager :=
  (BiomeManager.getResidentBiomes topOnlyWorld (BiomeManager.new.ref 1) 0).1

/-! ## Lock events

The lock statements of each member function, in program order. A `ScopedMutexLock` acquires
its mutex where it is declared and releases it at the end of its block (also on an early
`return`); between the two, the manager's own code runs no other lock statement unless
listed. What the loaders and the impostor callback do while they run is not part of the
manager's code and not part of these sequences. -/

/-- The two mutexes of the manager. -/
inductive Mutex where
  | refsAndRevision
  | residentData
deriving DecidableEq, Repr

/-- A lock statement executed by a member function. -/
inductive LockEvent where
  | acquire (mutex : Mutex)
  | release (mutex : Mutex)
deriving DecidableEq, Repr

/-- Events of a block that declares a `ScopedMutexLock` on `mutex` first and then runs code
with the events `body`. -/
def scopedLock (mutex : Mutex) (body : List LockEvent) : List LockEvent :=
  [.acquire mutex] ++ body ++ [.release mutex]

namespace BiomeManager

/-- Lock events of `ref` (both overloads): one scoped lock around the whole body. -/
def ref_lockEvents : List LockEvent := scopedLock .refsAndRevision []

/-- Lock events of `unref`: one scoped lock around the whole body. -/
def unref_lockEvents : List LockEvent := scopedLock .refsAndRevision []

/-- Lock events of `setLODTransitionPixelScale`: explicit `lock()` / `unlock()` pairs. -/
def setLODTransitionPixelScale_lockEvents : List LockEvent :=
  [.acquire .residentData, .release .residentData,
    .acquire .refsAndRevision, .release .refsAndRevision]

/-- Lock events of `recalculateResidentBiomes`: two blocks, one after the other. -/
def recalculateResidentBiomes_lockEvents : List LockEvent :=
  scopedLock .refsAndRevision [] ++ scopedLock .residentData []

/-- Lock events of `reset`: its own block, then the call of `recalculateResidentBiomes`. -/
def reset_lockEvents : List LockEvent :=
  scopedLock .refsAndRevision [] ++ recalculateResidentBiomes_lockEvents

/-- Lock events of `getActiveBiomes`. -/
def getActiveBiomes_lockEvents : List LockEvent := scopedLock .refsAndRevision []

/-- Lock events of `getResidentAssets`. -/
def getResidentAssets_lockEvents : List LockEvent := scopedLock .residentData []

/-- Lock events of `materializeNewAssets`: one scoped lock around the whole body, which calls
`getLODTransitionPixelScale` (no lock statement) and no other member function. -/
def materializeNewAssets_lockEvents : List LockEvent := scopedLock .residentData []

/-- Lock events of `setCreateFunction`. -/
def setCreateFunction_lockEvents : List LockEvent := scopedLock .residentData []

/-- Lock events of `getResidentBiomes`: the two calls, then the copy (no lock statement). -/
def getResidentBiomes_lockEvents : List LockEvent :=
  recalculateResidentBiomes_lockEvents ++ materializeNewAssets_lockEvents

end BiomeManager

/-- Lock events of a call of a public operation. -/
def Op.lockEvents : Op → List LockEvent
  | .ref _ => BiomeManager.ref_lockEvents
  | .refTile _ _ _ => BiomeManager.ref_lockEvents
  | .unref _ => BiomeManager.unref_lockEvents
  | .reset => BiomeManager.reset_lockEvents
  | .setLODTransitionPixelScale _ => BiomeManager.setLODTransitionPixelScale_lockEvents
  | .recalculateResidentBiomes => BiomeManager.recalculateResidentBiomes_lockEvents
  | .materializeNewAssets _ => BiomeManager.materializeNewAssets_lockEvents
  | .getResidentBiomes _ => BiomeManager.getResidentBiomes_lockEvents
  | .getActiveBiomes => BiomeManager.getActiveBiomes_lockEvents
  | .getResidentAssets => BiomeManager.getResidentAssets_lockEvents
  | .setCreateFunction _ _ => BiomeManager.setCreateFunction_lockEvents

/-- Replays a sequence of lock events from the situation `held` (the mutex held, if any):
`true` when every acquire finds no mutex held, every release releases the mutex held, and
nothing is held at the end. -/
def oneLockAtATime : Option Mutex → List LockEvent → Bool
  | held, [] => held.isNone
  | none, .acquire mutex :: rest => oneLockAtATime (some mutex) rest
  | some _, .acquire _ :: _ => false
  | some held, .release mutex :: rest => decide (held = mutex) && oneLockAtATime none rest
  | none, .release _ :: _ => false

/-- Mutexes held after a sequence of lock events, starting from the held set `held`. -/
def heldAfter : List Mutex → List LockEvent → List Mutex
  | held, [] => held
  | held, .acquire mutex :: rest => heldAfter (mutex :: held) rest
  | held, .release mutex :: rest => heldAfter (held.erase mutex) rest

/-! ## Holders outside the manager

`getResidentBiomes` returns a copy of the resident-biome table; its instances hold shared
pointers to the records for as long as the caller keeps the copy. The definitions below take
the tables callers still hold (`held`) into account. With `held = []` they are the
definitions above. -/

namespace BiomeManager

/-- Value of `use_count()` for the record at `p` when callers still hold the tables `held`:
the holders inside the manager plus the instances of the held tables. -/
def use_countHeld (held : List ResidentBiomes) (rb : ResidentBiomes)
    (cache : PtrMap ModelAsset Ptr) (p : Ptr) : Nat :=
  use_count rb cache p
    + (((held.map allInstances).flatten).filter (fun i => decide (i.residentAsset = p))).length

/-- `BiomeManager::recalculateResidentBiomes` while callers hold the tables `held`. -/
def recalculateResidentBiomesHeld (held : List ResidentBiomes) (w : World) (m : BiomeManager) :
    BiomeManager :=
  let biomes_to_add := (m._refs.entries.filter (fun e => decide (e.2 > 0))).map Prod.fst
  let biomes_to_remove := (m._refs.entries.filter (fun e => !decide (e.2 > 0))).map Prod.fst
  let added := biomes_to_add.foldl
    (fun rb biome => rb.emplace biome (List.replicate w.NUM_ASSET_GROUPS [])) m._residentBiomes
  let residentBiomes := biomes_to_remove.foldl (fun rb biome => rb.erase biome) added
  let to_delete := (m._residentModelAssets.entries.filter
    (fun e => decide (use_countHeld held residentBiomes m._residentModelAssets e.2 = 1))).map
      Prod.fst
  { m with
    _residentBiomes := residentBiomes
    _residentModelAssets := to_delete.foldl (fun c asset => c.erase asset) m._residentModelAssets }

/-- `BiomeManager::reset` while callers hold the tables `held`. -/
def resetHeld (held : List ResidentBiomes) (w : World) (m : BiomeManager) : BiomeManager :=
  recalculateResidentBiomesHeld held w m.resetCounts

/-- `BiomeManager::getResidentBiomes` while callers hold the tables `held`: the state after
the call and the returned copy. -/
def getResidentBiomesHeld (held : List ResidentBiomes) (w : World) (m : BiomeManager)
    (readOptions : Options) : BiomeManager × ResidentBiomes :=
  let m := materializeNewAssets w (recalculateResidentBiomesHeld held w m) readOptions
  (m, m._residentBiomes)

end BiomeManager

/-- State of the manager after a call made while callers hold the tables `held`. -/
def Op.applyHeld (held : List ResidentBiomes) (w : World) (m : BiomeManager) :
    Op → BiomeManager
  | .ref biome => m.ref biome
  | .refTile biome key image => m.refTile biome key image
  | .unref biome => m.unref biome
  | .reset => m.resetHeld held w
  | .setLODTransitionPixelScale value => m.setLODTransitionPixelScale value
  | .recalculateResidentBiomes => m.recalculateResidentBiomesHeld held w
  | .materializeNewAssets readOptions => m.materializeNewAssets w readOptions
  | .getResidentBiomes readOptions => (m.getResidentBiomesHeld held w readOptions).1
  | .getActiveBiomes => m
  | .getResidentAssets => m
  | .setCreateFunction group func => m.setCreateFunction group func

/-- States a freshly constructed manager reaches through calls of its public operations,
whatever tables the callers hold at each call. -/
inductive ReachableHeld (w : World) : BiomeManager → Prop where
  | new : ReachableHeld w BiomeManager.new
  | step (m : BiomeManager) (op : Op) (held : List ResidentBiomes) :
      ReachableHeld w m → ReachableHeld w (op.applyHeld held w m)

/-- The scenario of a caller that keeps the table of its first `getResidentBiomes` call: on
the demo catalog, `ref(1)`, `getResidentBiomes` (result kept), `unref(1)`,
`getResidentBiomes`. The state after the second call and its result. -/
def keptTableScenario : BiomeManager × ResidentBiomes :=
  BiomeManager.getResidentBiomesHeld
    [(BiomeManager.getResidentBiomes demoWorld (BiomeManager.new.ref 1) 0).2] demoWorld
    ((BiomeManager.getResidentBiomes demoWorld (BiomeManager.new.ref 1) 0).1.unref 1) 0

/-! ## Side billboard textures in a pass -/

/-- What the blocks of a pass other than the side-billboard block do, for a billboard URI
`u`: they leave the texture-cache entry of `u` and the side texture of every record alone,
and the records that exist stay. -/
structure Pass.KeepsSide (u : URI) (p q : Pass) : Prop where
  texcache_eq : q.texcache.find? u = p.texcache.find? u
  side_eq : ∀ x, (q.deref x).sideBillboardTex = (p.deref x).sideBillboardTex
  present : ∀ x, (p.heap.find? x).isSome → (q.heap.find? x).isSome

/-- Soundness of the texture-cache entry of the URI `u`, whose image is `img`: the record
the entry names sits below `bound` and has a side texture made from `img`. -/
def Pass.TexOK (u : URI) (img : Nat) (bound : Addr) (p : Pass) : Prop :=
  ∀ ic, p.texcache.find? u = some ic →
    ic < bound ∧ ∃ n, (p.deref ic).sideBillboardTex = some ⟨n, img⟩

/-- Invariant of a pass that started with the resident-asset cache `c0`, for a billboard URI
`u` that the image loader loads (as `img`): the texture-cache entry of `u` is sound, and
every record made in this pass for a definition whose side billboard URI is `u` was
allocated and has a side texture made from `img`. -/
structure SideInv (w : World) (u : URI) (img : Nat) (c0 : PtrMap ModelAsset Ptr)
    (p : Pass) : Prop where
  tex : p.TexOK u img p.nextAddr
  records : ∀ a ptr, p._residentModelAssets.find? a = some ptr → c0.find? a = none →
    sideBB w a = u → ptr < p.nextAddr ∧ ∃ n, (p.deref ptr).sideBillboardTex = some ⟨n, img⟩
  old : ∀ a ptr, c0.find? a = some ptr → p._residentModelAssets.find? a = some ptr

/-- Catalog with one group and one biome (1) listing the assets 10 and 11. Asset 10 has no
model, a side billboard `a.png` that does not load and the top billboard `x.png`, which
loads. Asset 11 has a model `m.osgb` that does not load, the side billboard `x.png` and a
top billboard `t.png` that does not load. -/
def crossWorld : World where
  NUM_ASSET_GROUPS := 1
  getModelAssetsToUse := fun b g =>
    if b = 1 ∧ g = 0 then [⟨some 10, 1, 1⟩, ⟨some 11, 1, 1⟩] else []
  assetDef := fun a =>
    if a = 10 then ⟨none, some "a.png", some "x.png", 1, 1⟩
    else ⟨some "m.osgb", some "x.png", some "t.png", 1, 1⟩
  getNode := fun _ _ => none
  getImage := fun _ u => if u = "x.png" then some 7 else none
  computeBounds := fun _ => default
  getNameLessExtension := fun s => s
  getFileExtension := fun _ => "png"

/-! ## Theorems -/

namespace PtrMap

variable {K V : Type} [DecidableEq K]

theorem find?_empty (k : K) : (empty : PtrMap K V).find? k = none := rfl

theorem find?_emplace (m : PtrMap K V) (k k' : K) (v : V) :
    (m.emplace k v).find? k' = if k = k' then some ((m.find? k).getD v) else m.find? k' :=
  alFind_alEmplace k k' v m.entries

theorem find?_modify (m : PtrMap K V) (k k' : K) (f : V → V) :
    (m.modify k f).find? k' = if k = k' then (m.find? k').map f else m.find? k' :=
  alFind_alModify k k' f m.entries

theorem find?_erase (m : PtrMap K V) (k k' : K) :
    (m.erase k).find? k' = if k = k' then none else m.find? k' :=
  alFind_alErase k k' m.entries

theorem find?_insert (m : PtrMap K V) (k k' : K) (v : V) :
    (m.insert k v).find? k' = if k = k' then some v else m.find? k' := by
  unfold insert
  rw [find?_modify, find?_emplace]
  by_cases h : k = k'
  · subst h; simp
  · simp [h]

theorem mem_keys_iff (m : PtrMap K V) (k : K) : k ∈ m.keys ↔ (m.find? k).isSome :=
  (alFind_isSome_iff k m.entries).symm

theorem find?_eq_some_iff (m : PtrMap K V) (k : K) (v : V) :
    m.find? k = some v ↔ (k, v) ∈ m.entries :=
  ⟨alFind_mem, alFind_of_mem m.nodupKeys⟩

theorem keys_modify (m : PtrMap K V) (k : K) (f : V → V) : (m.modify k f).keys = m.keys :=
  alModify_keys k f m.entries

end PtrMap

namespace BiomeManager

theorem ref_refs (m : BiomeManager) (biome : Biome) :
    (m.ref biome)._refs = (m._refs.emplace biome 0).modify biome (fun c => c + 1) := by
  unfold ref
  dsimp only
  split_ifs <;> rfl

theorem unref_refs (m : BiomeManager) (biome : Biome) :
    (m.unref biome)._refs =
      if (m._refs.find? biome).getD 0 = 0 then m._refs
      else m._refs.modify biome (fun c => c - 1) := by
  unfold unref
  cases hf : m._refs.find? biome with
  | none => simp
  | some c =>
    dsimp only
    by_cases hc : c = 0
    · simp [hc]
    · simp only [hc, if_false, Option.getD_some]
      split_ifs <;> rfl

theorem count_ref (m : BiomeManager) (biome b : Biome) :
    (m.ref biome).count b = m.count b + if biome = b then 1 else 0 := by
  unfold count
  rw [ref_refs, PtrMap.find?_modify, PtrMap.find?_emplace]
  by_cases hb : biome = b
  · subst hb; cases m._refs.find? biome <;> simp
  · simp [hb]

theorem refTile_eq_ref (m : BiomeManager) (biome : Biome) (key : TileKey) (image : GeoImage) :
    m.refTile biome key image = m.ref biome := rfl

theorem count_unref (m : BiomeManager) (biome b : Biome) (h0 : 0 ≤ m.count b) :
    (m.unref biome).count b = m.count b - if biome = b ∧ 0 < m.count b then 1 else 0 := by
  unfold count at h0 ⊢
  rw [unref_refs]
  by_cases hb : biome = b
  · subst hb
    by_cases hc : (m._refs.find? biome).getD 0 = 0
    · simp [hc]
    · have hpos : 0 < (m._refs.find? biome).getD 0 := lt_of_le_of_ne h0 (Ne.symm hc)
      simp only [hc, if_false, PtrMap.find?_modify, if_true, hpos, and_self]
      cases hf : m._refs.find? biome with
      | none => simp [hf] at hc
      | some c => simp
  · by_cases hc : (m._refs.find? biome).getD 0 = 0
    · simp [hc, hb]
    · simp [hc, hb, PtrMap.find?_modify]

theorem count_runRefCalls (calls : List RefCall) (b : Biome) :
    ∀ m : BiomeManager, 0 ≤ m.count b →
      (runRefCalls m calls).count b
          = m.count b + (refCalls b calls : Int) - (appliedUnrefs b calls m : Int)
        ∧ 0 ≤ (runRefCalls m calls).count b := by
  induction calls with
  | nil => intro m h; simp [runRefCalls, refCalls, appliedUnrefs, h]
  | cons c rest ih =>
    intro m h
    cases c with
    | ref biome =>
      have h1 : 0 ≤ (m.ref biome).count b := by
        rw [count_ref]; split <;> omega
      obtain ⟨e, n⟩ := ih (m.ref biome) h1
      refine ⟨?_, n⟩
      simp only [runRefCalls, RefCall.apply, refCalls, appliedUnrefs]
      rw [e, count_ref]
      split <;> push_cast <;> ring
    | refTile biome key image =>
      have h1 : 0 ≤ (m.ref biome).count b := by
        rw [count_ref]; split <;> omega
      obtain ⟨e, n⟩ := ih (m.ref biome) h1
      refine ⟨?_, n⟩
      simp only [runRefCalls, RefCall.apply, refCalls, appliedUnrefs, refTile_eq_ref]
      rw [e, count_ref]
      split <;> push_cast <;> ring
    | unref biome =>
      have h1 : 0 ≤ (m.unref biome).count b := by
        rw [count_unref m biome b h]; split <;> omega
      obtain ⟨e, n⟩ := ih (m.unref biome) h1
      refine ⟨?_, n⟩
      simp only [runRefCalls, RefCall.apply, refCalls, appliedUnrefs]
      rw [e, count_unref m biome b h]
      split <;> push_cast <;> ring

/-- C1: after any sequence of `ref` (either overload) and `unref` calls on a freshly
constructed manager, the count stored for a biome `b` (0 when it has no entry) is the number
of `ref(b)` calls minus the number of `unref(b)` calls made while the count of `b` was
positive, and it is not negative. -/
theorem count_eq_refs_sub_applied_unrefs (calls : List RefCall) (b : Biome) :
    (runRefCalls BiomeManager.new calls).count b
        = (refCalls b calls : Int) - (appliedUnrefs b calls BiomeManager.new : Int)
      ∧ 0 ≤ (runRefCalls BiomeManager.new calls).count b := by
  have h0 : BiomeManager.new.count b = 0 := rfl
  have h := count_runRefCalls calls b BiomeManager.new (by rw [h0])
  rw [h0] at h
  simpa using h

theorem ref_revision (m : BiomeManager) (biome : Biome) :
    (m.ref biome)._revision = m._revision + if m.count biome = 0 then 1 else 0 := by
  have hf : ((m._refs.emplace biome 0).modify biome (fun c => c + 1)).find? biome
      = some (m.count biome + 1) := by
    rw [PtrMap.find?_modify, PtrMap.find?_emplace]
    simp [count]
  unfold ref
  dsimp only
  rw [hf]
  by_cases h : m.count biome = 0
  · simp [h]
  · have h2 : ¬ m.count biome + 1 = 1 := by omega
    simp [h, h2]

theorem unref_revision (m : BiomeManager) (biome : Biome) :
    (m.unref biome)._revision = m._revision + if m.count biome = 1 then 1 else 0 := by
  unfold unref count
  cases hf : m._refs.find? biome with
  | none => simp
  | some c =>
    dsimp only
    by_cases hc : c = 0
    · simp [hc]
    · have hm : (m._refs.modify biome (fun c => c - 1)).find? biome = some (c - 1) := by
        rw [PtrMap.find?_modify]; simp [hf]
      simp only [hc, if_false, hm, Option.getD_some, Option.some.injEq]
      by_cases h1 : c = 1
      · simp [h1]
      · have h2 : ¬ c - 1 = 0 := by omega
        simp [h1, h2]

theorem recalculateResidentBiomes_revision (w : World) (m : BiomeManager) :
    (m.recalculateResidentBiomes w)._revision = m._revision := rfl

theorem recalculateResidentBiomes_refs (w : World) (m : BiomeManager) :
    (m.recalculateResidentBiomes w)._refs = m._refs := rfl

theorem materializeNewAssets_revision (w : World) (m : BiomeManager) (o : Options) :
    (m.materializeNewAssets w o)._revision = m._revision := rfl

theorem materializeNewAssets_refs (w : World) (m : BiomeManager) (o : Options) :
    (m.materializeNewAssets w o)._refs = m._refs := rfl

end BiomeManager

theorem apply_revision (w : World) (m : BiomeManager) (op : Op) :
    (op.apply w m).getRevision = m.getRevision + if op.isRevisionEvent m then 1 else 0 := by
  unfold BiomeManager.getRevision
  cases op with
  | ref biome => simp [Op.apply, Op.isRevisionEvent, BiomeManager.ref_revision]
  | refTile biome key image =>
    simp [Op.apply, Op.isRevisionEvent, BiomeManager.refTile_eq_ref, BiomeManager.ref_revision]
  | unref biome => simp [Op.apply, Op.isRevisionEvent, BiomeManager.unref_revision]
  | reset => rfl
  | setLODTransitionPixelScale value => rfl
  | recalculateResidentBiomes => simp [Op.apply, Op.isRevisionEvent]; rfl
  | materializeNewAssets o => simp [Op.apply, Op.isRevisionEvent]; rfl
  | getResidentBiomes o => simp [Op.apply, Op.isRevisionEvent]; rfl
  | getActiveBiomes => simp [Op.apply, Op.isRevisionEvent]
  | getResidentAssets => simp [Op.apply, Op.isRevisionEvent]
  | setCreateFunction group func => simp [Op.apply, Op.isRevisionEvent]; rfl

theorem run_revision (w : World) (ops : List Op) :
    ∀ m : BiomeManager,
      (run w m ops).getRevision = m.getRevision + (revisionEvents w m ops : Int) := by
  induction ops with
  | nil => intro m; simp [run, revisionEvents]
  | cons op rest ih =>
    intro m
    simp only [run, revisionEvents]
    rw [ih, apply_revision]
    split <;> push_cast <;> ring

/-- C2: after any sequence of public operations on a fresh manager, `getRevision()` is the
number of revision events of the sequence (a `ref` raising a count from 0 to 1, an `unref`
lowering a count from 1 to 0, a `reset`, a `setLODTransitionPixelScale`); and in every state
a call raises the revision by exactly one when it is such an event and leaves it unchanged
otherwise, so the revision never decreases. -/
theorem revision_eq_number_of_events (w : World) :
    (∀ ops : List Op,
        (run w BiomeManager.new ops).getRevision = (revisionEvents w BiomeManager.new ops : Int))
      ∧ (∀ (m : BiomeManager) (op : Op),
          (op.apply w m).getRevision = m.getRevision + if op.isRevisionEvent m then 1 else 0)
      ∧ (∀ (m : BiomeManager) (op : Op), m.getRevision ≤ (op.apply w m).getRevision) := by
  refine ⟨fun ops => ?_, apply_revision w, fun m op => ?_⟩
  · have h := run_revision w ops BiomeManager.new
    have h0 : BiomeManager.new.getRevision = 0 := rfl
    rw [h0] at h
    simpa using h
  · rw [apply_revision]
    split <;> omega

/-- C3: in every manager state `getActiveBiomes()` returns a sequence without duplicates
whose elements are exactly the biomes with a positive count, and the call leaves the manager
state (counts, revision, resident data) as it was. -/
theorem getActiveBiomes_exactly_positive_counts (w : World) (m : BiomeManager) :
    m.getActiveBiomes.Nodup
      ∧ (∀ b : Biome, b ∈ m.getActiveBiomes ↔ 0 < m.count b)
      ∧ Op.apply w m .getActiveBiomes = m := by
  refine ⟨?_, fun b => ?_, rfl⟩
  · exact m._refs.nodupKeys.sublist ((List.filter_sublist _).map Prod.fst)
  · unfold BiomeManager.getActiveBiomes BiomeManager.count
    constructor
    · intro h
      obtain ⟨⟨k, c⟩, hmem, hk⟩ := List.mem_map.mp h
      simp only [List.mem_filter, decide_eq_true_eq] at hmem
      simp only at hk
      subst hk
      rw [(PtrMap.find?_eq_some_iff m._refs k c).mpr hmem.1]
      exact hmem.2
    · intro h
      cases hf : m._refs.find? b with
      | none => simp [hf] at h
      | some c =>
        simp only [hf, Option.getD_some] at h
        exact List.mem_map.mpr ⟨(b, c), by
          simp only [List.mem_filter, decide_eq_true_eq]
          exact ⟨(PtrMap.find?_eq_some_iff m._refs b c).mp hf, h⟩, rfl⟩

/-! ### Frame properties of the blocks of a pass -/

namespace Pass

theorem Frame.frame_refl (ra : Ptr) (p : Pass) : Frame ra p p :=
  ⟨rfl, rfl, le_refl _, fun _ _ => rfl⟩

theorem Frame.frame_trans {ra : Ptr} {p q r : Pass} (h₁ : Frame ra p q) (h₂ : Frame ra q r) :
    Frame ra p r :=
  ⟨h₂.cache_eq.trans h₁.cache_eq, h₂.loading_eq.trans h₁.loading_eq,
    le_trans h₁.next_le h₂.next_le,
    fun addr h => (h₂.heap_other addr h).trans (h₁.heap_other addr h)⟩

theorem Frame.frame_update (ra : Ptr) (p : Pass) (f : ResidentModelAsset → ResidentModelAsset) :
    Frame ra p (p.update ra f) :=
  ⟨rfl, rfl, le_refl _, fun addr h => by
    show (p.heap.modify ra f).find? addr = _
    rw [PtrMap.find?_modify]; simp [h.symm]⟩

theorem Frame.frame_call (ra : Ptr) (p : Pass) (c : LoadCall) : Frame ra p (p.call c) :=
  ⟨rfl, rfl, le_refl _, fun _ _ => rfl⟩

theorem Frame.frame_alloc (ra : Ptr) (p : Pass) : Frame ra p p.alloc :=
  ⟨rfl, rfl, Nat.le_succ _, fun _ _ => rfl⟩

theorem Frame.frame_texcache (ra : Ptr) (p : Pass) (t : PtrMap URI Ptr) :
    Frame ra p { p with texcache := t } :=
  ⟨rfl, rfl, le_refl _, fun _ _ => rfl⟩

theorem Frame.frame_modelcache (ra : Ptr) (p : Pass) (t : PtrMap URI ModelCacheEntry) :
    Frame ra p { p with modelcache := t } :=
  ⟨rfl, rfl, le_refl _, fun _ _ => rfl⟩

end Pass

theorem loadModel_frame (w : World) (o : Options) (uri : URI) (ra : Ptr) (p : Pass) :
    Pass.Frame ra p (loadModel w o uri ra p) := by
  unfold loadModel
  split
  · exact Pass.Frame.frame_update ra p _
  · dsimp only
    split
    · exact (((((Pass.Frame.frame_call ra p _).frame_trans (Pass.Frame.frame_alloc ra _)).frame_trans
        (Pass.Frame.frame_update ra _ _)).frame_trans (Pass.Frame.frame_modelcache ra _ _)).frame_trans
        (Pass.Frame.frame_update ra _ _)).frame_trans (Pass.Frame.frame_modelcache ra _ _)
    · exact (Pass.Frame.frame_call ra p _).frame_trans (Pass.Frame.frame_update ra _ _)

theorem loadNormalMap_frame (w : World) (o : Options) (uri : URI) (ra : Ptr) (p : Pass) :
    Pass.Frame ra p (loadNormalMap w o uri p).1 := by
  unfold loadNormalMap
  dsimp only
  split
  · exact (Pass.Frame.frame_call ra p _).frame_trans (Pass.Frame.frame_alloc ra _)
  · split
    · exact ((Pass.Frame.frame_call ra p _).frame_trans (Pass.Frame.frame_call ra _ _)).frame_trans
        (Pass.Frame.frame_alloc ra _)
    · exact (Pass.Frame.frame_call ra p _).frame_trans (Pass.Frame.frame_call ra _ _)

theorem loadSideBillboard_frame (w : World) (o : Options) (uri : URI) (ra : Ptr) (p : Pass) :
    Pass.Frame ra p (loadSideBillboard w o uri ra p) := by
  unfold loadSideBillboard
  split
  · exact (Pass.Frame.frame_update ra p _).frame_trans (Pass.Frame.frame_update ra _ _)
  · dsimp only
    split
    · have h := fun f t => ((((Pass.Frame.frame_call ra p (.getImage uri)).frame_trans
        (Pass.Frame.frame_alloc ra _)).frame_trans (Pass.Frame.frame_update ra _ f)).frame_trans
        (Pass.Frame.frame_texcache ra _ t)).frame_trans (loadNormalMap_frame w o uri ra _)
      split
      · exact (h _ _).frame_trans (Pass.Frame.frame_update ra _ _)
      · exact h _ _
    · exact Pass.Frame.frame_call ra p _

theorem loadTopBillboard_frame (w : World) (o : Options) (uri : URI) (ra : Ptr) (p : Pass) :
    Pass.Frame ra p (loadTopBillboard w o uri ra p) := by
  unfold loadTopBillboard
  split
  · exact (Pass.Frame.frame_update ra p _).frame_trans (Pass.Frame.frame_update ra _ _)
  · dsimp only
    split
    · have h := fun f t => ((((Pass.Frame.frame_call ra p (.getImage uri)).frame_trans
        (Pass.Frame.frame_alloc ra _)).frame_trans (Pass.Frame.frame_update ra _ f)).frame_trans
        (Pass.Frame.frame_texcache ra _ t)).frame_trans (loadNormalMap_frame w o uri ra _)
      split
      · exact (h _ _).frame_trans (Pass.Frame.frame_update ra _ _)
      · exact h _ _
    · exact Pass.Frame.frame_call ra p _

theorem buildImpostor_frame (w : World) (m : BiomeManager) (group : Nat) (a : ModelAsset)
    (bbox : BoundingBox) (ra : Ptr) (p : Pass) :
    Pass.Frame ra p (buildImpostor w m group a bbox ra p) := by
  unfold buildImpostor
  dsimp only
  split
  · split
    · exact (Pass.Frame.frame_alloc ra p).frame_trans (Pass.Frame.frame_update ra _ _)
    · exact Pass.Frame.frame_update ra p _
  · exact Pass.Frame.frame_refl ra p

theorem loadBillboards_frame (w : World) (m : BiomeManager) (o : Options) (group : Nat)
    (a : ModelAsset) (bbox : BoundingBox) (ra : Ptr) (p : Pass) :
    Pass.Frame ra p (loadBillboards w m o group a bbox ra p) := by
  unfold loadBillboards
  dsimp only
  split
  · refine Pass.Frame.frame_trans ?_ (buildImpostor_frame w m group a bbox ra _)
    split
    · exact (loadSideBillboard_frame w o _ ra p).frame_trans (loadTopBillboard_frame w o _ ra _)
    · exact loadSideBillboard_frame w o _ ra p
  · exact Pass.Frame.frame_refl ra p

theorem chonkify_frame (m : BiomeManager) (ra : Ptr) (p : Pass) :
    Pass.Frame ra p (chonkify m ra p) := by
  unfold chonkify
  have h1 : Pass.Frame ra p (match (p.deref ra).model with
      | some model => p.update ra (fun r =>
          { r with chonk := chonkAdd r.chonk model m._lodTransitionPixelScale FLT_MAX })
      | none => p) := by
    split
    · exact Pass.Frame.frame_update ra p _
    · exact Pass.Frame.frame_refl ra p
  dsimp only
  split
  · exact h1.frame_trans (Pass.Frame.frame_update ra _ _)
  · exact h1

theorem loadModelOf_frame (w : World) (o : Options) (a : ModelAsset) (ra : Ptr) (p : Pass) :
    Pass.Frame ra p (loadModelOf w o a ra p) := by
  unfold loadModelOf
  split
  · exact loadModel_frame w o _ ra p
  · exact Pass.Frame.frame_refl ra p

theorem populate_frame (w : World) (m : BiomeManager) (o : Options) (group : Nat)
    (a : ModelAsset) (p : Pass) :
    Pass.Frame p.nextAddr (createRecord a p) (populate w m o group a p).1 :=
  ((loadModelOf_frame w o a p.nextAddr _).frame_trans
    (loadBillboards_frame w m o group a _ p.nextAddr _)).frame_trans (chonkify_frame m p.nextAddr _)

theorem populate_spec (w : World) (m : BiomeManager) (o : Options) (group : Nat)
    (a : ModelAsset) (p : Pass) :
    (populate w m o group a p).2 = p.nextAddr
      ∧ (populate w m o group a p).1._residentModelAssets
          = p._residentModelAssets.insert a p.nextAddr
      ∧ (populate w m o group a p).1.loading = p.loading ++ [a]
      ∧ p.nextAddr < (populate w m o group a p).1.nextAddr
      ∧ ∀ addr, addr ≠ p.nextAddr →
          (populate w m o group a p).1.heap.find? addr = p.heap.find? addr := by
  have h := populate_frame w m o group a p
  refine ⟨rfl, h.cache_eq, h.loading_eq, Nat.lt_of_lt_of_le (Nat.lt_succ_self _) h.next_le, ?_⟩
  intro addr hne
  rw [h.heap_other addr hne]
  show ((p.heap.insert p.nextAddr ResidentModelAsset.create).modify p.nextAddr _).find? addr = _
  rw [PtrMap.find?_modify, PtrMap.find?_insert]
  simp [hne.symm]

/-! ### Growth of the pass data -/

namespace Pass

theorem Grows.grows_refl (p : Pass) : Grows p p where
  next_le := le_refl _
  cache_old := fun _ _ h => h
  cache_new := fun _ _ h => Or.inl h
  heap_old := fun _ _ => rfl
  ok := id
  loading := fun a => by
    cases p._residentModelAssets.find? a <;> simp

theorem Grows.grows_trans {p q r : Pass} (h₁ : Grows p q) (h₂ : Grows q r) : Grows p r where
  next_le := le_trans h₁.next_le h₂.next_le
  cache_old := fun a ptr h => h₂.cache_old a ptr (h₁.cache_old a ptr h)
  cache_new := fun a ptr h => by
    rcases h₂.cache_new a ptr h with hq | ⟨hq, hlo, hhi⟩
    · rcases h₁.cache_new a ptr hq with hp | ⟨hp, hlo, hhi⟩
      · exact Or.inl hp
      · exact Or.inr ⟨hp, hlo, Nat.lt_of_lt_of_le hhi h₂.next_le⟩
    · refine Or.inr ⟨?_, le_trans h₁.next_le hlo, hhi⟩
      cases hp : p._residentModelAssets.find? a with
      | none => rfl
      | some x => rw [h₁.cache_old a x hp] at hq; cases hq
  heap_old := fun addr h =>
    (h₂.heap_old addr (Nat.lt_of_lt_of_le h h₁.next_le)).trans (h₁.heap_old addr h)
  ok := fun h => h₂.ok (h₁.ok h)
  loading := fun a => by
    rw [h₂.loading a, h₁.loading a]
    cases hp : p._residentModelAssets.find? a with
    | some x =>
      rw [h₁.cache_old a x hp, h₂.cache_old a x (h₁.cache_old a x hp)]
      simp
    | none =>
      cases hq : q._residentModelAssets.find? a with
      | some y => rw [h₂.cache_old a y hq]; simp
      | none => cases r._residentModelAssets.find? a <;> simp

end Pass

theorem populate_grows (w : World) (m : BiomeManager) (o : Options) (group : Nat)
    (a : ModelAsset) (p : Pass) (hnone : p._residentModelAssets.find? a = none) :
    Pass.Grows p (populate w m o group a p).1 := by
  obtain ⟨-, hc, hl, hn, hh⟩ := populate_spec w m o group a p
  have hfind : ∀ a', (populate w m o group a p).1._residentModelAssets.find? a'
      = if a = a' then some p.nextAddr else p._residentModelAssets.find? a' := by
    intro a'; rw [hc, PtrMap.find?_insert]
  have hnew : ∀ a' ptr, (populate w m o group a p).1._residentModelAssets.find? a' = some ptr →
      p._residentModelAssets.find? a' = some ptr ∨ (a' = a ∧ ptr = p.nextAddr) := by
    intro a' ptr h
    rw [hfind] at h
    by_cases e : a = a'
    · simp only [e, if_true, Option.some.injEq] at h
      exact Or.inr ⟨e.symm, h.symm⟩
    · simp only [e, if_false] at h
      exact Or.inl h
  refine ⟨Nat.le_of_lt hn, ?_, ?_, ?_, ?_, ?_⟩
  · intro a' ptr h
    rw [hfind]
    by_cases e : a = a'
    · subst e; rw [hnone] at h; cases h
    · simpa [e] using h
  · intro a' ptr h
    rcases hnew a' ptr h with h1 | ⟨h1, h2⟩
    · exact Or.inl h1
    · subst h1; subst h2
      exact Or.inr ⟨hnone, le_refl _, hn⟩
  · intro addr h
    exact hh addr (Nat.ne_of_lt h)
  · intro hok
    refine ⟨?_, ?_⟩
    · intro a' ptr h
      rcases hnew a' ptr h with h1 | ⟨-, h2⟩
      · exact Nat.lt_trans (hok.lt a' ptr h1) hn
      · rw [h2]; exact hn
    · intro a1 a2 ptr h1 h2
      rcases hnew a1 ptr h1 with o1 | ⟨e1, q1⟩
      · rcases hnew a2 ptr h2 with o2 | ⟨-, q2⟩
        · exact hok.inj a1 a2 ptr o1 o2
        · have hlt := hok.lt a1 ptr o1
          rw [q2] at hlt
          exact absurd hlt (Nat.lt_irrefl _)
      · rcases hnew a2 ptr h2 with o2 | ⟨e2, -⟩
        · have hlt := hok.lt a2 ptr o2
          rw [q1] at hlt
          exact absurd hlt (Nat.lt_irrefl _)
        · rw [e1, e2]
  · intro a'
    rw [hl, hfind, List.count_append]
    by_cases e : a = a'
    · subst e; simp [hnone]
    · have e' : ¬ a' = a := fun h => e h.symm
      cases p._residentModelAssets.find? a' <;> simp [e, e']

theorem lookupOrPopulate_spec (w : World) (m : BiomeManager) (o : Options) (group : Nat)
    (a : ModelAsset) (p : Pass) :
    Pass.Grows p (lookupOrPopulate w m o group a p).1
      ∧ (lookupOrPopulate w m o group a p).1._residentModelAssets.find? a
          = some (lookupOrPopulate w m o group a p).2 := by
  unfold lookupOrPopulate
  split
  · rename_i ra h
    exact ⟨Pass.Grows.grows_refl p, h⟩
  · rename_i h
    refine ⟨populate_grows w m o group a p h, ?_⟩
    obtain ⟨h2, hc, -⟩ := populate_spec w m o group a p
    rw [hc, h2, PtrMap.find?_insert]
    simp

theorem materializeEntry_grows (w : World) (m : BiomeManager) (o : Options) (group : Nat)
    (e : ModelAssetToUse) (p : Pass) (insts : ResidentModelAssetInstances) :
    Pass.Grows p (materializeEntry w m o group e p insts).1 := by
  unfold materializeEntry
  split
  · exact Pass.Grows.grows_refl p
  · dsimp only
    split
    · exact (lookupOrPopulate_spec w m o group _ p).1
    · exact (lookupOrPopulate_spec w m o group _ p).1

theorem materializeGroup_grows (w : World) (m : BiomeManager) (o : Options) (group : Nat)
    (l : List ModelAssetToUse) :
    ∀ (p : Pass) (insts : ResidentModelAssetInstances),
      Pass.Grows p (materializeGroup w m o group l p insts).1 := by
  induction l with
  | nil => intro p insts; exact Pass.Grows.grows_refl p
  | cons e rest ih =>
    intro p insts
    exact (materializeEntry_grows w m o group e p insts).grows_trans (ih _ _)

theorem materializeBiome_grows (w : World) (m : BiomeManager) (o : Options) (biome : Biome)
    (groups : List Nat) :
    ∀ p : Pass, Pass.Grows p (materializeBiome w m o biome groups p).1 := by
  induction groups with
  | nil => intro p; exact Pass.Grows.grows_refl p
  | cons g rest ih =>
    intro p
    exact (materializeGroup_grows w m o g _ p []).grows_trans (ih _)

theorem materializeBiomes_grows (w : World) (m : BiomeManager) (o : Options)
    (l : List (Biome × List ResidentModelAssetInstances)) :
    ∀ p : Pass, Pass.Grows p (materializeBiomes w m o l p).1 := by
  induction l with
  | nil => intro p; exact Pass.Grows.grows_refl p
  | cons e rest ih =>
    intro p
    exact (materializeBiome_grows w m o e.1 _ p).grows_trans (ih _)

/-! ### The instances a pass creates -/

theorem Pass.Grows.deref_eq {p q : Pass} (h : Pass.Grows p q) (addr : Ptr)
    (hlt : addr < p.nextAddr) : q.deref addr = p.deref addr := by
  unfold Pass.deref
  rw [h.heap_old addr hlt]

theorem materializeEntry_fst (w : World) (m : BiomeManager) (o : Options) (group : Nat)
    (e : ModelAssetToUse) (p : Pass) (insts : ResidentModelAssetInstances) (a : ModelAsset)
    (ha : e.asset = some a) :
    (materializeEntry w m o group e p insts).1 = (lookupOrPopulate w m o group a p).1 := by
  unfold materializeEntry
  rw [ha]
  dsimp only
  split <;> rfl

theorem materializeEntry_instances (w : World) (m : BiomeManager) (o : Options) (group : Nat)
    (e : ModelAssetToUse) (p : Pass) (insts : ResidentModelAssetInstances) (hok : p.CacheOK)
    (pf : Pass) (hg : Pass.Grows (materializeEntry w m o group e p insts).1 pf) :
    (materializeEntry w m o group e p insts).2 = insts ++ (instanceOf pf e).toList := by
  cases ha : e.asset with
  | none =>
    unfold materializeEntry instanceOf
    simp [ha]
  | some a =>
    rw [materializeEntry_fst w m o group e p insts a ha] at hg
    obtain ⟨hgrow, hfind⟩ := lookupOrPopulate_spec w m o group a p
    have hlt := (hgrow.ok hok).lt a _ hfind
    have hd := hg.deref_eq _ hlt
    have hf := hg.cache_old a _ hfind
    unfold materializeEntry instanceOf
    rw [ha]
    dsimp only
    rw [hf]
    dsimp only
    rw [hd]
    split <;> simp

theorem materializeGroup_instances (w : World) (m : BiomeManager) (o : Options) (group : Nat)
    (l : List ModelAssetToUse) :
    ∀ (p : Pass) (insts : ResidentModelAssetInstances), p.CacheOK →
      ∀ pf : Pass, Pass.Grows (materializeGroup w m o group l p insts).1 pf →
        (materializeGroup w m o group l p insts).2 = insts ++ l.filterMap (instanceOf pf) := by
  induction l with
  | nil => intro p insts _ pf _; simp [materializeGroup]
  | cons e rest ih =>
    intro p insts hok pf hg
    have h1 := materializeEntry_grows w m o group e p insts
    have h2 := materializeGroup_grows w m o group rest
      (materializeEntry w m o group e p insts).1 (materializeEntry w m o group e p insts).2
    show (materializeGroup w m o group rest _ _).2 = _
    rw [ih _ _ (h1.ok hok) pf hg,
      materializeEntry_instances w m o group e p insts hok pf (h2.grows_trans hg)]
    cases hi : instanceOf pf e <;> simp [List.filterMap_cons, hi]

theorem materializeBiome_instances (w : World) (m : BiomeManager) (o : Options) (biome : Biome)
    (groups : List Nat) :
    ∀ p : Pass, p.CacheOK →
      ∀ pf : Pass, Pass.Grows (materializeBiome w m o biome groups p).1 pf →
        (materializeBiome w m o biome groups p).2 = instancesOfBiome w pf biome groups := by
  induction groups with
  | nil => intro p _ pf _; rfl
  | cons g rest ih =>
    intro p hok pf hg
    have h1 := materializeGroup_grows w m o g (w.getModelAssetsToUse biome g) p []
    have h2 := materializeBiome_grows w m o biome rest
      (materializeGroup w m o g (w.getModelAssetsToUse biome g) p []).1
    show _ :: (materializeBiome w m o biome rest _).2 = _
    rw [ih _ (h1.ok hok) pf hg,
      materializeGroup_instances w m o g _ p [] hok pf (h2.grows_trans hg)]
    simp [instancesOfBiome]

theorem materializeBiomes_instances (w : World) (m : BiomeManager) (o : Options)
    (l : List (Biome × List ResidentModelAssetInstances)) :
    ∀ p : Pass, p.CacheOK →
      ∀ pf : Pass, Pass.Grows (materializeBiomes w m o l p).1 pf →
        (materializeBiomes w m o l p).2
          = l.map (fun e => (e.1, instancesOfBiome w pf e.1 (List.range w.NUM_ASSET_GROUPS))) := by
  induction l with
  | nil => intro p _ pf _; rfl
  | cons e rest ih =>
    intro p hok pf hg
    have h1 := materializeBiome_grows w m o e.1 (List.range w.NUM_ASSET_GROUPS) p
    have h2 := materializeBiomes_grows w m o rest
      (materializeBiome w m o e.1 (List.range w.NUM_ASSET_GROUPS) p).1
    show (_, _) :: (materializeBiomes w m o rest _).2 = _
    rw [ih _ (h1.ok hok) pf hg,
      materializeBiome_instances w m o e.1 _ p hok pf (h2.grows_trans hg)]
    simp

/-! ### Residency resolution -/

namespace PtrMap

variable {K V : Type} [DecidableEq K]

theorem find?_foldl_emplace (l : List K) (v : V) :
    ∀ (m : PtrMap K V) (k : K), (l.foldl (fun rb b => rb.emplace b v) m).find? k
      = if k ∈ l then some ((m.find? k).getD v) else m.find? k := by
  induction l with
  | nil => intro m k; simp
  | cons b t ih =>
    intro m k
    rw [List.foldl_cons, ih, find?_emplace]
    by_cases hb : b = k
    · subst hb; simp
    · have hb' : ¬ k = b := fun h => hb h.symm
      simp [hb, hb']

theorem find?_foldl_erase (l : List K) :
    ∀ (m : PtrMap K V) (k : K), (l.foldl (fun rb b => rb.erase b) m).find? k
      = if k ∈ l then none else m.find? k := by
  induction l with
  | nil => intro m k; simp
  | cons b t ih =>
    intro m k
    rw [List.foldl_cons, ih, find?_erase]
    by_cases hb : b = k
    · subst hb; simp
    · have hb' : ¬ k = b := fun h => hb h.symm
      simp [hb, hb']

theorem mem_keys_filter (m : PtrMap K V) (f : K × V → Bool) (k : K) :
    k ∈ (m.entries.filter f).map Prod.fst ↔ ∃ v, m.find? k = some v ∧ f (k, v) = true := by
  constructor
  · intro h
    obtain ⟨⟨k', v⟩, hmem, hk⟩ := List.mem_map.mp h
    simp only at hk
    subst hk
    rw [List.mem_filter] at hmem
    exact ⟨v, (find?_eq_some_iff m k' v).mpr hmem.1, hmem.2⟩
  · rintro ⟨v, hv, hf⟩
    exact List.mem_map.mpr ⟨(k, v),
      List.mem_filter.mpr ⟨(find?_eq_some_iff m k v).mp hv, hf⟩, rfl⟩

end PtrMap

namespace BiomeManager

theorem mem_active_iff (m : BiomeManager) (b : Biome) :
    b ∈ (m._refs.entries.filter (fun e => decide (e.2 > 0))).map Prod.fst ↔ 0 < m.count b := by
  rw [PtrMap.mem_keys_filter]
  unfold count
  cases m._refs.find? b <;> simp

theorem mem_inactive_iff (m : BiomeManager) (b : Biome) :
    b ∈ (m._refs.entries.filter (fun e => !decide (e.2 > 0))).map Prod.fst
      ↔ b ∈ m._refs.keys ∧ ¬ 0 < m.count b := by
  rw [PtrMap.mem_keys_filter, PtrMap.mem_keys_iff]
  unfold count
  cases m._refs.find? b <;> simp

theorem recalculateResidentBiomes_find? (w : World) (m : BiomeManager) (b : Biome) :
    (m.recalculateResidentBiomes w)._residentBiomes.find? b
      = if b ∈ m._refs.keys ∧ ¬ 0 < m.count b then none
        else if 0 < m.count b then
          some ((m._residentBiomes.find? b).getD (List.replicate w.NUM_ASSET_GROUPS []))
        else m._residentBiomes.find? b := by
  unfold recalculateResidentBiomes
  dsimp only
  rw [PtrMap.find?_foldl_erase, PtrMap.find?_foldl_emplace]
  simp only [mem_active_iff, mem_inactive_iff]

theorem recalculateResidentBiomes_cache_find? (w : World) (m : BiomeManager) (a : ModelAsset) :
    (m.recalculateResidentBiomes w)._residentModelAssets.find? a
      = if (∃ p, m._residentModelAssets.find? a = some p ∧
            use_count (m.recalculateResidentBiomes w)._residentBiomes
              m._residentModelAssets p = 1)
        then none else m._residentModelAssets.find? a := by
  unfold recalculateResidentBiomes
  dsimp only
  rw [PtrMap.find?_foldl_erase]
  simp only [PtrMap.mem_keys_filter, decide_eq_true_eq]

theorem count_positive_mem_keys (m : BiomeManager) (b : Biome) (h : 0 < m.count b) :
    b ∈ m._refs.keys := by
  rw [PtrMap.mem_keys_iff]
  unfold count at h
  cases hf : m._refs.find? b with
  | none => simp [hf] at h
  | some c => rfl

end BiomeManager

theorem filter_value_length_one {K V : Type} [DecidableEq K] [DecidableEq V] (a : K) (p : V) :
    ∀ l : List (K × V), (l.map Prod.fst).Nodup → (∀ e ∈ l, e.2 = p → e.1 = a) → (a, p) ∈ l →
      (l.filter (fun e => decide (e.2 = p))).length = 1 := by
  intro l
  induction l with
  | nil => intro _ _ h; simp at h
  | cons e t ih =>
    intro hn hall hmem
    simp only [List.map_cons, List.nodup_cons] at hn
    by_cases h1 : e = (a, p)
    · subst h1
      have hnil : t.filter (fun e => decide (e.2 = p)) = [] := by
        rw [List.filter_eq_nil_iff]
        intro e' he' hp
        simp only [decide_eq_true_eq] at hp
        have h2 := hall e' (List.mem_cons_of_mem _ he') hp
        exact hn.1 (List.mem_map.mpr ⟨e', he', h2⟩)
      simp [List.filter_cons, hnil]
    · have hin : (a, p) ∈ t := by
        rcases List.mem_cons.mp hmem with h2 | h2
        · exact absurd h2.symm h1
        · exact h2
      have hne : ¬ e.2 = p := by
        intro hp
        have h2 := hall e (List.mem_cons_self _ _) hp
        exact hn.1 (List.mem_map.mpr ⟨(a, p), hin, h2.symm⟩)
      simp only [List.filter_cons, hne, decide_False, Bool.false_eq_true, if_false]
      exact ih hn.2 (fun e' he' => hall e' (List.mem_cons_of_mem _ he')) hin

/-! ### The invariant of reachable states -/

theorem alFind_map_values {K V : Type} [DecidableEq K] (f : K → V → V) (k : K)
    (l : List (K × V)) :
    alFind k (l.map (fun e => (e.1, f e.1 e.2))) = (alFind k l).map (f k) := by
  induction l with
  | nil => rfl
  | cons e t ih =>
    by_cases h : e.1 = k
    · subst h; simp [alFind]
    · simp [alFind, h, ih]

namespace PtrMap

variable {K V : Type} [DecidableEq K]

theorem find?_mapValues (m : PtrMap K V) (f : K → V → V) (k : K) :
    (m.mapValues f).find? k = (m.find? k).map (f k) :=
  alFind_map_values f k m.entries

end PtrMap

namespace BiomeManager

theorem ref_frame (m : BiomeManager) (biome : Biome) :
    (m.ref biome)._residentBiomes = m._residentBiomes
      ∧ (m.ref biome)._residentModelAssets = m._residentModelAssets
      ∧ (m.ref biome).nextAddr = m.nextAddr := by
  unfold ref
  dsimp only
  split_ifs <;> exact ⟨rfl, rfl, rfl⟩

theorem unref_frame (m : BiomeManager) (biome : Biome) :
    (m.unref biome)._residentBiomes = m._residentBiomes
      ∧ (m.unref biome)._residentModelAssets = m._residentModelAssets
      ∧ (m.unref biome).nextAddr = m.nextAddr := by
  unfold unref
  split
  · exact ⟨rfl, rfl, rfl⟩
  · dsimp only
    split_ifs <;> exact ⟨rfl, rfl, rfl⟩

theorem ref_keys (m : BiomeManager) (biome b : Biome) (h : b ∈ m._refs.keys) :
    b ∈ (m.ref biome)._refs.keys := by
  rw [PtrMap.mem_keys_iff] at h ⊢
  rw [ref_refs, PtrMap.find?_modify, PtrMap.find?_emplace]
  by_cases hb : biome = b
  · simp [hb]
  · simpa [hb] using h

theorem unref_keys (m : BiomeManager) (biome b : Biome) (h : b ∈ m._refs.keys) :
    b ∈ (m.unref biome)._refs.keys := by
  rw [unref_refs]
  split
  · exact h
  · show b ∈ (m._refs.modify biome _).keys
    rw [PtrMap.keys_modify]; exact h

end BiomeManager

namespace Inv

theorem of_frame {w : World} {m m' : BiomeManager} (h : Inv w m)
    (hk : ∀ b, b ∈ m._refs.keys → b ∈ m'._refs.keys)
    (hf : m'._residentBiomes = m._residentBiomes
      ∧ m'._residentModelAssets = m._residentModelAssets ∧ m'.nextAddr = m.nextAddr) :
    Inv w m' := by
  obtain ⟨h1, h2, h3⟩ := hf
  refine ⟨?_, ?_, ?_, ?_⟩
  · intro b hb; rw [h1] at hb; exact hk b (h.resident_referenced b hb)
  · intro a p hp; rw [h2] at hp; rw [h3]; exact h.cache_lt a p hp
  · intro a a' p hp hp'; rw [h2] at hp hp'; exact h.cache_inj a a' p hp hp'
  · intro b groups insts inst a hb hg hi hc
    rw [h1] at hb; rw [h2] at hc
    exact h.instance_listed b groups insts inst a hb hg hi hc

theorem init (w : World) : Inv w BiomeManager.new := by
  refine ⟨?_, ?_, ?_, ?_⟩
  · intro b hb; cases hb
  · intro a p hp; cases hp
  · intro a a' p hp; cases hp
  · intro b groups insts inst a hb; cases hb

theorem after_setLOD {w : World} {m : BiomeManager} (h : Inv w m) (v : float) :
    Inv w (m.setLODTransitionPixelScale v) := by
  refine ⟨h.resident_referenced, ?_, ?_, ?_⟩
  · intro a p hp; cases hp
  · intro a a' p hp; cases hp
  · intro b groups insts inst a _ _ _ hc; cases hc

theorem after_recalculate {w : World} {m : BiomeManager} (h : Inv w m) :
    Inv w (m.recalculateResidentBiomes w) := by
  have hcache : ∀ a p, (m.recalculateResidentBiomes w)._residentModelAssets.find? a = some p →
      m._residentModelAssets.find? a = some p := by
    intro a p hp
    rw [BiomeManager.recalculateResidentBiomes_cache_find?] at hp
    split at hp
    · cases hp
    · exact hp
  refine ⟨?_, ?_, ?_, ?_⟩
  · intro b hb
    rw [PtrMap.mem_keys_iff, BiomeManager.recalculateResidentBiomes_find?] at hb
    show b ∈ m._refs.keys
    split at hb
    · cases hb
    · split at hb
      · rename_i hpos
        exact BiomeManager.count_positive_mem_keys m b hpos
      · exact h.resident_referenced b ((PtrMap.mem_keys_iff _ _).mpr hb)
  · intro a p hp
    exact h.cache_lt a p (hcache a p hp)
  · intro a a' p hp hp'
    exact h.cache_inj a a' p (hcache a p hp) (hcache a' p hp')
  · intro b groups insts inst a hb hg hi hc
    rw [BiomeManager.recalculateResidentBiomes_find?] at hb
    split at hb
    · cases hb
    · split at hb
      · cases hold : m._residentBiomes.find? b with
        | some old =>
          rw [hold] at hb
          simp only [Option.getD_some, Option.some.injEq] at hb
          subst hb
          exact h.instance_listed b old insts inst a hold hg hi (hcache a _ hc)
        | none =>
          rw [hold] at hb
          simp only [Option.getD_none, Option.some.injEq] at hb
          subst hb
          rw [List.mem_replicate] at hg
          rw [hg.2] at hi
          cases hi
      · exact h.instance_listed b groups insts inst a hb hg hi (hcache a _ hc)

theorem after_reset {w : World} {m : BiomeManager} (h : Inv w m) : Inv w (m.reset w) := by
  unfold BiomeManager.reset
  apply Inv.after_recalculate
  refine h.of_frame ?_ ⟨rfl, rfl, rfl⟩
  intro b hb
  rw [PtrMap.mem_keys_iff] at hb ⊢
  show ((m._refs.mapValues _).find? b).isSome = true
  rw [PtrMap.find?_mapValues]
  simpa using hb

end Inv

namespace BiomeManager

theorem startPass_ok {w : World} {m : BiomeManager} (h : Inv w m) : m.startPass.CacheOK :=
  ⟨h.cache_lt, h.cache_inj⟩

theorem runPass_grows (w : World) (m : BiomeManager) (o : Options) :
    Pass.Grows m.startPass (runPass w m o).1 :=
  materializeBiomes_grows w m o _ _

theorem materializeNewAssets_entries {w : World} {m : BiomeManager} (h : Inv w m)
    (o : Options) :
    (m.materializeNewAssets w o)._residentBiomes.entries
      = m._residentBiomes.entries.map (fun e =>
          (e.1, instancesOfBiome w (runPass w m o).1 e.1 (List.range w.NUM_ASSET_GROUPS))) :=
  materializeBiomes_instances w m o _ _ (startPass_ok h) _ (Pass.Grows.grows_refl _)

theorem materializeNewAssets_find? {w : World} {m : BiomeManager} (h : Inv w m)
    (o : Options) (b : Biome) :
    (m.materializeNewAssets w o)._residentBiomes.find? b
      = (m._residentBiomes.find? b).map (fun _ =>
          instancesOfBiome w (runPass w m o).1 b (List.range w.NUM_ASSET_GROUPS)) := by
  unfold PtrMap.find?
  rw [materializeNewAssets_entries h]
  exact alFind_map_values
    (fun k _ => instancesOfBiome w (runPass w m o).1 k (List.range w.NUM_ASSET_GROUPS)) b _

theorem materializeNewAssets_keys (w : World) (m : BiomeManager) (o : Options) :
    (m.materializeNewAssets w o)._residentBiomes.keys = m._residentBiomes.keys :=
  materializeBiomes_keys w m o _ _

end BiomeManager

theorem instanceOf_some {pf : Pass} {e : ModelAssetToUse} {inst : ResidentModelAssetInstance}
    (h : instanceOf pf e = some inst) :
    ∃ a, e.asset = some a ∧ pf._residentModelAssets.find? a = some inst.residentAsset
      ∧ inst.weight = e.weight ∧ inst.coverage = e.coverage
      ∧ ((pf.deref inst.residentAsset).sideBillboardTex.isSome
          || (pf.deref inst.residentAsset).model.isSome) = true := by
  unfold instanceOf at h
  cases ha : e.asset with
  | none => simp [ha] at h
  | some a =>
    cases hf : pf._residentModelAssets.find? a with
    | none => simp [ha, hf] at h
    | some ptr =>
      simp only [ha, hf] at h
      split at h
      · rename_i hc
        simp only [Option.some.injEq] at h
        subst h
        exact ⟨a, rfl, hf, rfl, rfl, hc⟩
      · cases h

theorem mem_instancesOfBiome {w : World} {pf : Pass} {b : Biome} {groups : List Nat}
    {insts : ResidentModelAssetInstances} {inst : ResidentModelAssetInstance}
    (hg : insts ∈ instancesOfBiome w pf b groups) (hi : inst ∈ insts) :
    ∃ g ∈ groups, ∃ e ∈ w.getModelAssetsToUse b g, instanceOf pf e = some inst := by
  unfold instancesOfBiome at hg
  obtain ⟨g, hg1, hg2⟩ := List.mem_map.mp hg
  subst hg2
  obtain ⟨e, he1, he2⟩ := List.mem_filterMap.mp hi
  exact ⟨g, hg1, e, he1, he2⟩

namespace Inv

theorem after_materialize {w : World} {m : BiomeManager} (h : Inv w m) (o : Options) :
    Inv w (m.materializeNewAssets w o) := by
  have hok : (BiomeManager.runPass w m o).1.CacheOK :=
    (BiomeManager.runPass_grows w m o).ok (BiomeManager.startPass_ok h)
  refine ⟨?_, hok.lt, hok.inj, ?_⟩
  · intro b hb
    rw [BiomeManager.materializeNewAssets_keys] at hb
    exact h.resident_referenced b hb
  · intro b groups insts inst a hb hg hi hc
    rw [BiomeManager.materializeNewAssets_find? h] at hb
    cases hold : m._residentBiomes.find? b with
    | none => rw [hold] at hb; cases hb
    | some old =>
      rw [hold] at hb
      simp only [Option.map_some', Option.some.injEq] at hb
      subst hb
      obtain ⟨g, -, e, he, hinst⟩ := mem_instancesOfBiome hg hi
      obtain ⟨a0, ha0, hf0, -⟩ := instanceOf_some hinst
      have : a = a0 := hok.inj a a0 _ hc hf0
      subst this
      exact ⟨g, e, he, ha0⟩

theorem after_apply {w : World} {m : BiomeManager} (h : Inv w m) (op : Op) : Inv w (op.apply w m) := by
  cases op with
  | ref biome => exact h.of_frame (BiomeManager.ref_keys m biome) (BiomeManager.ref_frame m biome)
  | refTile biome key image =>
    exact h.of_frame (BiomeManager.ref_keys m biome) (BiomeManager.ref_frame m biome)
  | unref biome =>
    exact h.of_frame (BiomeManager.unref_keys m biome) (BiomeManager.unref_frame m biome)
  | reset => exact h.after_reset
  | setLODTransitionPixelScale value => exact h.after_setLOD value
  | recalculateResidentBiomes => exact h.after_recalculate
  | materializeNewAssets o => exact h.after_materialize o
  | getResidentBiomes o => exact h.after_recalculate.after_materialize o
  | getActiveBiomes => exact h
  | getResidentAssets => exact h
  | setCreateFunction group func => exact h.of_frame (fun _ hb => hb) ⟨rfl, rfl, rfl⟩

end Inv

theorem Reachable.inv {w : World} {m : BiomeManager} (h : Reachable w m) : Inv w m := by
  induction h with
  | new => exact Inv.init w
  | step m op _ ih => exact ih.after_apply op

/-! ### Claims on residency resolution -/

theorem Reachable.run {w : World} (ops : List Op) :
    ∀ {m : BiomeManager}, Reachable w m → Reachable w (run w m ops) := by
  induction ops with
  | nil => intro m h; exact h
  | cons op rest ih => intro m h; exact ih (Reachable.step m op h)

namespace Inv

theorem recalculate_find? {w : World} {m : BiomeManager} (h : Inv w m) (b : Biome) :
    (m.recalculateResidentBiomes w)._residentBiomes.find? b
      = if 0 < m.count b then
          some ((m._residentBiomes.find? b).getD (List.replicate w.NUM_ASSET_GROUPS []))
        else none := by
  rw [BiomeManager.recalculateResidentBiomes_find?]
  by_cases hpos : 0 < m.count b
  · simp [hpos]
  · by_cases hk : b ∈ m._refs.keys
    · simp [hpos, hk]
    · have hnone : m._residentBiomes.find? b = none := by
        cases hf : m._residentBiomes.find? b with
        | none => rfl
        | some x =>
          exact absurd (h.resident_referenced b
            ((PtrMap.mem_keys_iff _ _).mpr (by rw [hf]; rfl))) hk
      simp [hpos, hk, hnone]

theorem recalculate_keys {w : World} {m : BiomeManager} (h : Inv w m) (b : Biome) :
    b ∈ (m.recalculateResidentBiomes w)._residentBiomes.keys ↔ 0 < m.count b := by
  rw [PtrMap.mem_keys_iff, h.recalculate_find?]
  by_cases hpos : 0 < m.count b <;> simp [hpos]

theorem use_count_eq {w : World} {m : BiomeManager} (h : Inv w m) (rb : ResidentBiomes)
    (a : ModelAsset) (p : Ptr) (hf : m._residentModelAssets.find? a = some p) :
    BiomeManager.use_count rb m._residentModelAssets p
      = 1 + ((BiomeManager.allInstances rb).filter
          (fun i => decide (i.residentAsset = p))).length := by
  unfold BiomeManager.use_count
  rw [filter_value_length_one a p m._residentModelAssets.entries
    m._residentModelAssets.nodupKeys ?_ ((PtrMap.find?_eq_some_iff _ _ _).mp hf)]
  intro e he hp
  have he' : m._residentModelAssets.find? e.1 = some p := by
    rw [PtrMap.find?_eq_some_iff, ← hp]; exact he
  exact h.cache_inj e.1 a p he' hf

theorem recalculate_cache {w : World} {m : BiomeManager} (h : Inv w m) (a : ModelAsset)
    (p : Ptr) :
    (m.recalculateResidentBiomes w)._residentModelAssets.find? a = some p
      ↔ (m._residentModelAssets.find? a = some p
          ∧ ∃ inst ∈ BiomeManager.allInstances (m.recalculateResidentBiomes w)._residentBiomes,
              inst.residentAsset = p) := by
  rw [BiomeManager.recalculateResidentBiomes_cache_find?]
  constructor
  · intro hp
    split at hp
    · cases hp
    · rename_i hno
      refine ⟨hp, ?_⟩
      by_contra hnone
      apply hno
      refine ⟨p, hp, ?_⟩
      rw [h.use_count_eq _ a p hp]
      have : (BiomeManager.allInstances (m.recalculateResidentBiomes w)._residentBiomes).filter
          (fun i => decide (i.residentAsset = p)) = [] := by
        rw [List.filter_eq_nil_iff]
        intro i hi hip
        exact hnone ⟨i, hi, by simpa using hip⟩
      rw [this]; rfl
  · rintro ⟨hp, inst, hi, hip⟩
    have hno : ¬ ∃ p', m._residentModelAssets.find? a = some p' ∧
        BiomeManager.use_count (m.recalculateResidentBiomes w)._residentBiomes
          m._residentModelAssets p' = 1 := by
      rintro ⟨p', hp', hu⟩
      rw [hp] at hp'
      cases hp'
      rw [h.use_count_eq _ a p hp] at hu
      have hmem : inst ∈ (BiomeManager.allInstances
          (m.recalculateResidentBiomes w)._residentBiomes).filter
            (fun i => decide (i.residentAsset = p)) :=
        List.mem_filter.mpr ⟨hi, by simpa using hip⟩
      have hpos := List.length_pos_of_mem hmem
      omega
    simp only [hno, if_false]
    exact hp

end Inv

/-- C5: in a state reachable from a fresh manager, after `recalculateResidentBiomes()` the
resident-asset cache holds exactly the previously cached records that at least one instance
of the new resident-biome table (the entries that remain) refers to: a record no remaining
instance refers to is evicted, a record some remaining instance refers to survives. -/
theorem recalculateResidentBiomes_evicts_unreferenced (w : World) (m : BiomeManager)
    (h : Reachable w m) (a : ModelAsset) (p : Ptr) :
    (m.recalculateResidentBiomes w)._residentModelAssets.find? a = some p
      ↔ (m._residentModelAssets.find? a = some p
          ∧ ∃ inst ∈ BiomeManager.allInstances (m.recalculateResidentBiomes w)._residentBiomes,
              inst.residentAsset = p) :=
  h.inv.recalculate_cache a p

/-- Witness of C5: biomes 1 and 2 were resident with their assets, then biome 1 was
released; asset 11, which biome 2 also uses, is looked at. -/
theorem recalculateResidentBiomes_evicts_unreferenced_witness :
    Reachable demoWorld
        (run demoWorld BiomeManager.new [.ref 1, .ref 2, .getResidentBiomes 0, .unref 1])
      ∧ (((run demoWorld BiomeManager.new [.ref 1, .ref 2, .getResidentBiomes 0, .unref 1]
            ).recalculateResidentBiomes demoWorld)._residentModelAssets.find? 11 = some 3
          ↔ ((run demoWorld BiomeManager.new [.ref 1, .ref 2, .getResidentBiomes 0, .unref 1]
              )._residentModelAssets.find? 11 = some 3
            ∧ ∃ inst ∈ BiomeManager.allInstances
                ((run demoWorld BiomeManager.new [.ref 1, .ref 2, .getResidentBiomes 0,
                  .unref 1]).recalculateResidentBiomes demoWorld)._residentBiomes,
                inst.residentAsset = 3)) :=
  ⟨Reachable.run _ Reachable.new,
    recalculateResidentBiomes_evicts_unreferenced demoWorld _
      (Reachable.run _ Reachable.new) 11 3⟩

/-! ### Where new cache entries come from -/

theorem lookupOrPopulate_cache (w : World) (m : BiomeManager) (o : Options) (group : Nat)
    (a a' : ModelAsset) (p : Pass)
    (h : ((lookupOrPopulate w m o group a p).1._residentModelAssets.find? a').isSome) :
    (p._residentModelAssets.find? a').isSome ∨ a = a' := by
  unfold lookupOrPopulate at h
  split at h
  · exact Or.inl h
  · rw [(populate_spec w m o group a p).2.1, PtrMap.find?_insert] at h
    by_cases e : a = a'
    · exact Or.inr e
    · simp only [e, if_false] at h
      exact Or.inl h

theorem materializeEntry_cache (w : World) (m : BiomeManager) (o : Options) (group : Nat)
    (e : ModelAssetToUse) (p : Pass) (insts : ResidentModelAssetInstances) (a' : ModelAsset)
    (h : ((materializeEntry w m o group e p insts).1._residentModelAssets.find? a').isSome) :
    (p._residentModelAssets.find? a').isSome ∨ e.asset = some a' := by
  cases ha : e.asset with
  | none =>
    unfold materializeEntry at h
    simp only [ha] at h
    exact Or.inl h
  | some a =>
    rw [materializeEntry_fst w m o group e p insts a ha] at h
    rcases lookupOrPopulate_cache w m o group a a' p h with h1 | h1
    · exact Or.inl h1
    · exact Or.inr (by rw [h1])

theorem materializeGroup_cache (w : World) (m : BiomeManager) (o : Options) (group : Nat)
    (a' : ModelAsset) (l : List ModelAssetToUse) :
    ∀ (p : Pass) (insts : ResidentModelAssetInstances),
      ((materializeGroup w m o group l p insts).1._residentModelAssets.find? a').isSome →
        (p._residentModelAssets.find? a').isSome ∨ ∃ e ∈ l, e.asset = some a' := by
  induction l with
  | nil => intro p insts h; exact Or.inl h
  | cons e rest ih =>
    intro p insts h
    rcases ih _ _ h with h1 | ⟨e', he', h1⟩
    · rcases materializeEntry_cache w m o group e p insts a' h1 with h2 | h2
      · exact Or.inl h2
      · exact Or.inr ⟨e, List.mem_cons_self _ _, h2⟩
    · exact Or.inr ⟨e', List.mem_cons_of_mem _ he', h1⟩

theorem materializeBiome_cache (w : World) (m : BiomeManager) (o : Options) (biome : Biome)
    (a' : ModelAsset) (groups : List Nat) :
    ∀ p : Pass,
      ((materializeBiome w m o biome groups p).1._residentModelAssets.find? a').isSome →
        (p._residentModelAssets.find? a').isSome
          ∨ ∃ g ∈ groups, ∃ e ∈ w.getModelAssetsToUse biome g, e.asset = some a' := by
  induction groups with
  | nil => intro p h; exact Or.inl h
  | cons g rest ih =>
    intro p h
    rcases ih _ h with h1 | ⟨g', hg', h1⟩
    · rcases materializeGroup_cache w m o g a' _ p [] h1 with h2 | h2
      · exact Or.inl h2
      · exact Or.inr ⟨g, List.mem_cons_self _ _, h2⟩
    · exact Or.inr ⟨g', List.mem_cons_of_mem _ hg', h1⟩

theorem materializeBiomes_cache (w : World) (m : BiomeManager) (o : Options)
    (a' : ModelAsset) (l : List (Biome × List ResidentModelAssetInstances)) :
    ∀ p : Pass,
      ((materializeBiomes w m o l p).1._residentModelAssets.find? a').isSome →
        (p._residentModelAssets.find? a').isSome
          ∨ ∃ b ∈ l.map Prod.fst, ∃ g ∈ List.range w.NUM_ASSET_GROUPS,
              ∃ e ∈ w.getModelAssetsToUse b g, e.asset = some a' := by
  induction l with
  | nil => intro p h; exact Or.inl h
  | cons x rest ih =>
    intro p h
    rcases ih _ h with h1 | ⟨b, hb, h1⟩
    · rcases materializeBiome_cache w m o x.1 a' _ p h1 with h2 | h2
      · exact Or.inl h2
      · exact Or.inr ⟨x.1, by simp, h2⟩
    · exact Or.inr ⟨b, by
        rw [List.map_cons]; exact List.mem_cons_of_mem _ hb, h1⟩

theorem BiomeManager.mem_allInstances (rb : ResidentBiomes) (inst : ResidentModelAssetInstance) :
    inst ∈ BiomeManager.allInstances rb
      ↔ ∃ b groups insts, rb.find? b = some groups ∧ insts ∈ groups ∧ inst ∈ insts := by
  unfold BiomeManager.allInstances
  simp only [List.mem_flatten, List.mem_map]
  constructor
  · rintro ⟨l, ⟨⟨b, groups⟩, hmem, rfl⟩, hi⟩
    obtain ⟨insts, hg, hii⟩ := List.mem_flatten.mp hi
    exact ⟨b, groups, insts, (PtrMap.find?_eq_some_iff rb b groups).mpr hmem, hg, hii⟩
  · rintro ⟨b, groups, insts, hf, hg, hi⟩
    exact ⟨groups.flatten, ⟨(b, groups), (PtrMap.find?_eq_some_iff rb b groups).mp hf, rfl⟩,
      List.mem_flatten.mpr ⟨insts, hg, hi⟩⟩

/-- After `getResidentBiomes`, from a state satisfying the invariant, every asset definition
of the resident-asset cache is named by a group list of a resident biome. -/
theorem Inv.getResidentBiomes_cache_listed {w : World} {m : BiomeManager} (h : Inv w m)
    (o : Options) (a : ModelAsset) (ha : a ∈ (m.getResidentBiomes w o).1.getResidentAssets) :
    ∃ b ∈ (m.getResidentBiomes w o).2.keys, ∃ g, ∃ e ∈ w.getModelAssetsToUse b g,
      e.asset = some a := by
  have hr := h.after_recalculate
  have hkeys : (m.getResidentBiomes w o).2.keys
      = (m.recalculateResidentBiomes w)._residentBiomes.keys :=
    BiomeManager.materializeNewAssets_keys w _ o
  rw [hkeys]
  have ha' : ((BiomeManager.runPass w (m.recalculateResidentBiomes w) o).1._residentModelAssets.find?
      a).isSome := (PtrMap.mem_keys_iff _ a).mp ha
  rcases materializeBiomes_cache w _ o a _ _ ha' with h1 | ⟨b, hb, g, -, e, he, hea⟩
  · obtain ⟨p, hp⟩ := Option.isSome_iff_exists.mp h1
    have hp' : (m.recalculateResidentBiomes w)._residentModelAssets.find? a = some p := hp
    obtain ⟨-, inst, hi, hip⟩ := (h.recalculate_cache a p).mp hp'
    obtain ⟨b, groups, insts, hf, hg, hii⟩ := (BiomeManager.mem_allInstances _ inst).mp hi
    obtain ⟨g, e, he, hea⟩ := hr.instance_listed b groups insts inst a hf hg hii (by rw [hip]; exact hp')
    exact ⟨b, (PtrMap.mem_keys_iff _ b).mpr (by rw [hf]; rfl), g, e, he, hea⟩
  · exact ⟨b, hb, g, e, he, hea⟩

theorem Inv.getResidentBiomes_keys {w : World} {m : BiomeManager} (h : Inv w m) (o : Options)
    (b : Biome) : b ∈ (m.getResidentBiomes w o).2.keys ↔ 0 < m.count b := by
  have hkeys : (m.getResidentBiomes w o).2.keys
      = (m.recalculateResidentBiomes w)._residentBiomes.keys :=
    BiomeManager.materializeNewAssets_keys w _ o
  rw [hkeys]
  exact h.recalculate_keys b

theorem BiomeManager.getResidentBiomes_count (w : World) (m : BiomeManager) (o : Options)
    (b : Biome) : (m.getResidentBiomes w o).1.count b = m.count b := rfl

/-! ### Listed definitions are cached by the pass -/

theorem materializeEntry_cached (w : World) (m : BiomeManager) (o : Options) (group : Nat)
    (e : ModelAssetToUse) (p : Pass) (insts : ResidentModelAssetInstances) (a : ModelAsset)
    (ha : e.asset = some a) :
    ((materializeEntry w m o group e p insts).1._residentModelAssets.find? a).isSome := by
  rw [materializeEntry_fst w m o group e p insts a ha, (lookupOrPopulate_spec w m o group a p).2]
  rfl

theorem Pass.Grows.cached {p q : Pass} (h : Pass.Grows p q) (a : ModelAsset)
    (hp : (p._residentModelAssets.find? a).isSome) :
    (q._residentModelAssets.find? a).isSome := by
  obtain ⟨x, hx⟩ := Option.isSome_iff_exists.mp hp
  rw [h.cache_old a x hx]; rfl

theorem materializeGroup_cached (w : World) (m : BiomeManager) (o : Options) (group : Nat)
    (a : ModelAsset) (l : List ModelAssetToUse) :
    ∀ (p : Pass) (insts : ResidentModelAssetInstances), (∃ e ∈ l, e.asset = some a) →
      ((materializeGroup w m o group l p insts).1._residentModelAssets.find? a).isSome := by
  induction l with
  | nil => rintro p insts ⟨e, he, -⟩; cases he
  | cons x rest ih =>
    rintro p insts ⟨e, he, hea⟩
    rcases List.mem_cons.mp he with h1 | h1
    · subst h1
      exact (materializeGroup_grows w m o group rest _ _).cached a
        (materializeEntry_cached w m o group e p insts a hea)
    · exact ih _ _ ⟨e, h1, hea⟩

theorem materializeBiome_cached (w : World) (m : BiomeManager) (o : Options) (biome : Biome)
    (a : ModelAsset) (groups : List Nat) :
    ∀ p : Pass, (∃ g ∈ groups, ∃ e ∈ w.getModelAssetsToUse biome g, e.asset = some a) →
      ((materializeBiome w m o biome groups p).1._residentModelAssets.find? a).isSome := by
  induction groups with
  | nil => rintro p ⟨g, hg, -⟩; cases hg
  | cons x rest ih =>
    rintro p ⟨g, hg, hex⟩
    rcases List.mem_cons.mp hg with h1 | h1
    · subst h1
      exact (materializeBiome_grows w m o biome rest _).cached a
        (materializeGroup_cached w m o g a _ p [] hex)
    · exact ih _ ⟨g, h1, hex⟩

theorem materializeBiomes_cached (w : World) (m : BiomeManager) (o : Options)
    (a : ModelAsset) (l : List (Biome × List ResidentModelAssetInstances)) :
    ∀ p : Pass, (∃ b ∈ l.map Prod.fst, ∃ g ∈ List.range w.NUM_ASSET_GROUPS,
        ∃ e ∈ w.getModelAssetsToUse b g, e.asset = some a) →
      ((materializeBiomes w m o l p).1._residentModelAssets.find? a).isSome := by
  induction l with
  | nil => rintro p ⟨b, hb, -⟩; cases hb
  | cons x rest ih =>
    rintro p ⟨b, hb, hex⟩
    rw [List.map_cons] at hb
    rcases List.mem_cons.mp hb with h1 | h1
    · subst h1
      exact (materializeBiomes_grows w m o rest _).cached a
        (materializeBiome_cached w m o x.1 a _ p hex)
    · exact ih _ ⟨b, h1, hex⟩

/-! ### Claims on materialisation -/

theorem Inv.materialize_instance {w : World} {m : BiomeManager} (h : Inv w m) (o : Options)
    (b : Biome) (groups : List ResidentModelAssetInstances)
    (insts : ResidentModelAssetInstances) (inst : ResidentModelAssetInstance)
    (hb : (m.materializeNewAssets w o)._residentBiomes.find? b = some groups)
    (hg : insts ∈ groups) (hi : inst ∈ insts) :
    ∃ g ∈ List.range w.NUM_ASSET_GROUPS, ∃ e ∈ w.getModelAssetsToUse b g,
      instanceOf (BiomeManager.runPass w m o).1 e = some inst := by
  rw [BiomeManager.materializeNewAssets_find? h] at hb
  cases hold : m._residentBiomes.find? b with
  | none => rw [hold] at hb; cases hb
  | some old =>
    rw [hold] at hb
    simp only [Option.map_some', Option.some.injEq] at hb
    subst hb
    exact mem_instancesOfBiome hg hi

/-- Counterexample to C8 as stated: the only asset of the resident biome 1 has a loaded top
billboard texture (its side billboard did not load, it has no model), and the pass appends
no instance to the group's list. -/
theorem top_billboard_alone_yields_no_instance :
    topOnlyWorld.getModelAssetsToUse 1 0 = [⟨some 10, 1, 1⟩]
      ∧ (run topOnlyWorld BiomeManager.new
          [.ref 1, .getResidentBiomes 0])._residentModelAssets.find? 10 = some 0
      ∧ ((run topOnlyWorld BiomeManager.new
          [.ref 1, .getResidentBiomes 0]).deref 0).topBillboardTex = some ⟨1, 5⟩
      ∧ (run topOnlyWorld BiomeManager.new
          [.ref 1, .getResidentBiomes 0])._residentBiomes.find? 1 = some [[]] := by
  decide

/-- C9, evaluation at the failing input: the asset uses `x.png`, which loads, as side and as
top billboard; after the pass its record has the side texture made from the image, and no
top texture, the image having been requested once. -/
theorem same_uri_top_billboard_left_empty :
    sameBillboardWorld.getImage 0 "x.png" = some 7
      ∧ topBB sameBillboardWorld 10 = "x.png"
      ∧ (run sameBillboardWorld BiomeManager.new
          [.ref 1, .getResidentBiomes 0])._residentModelAssets.find? 10 = some 0
      ∧ ((run sameBillboardWorld BiomeManager.new
          [.ref 1, .getResidentBiomes 0]).deref 0).sideBillboardTex = some ⟨1, 7⟩
      ∧ ((run sameBillboardWorld BiomeManager.new
          [.ref 1, .getResidentBiomes 0]).deref 0).topBillboardTex = none
      ∧ ((run sameBillboardWorld BiomeManager.new
          [.ref 1, .recalculateResidentBiomes]).loadCalls sameBillboardWorld 0).count
            (.getImage "x.png") = 1 := by
  decide

/-! ### The model cache of a pass -/

namespace Pass

theorem deref_update_self (p : Pass) (ra : Ptr) (f : ResidentModelAsset → ResidentModelAsset) :
    (p.update ra f).deref ra = ((p.heap.find? ra).map f).getD default := by
  unfold deref update
  simp [PtrMap.find?_modify]

theorem find?_update_self (p : Pass) (ra : Ptr) (f : ResidentModelAsset → ResidentModelAsset) :
    (p.update ra f).heap.find? ra = (p.heap.find? ra).map f := by
  unfold update
  simp [PtrMap.find?_modify]

theorem KeepsModel.keeps_refl (ra : Ptr) (p : Pass) : KeepsModel ra p p :=
  ⟨rfl, fun _ => rfl, rfl, rfl⟩

theorem KeepsModel.keeps_trans {ra : Ptr} {p q r : Pass} (h₁ : KeepsModel ra p q)
    (h₂ : KeepsModel ra q r) : KeepsModel ra p r :=
  ⟨h₂.modelcache_eq.trans h₁.modelcache_eq, fun u => (h₂.getNode_eq u).trans (h₁.getNode_eq u),
    h₂.model_eq.trans h₁.model_eq, h₂.bbox_eq.trans h₁.bbox_eq⟩

theorem KeepsModel.keeps_update (ra : Ptr) (p : Pass) (f : ResidentModelAsset → ResidentModelAsset)
    (hm : ∀ r, (f r).model = r.model) (hb : ∀ r, (f r).boundingBox = r.boundingBox) :
    KeepsModel ra p (p.update ra f) := by
  refine ⟨rfl, fun _ => rfl, ?_, ?_⟩
  · rw [deref_update_self]
    unfold deref
    cases p.heap.find? ra <;> simp [hm]
  · rw [deref_update_self]
    unfold deref
    cases p.heap.find? ra <;> simp [hb]

theorem KeepsModel.keeps_callImage (ra : Ptr) (p : Pass) (u : URI) :
    KeepsModel ra p (p.call (.getImage u)) :=
  ⟨rfl, fun v => by simp [Pass.call, List.count_append], rfl, rfl⟩

theorem KeepsModel.keeps_alloc (ra : Ptr) (p : Pass) : KeepsModel ra p p.alloc :=
  ⟨rfl, fun _ => rfl, rfl, rfl⟩

theorem KeepsModel.keeps_texcache (ra : Ptr) (p : Pass) (t : PtrMap URI Ptr) :
    KeepsModel ra p { p with texcache := t } :=
  ⟨rfl, fun _ => rfl, rfl, rfl⟩

end Pass

theorem loadNormalMap_keeps (w : World) (o : Options) (uri : URI) (ra : Ptr) (p : Pass) :
    Pass.KeepsModel ra p (loadNormalMap w o uri p).1 := by
  unfold loadNormalMap
  dsimp only
  split
  · exact (Pass.KeepsModel.keeps_callImage ra p _).keeps_trans (Pass.KeepsModel.keeps_alloc ra _)
  · split
    · exact ((Pass.KeepsModel.keeps_callImage ra p _).keeps_trans (Pass.KeepsModel.keeps_callImage ra _ _)).keeps_trans
        (Pass.KeepsModel.keeps_alloc ra _)
    · exact (Pass.KeepsModel.keeps_callImage ra p _).keeps_trans (Pass.KeepsModel.keeps_callImage ra _ _)

theorem loadSideBillboard_keeps (w : World) (o : Options) (uri : URI) (ra : Ptr) (p : Pass) :
    Pass.KeepsModel ra p (loadSideBillboard w o uri ra p) := by
  unfold loadSideBillboard
  split
  · exact (Pass.KeepsModel.keeps_update ra p _ (by intro _; rfl) (by intro _; rfl)).keeps_trans
      (Pass.KeepsModel.keeps_update ra _ _ (by intro _; rfl) (by intro _; rfl))
  · dsimp only
    split
    · have h := fun t => ((((Pass.KeepsModel.keeps_callImage ra p uri).keeps_trans
        (Pass.KeepsModel.keeps_alloc ra _)).keeps_trans
        (Pass.KeepsModel.keeps_update ra _ (fun r => { r with sideBillboardTex := some t })
          (by intro _; rfl) (by intro _; rfl))).keeps_trans
        (Pass.KeepsModel.keeps_texcache ra _ (p.texcache.insert uri ra))).keeps_trans
        (loadNormalMap_keeps w o uri ra _)
      split
      · exact (h _).keeps_trans (Pass.KeepsModel.keeps_update ra _ _ (by intro _; rfl) (by intro _; rfl))
      · exact h _
    · exact Pass.KeepsModel.keeps_callImage ra p _

theorem loadTopBillboard_keeps (w : World) (o : Options) (uri : URI) (ra : Ptr) (p : Pass) :
    Pass.KeepsModel ra p (loadTopBillboard w o uri ra p) := by
  unfold loadTopBillboard
  split
  · exact (Pass.KeepsModel.keeps_update ra p _ (by intro _; rfl) (by intro _; rfl)).keeps_trans
      (Pass.KeepsModel.keeps_update ra _ _ (by intro _; rfl) (by intro _; rfl))
  · dsimp only
    split
    · have h := fun t => ((((Pass.KeepsModel.keeps_callImage ra p uri).keeps_trans
        (Pass.KeepsModel.keeps_alloc ra _)).keeps_trans
        (Pass.KeepsModel.keeps_update ra _ (fun r => { r with topBillboardTex := some t })
          (by intro _; rfl) (by intro _; rfl))).keeps_trans
        (Pass.KeepsModel.keeps_texcache ra _ (p.texcache.insert uri ra))).keeps_trans
        (loadNormalMap_keeps w o uri ra _)
      split
      · exact (h _).keeps_trans (Pass.KeepsModel.keeps_update ra _ _ (by intro _; rfl) (by intro _; rfl))
      · exact h _
    · exact Pass.KeepsModel.keeps_callImage ra p _

theorem buildImpostor_keeps (w : World) (m : BiomeManager) (group : Nat) (a : ModelAsset)
    (bbox : BoundingBox) (ra : Ptr) (p : Pass) :
    Pass.KeepsModel ra p (buildImpostor w m group a bbox ra p) := by
  unfold buildImpostor
  dsimp only
  split
  · split
    · exact (Pass.KeepsModel.keeps_alloc ra p).keeps_trans
        (Pass.KeepsModel.keeps_update ra _ _ (by intro _; rfl) (by intro _; rfl))
    · exact Pass.KeepsModel.keeps_update ra p _ (by intro _; rfl) (by intro _; rfl)
  · exact Pass.KeepsModel.keeps_refl ra p

theorem loadBillboards_keeps (w : World) (m : BiomeManager) (o : Options) (group : Nat)
    (a : ModelAsset) (bbox : BoundingBox) (ra : Ptr) (p : Pass) :
    Pass.KeepsModel ra p (loadBillboards w m o group a bbox ra p) := by
  unfold loadBillboards
  dsimp only
  split
  · refine Pass.KeepsModel.keeps_trans ?_ (buildImpostor_keeps w m group a bbox ra _)
    split
    · exact (loadSideBillboard_keeps w o _ ra p).keeps_trans (loadTopBillboard_keeps w o _ ra _)
    · exact loadSideBillboard_keeps w o _ ra p
  · exact Pass.KeepsModel.keeps_refl ra p

theorem chonkify_keeps (m : BiomeManager) (ra : Ptr) (p : Pass) :
    Pass.KeepsModel ra p (chonkify m ra p) := by
  unfold chonkify
  have h1 : Pass.KeepsModel ra p (match (p.deref ra).model with
      | some model => p.update ra (fun r =>
          { r with chonk := chonkAdd r.chonk model m._lodTransitionPixelScale FLT_MAX })
      | none => p) := by
    split
    · exact Pass.KeepsModel.keeps_update ra p _ (by intro _; rfl) (by intro _; rfl)
    · exact Pass.KeepsModel.keeps_refl ra p
  dsimp only
  split
  · exact h1.keeps_trans (Pass.KeepsModel.keeps_update ra _ _ (by intro _; rfl) (by intro _; rfl))
  · exact h1

theorem createRecord_spec (a : ModelAsset) (p : Pass) :
    (createRecord a p).heap.find? p.nextAddr
        = some { ResidentModelAsset.create with assetDef := some a }
      ∧ (createRecord a p).modelcache = p.modelcache
      ∧ (createRecord a p).calls = p.calls := by
  refine ⟨?_, rfl, rfl⟩
  show ((p.heap.insert p.nextAddr ResidentModelAsset.create).modify p.nextAddr _).find?
    p.nextAddr = _
  rw [PtrMap.find?_modify, PtrMap.find?_insert]
  simp

theorem loadModel_hit (w : World) (o : Options) (uri : URI) (ra : Ptr) (p : Pass)
    (e : ModelCacheEntry) (h : p.modelcache.find? uri = some e)
    (hra : (p.heap.find? ra).isSome) :
    (loadModel w o uri ra p).modelcache = p.modelcache
      ∧ (loadModel w o uri ra p).calls = p.calls
      ∧ ((loadModel w o uri ra p).deref ra).model = e._node
      ∧ ((loadModel w o uri ra p).deref ra).boundingBox = e._modelAABB := by
  obtain ⟨r, hr⟩ := Option.isSome_iff_exists.mp hra
  unfold loadModel
  rw [h]
  dsimp only
  refine ⟨rfl, rfl, ?_, ?_⟩ <;> rw [Pass.deref_update_self, hr] <;> rfl

theorem loadModel_fail (w : World) (o : Options) (uri : URI) (ra : Ptr) (p : Pass)
    (h : p.modelcache.find? uri = none) (hd : w.getNode o uri = none) :
    (loadModel w o uri ra p).modelcache = p.modelcache
      ∧ (loadModel w o uri ra p).calls = p.calls ++ [.getNode uri] := by
  unfold loadModel
  rw [h]
  dsimp only
  rw [hd]
  exact ⟨rfl, rfl⟩

theorem loadModel_load (w : World) (o : Options) (uri : URI) (ra : Ptr) (p : Pass) (d : Nat)
    (h : p.modelcache.find? uri = none) (hd : w.getNode o uri = some d)
    (hra : (p.heap.find? ra).isSome) :
    (∀ u, (loadModel w o uri ra p).modelcache.find? u
        = if uri = u then some ⟨some ⟨p.nextAddr, d⟩, w.computeBounds d⟩
          else p.modelcache.find? u)
      ∧ (loadModel w o uri ra p).calls = p.calls ++ [.getNode uri]
      ∧ ((loadModel w o uri ra p).deref ra).model = some ⟨p.nextAddr, d⟩
      ∧ ((loadModel w o uri ra p).deref ra).boundingBox = w.computeBounds d := by
  obtain ⟨r, hr⟩ := Option.isSome_iff_exists.mp hra
  unfold loadModel
  rw [h]
  dsimp only
  rw [hd]
  dsimp only
  refine ⟨?_, rfl, ?_, ?_⟩
  · intro u
    by_cases hu : uri = u
    · subst hu
      simp [Pass.deref, Pass.update, Pass.call, Pass.alloc, PtrMap.find?_modify,
        PtrMap.find?_emplace, h, hr]
    · simp [hu, Pass.update, Pass.call, Pass.alloc, PtrMap.find?_modify,
        PtrMap.find?_emplace]
  · simp [Pass.deref, Pass.update, Pass.call, Pass.alloc, PtrMap.find?_modify, hr]
  · simp [Pass.deref, Pass.update, Pass.call, Pass.alloc, PtrMap.find?_modify, hr]

theorem count_getNode_append (l : List LoadCall) (u v : URI) :
    (l ++ [LoadCall.getNode u]).count (.getNode v)
      = l.count (.getNode v) + if u = v then 1 else 0 := by
  rw [List.count_append, List.count_singleton]
  by_cases h : u = v
  · subst h; simp
  · have h' : ¬ LoadCall.getNode v = LoadCall.getNode u := by
      intro e; injection e with e; exact h e.symm
    simp [h, h']

/-- Effect of the model block on the model cache, on the number of requests of a loadable
model URI `uri`, and on the record being populated. -/
theorem loadModelOf_summary (w : World) (o : Options) (a : ModelAsset) (ra : Ptr) (p : Pass)
    (uri : URI) (data : Nat) (hload : w.getNode o uri = some data)
    (hra : (p.heap.find? ra).isSome) :
    (∀ e, p.modelcache.find? uri = some e →
        (loadModelOf w o a ra p).modelcache.find? uri = some e
          ∧ (loadModelOf w o a ra p).calls.count (.getNode uri) = p.calls.count (.getNode uri))
      ∧ (p.modelcache.find? uri = none → (w.assetDef a).modelURI = some uri →
          (loadModelOf w o a ra p).modelcache.find? uri
              = some ⟨some ⟨p.nextAddr, data⟩, w.computeBounds data⟩
            ∧ (loadModelOf w o a ra p).calls.count (.getNode uri)
                = p.calls.count (.getNode uri) + 1)
      ∧ (p.modelcache.find? uri = none → (w.assetDef a).modelURI ≠ some uri →
          (loadModelOf w o a ra p).modelcache.find? uri = none
            ∧ (loadModelOf w o a ra p).calls.count (.getNode uri)
                = p.calls.count (.getNode uri))
      ∧ ((w.assetDef a).modelURI = some uri →
          ∃ e, (loadModelOf w o a ra p).modelcache.find? uri = some e
            ∧ ((loadModelOf w o a ra p).deref ra).model = e._node
            ∧ ((loadModelOf w o a ra p).deref ra).boundingBox = e._modelAABB) := by
  unfold loadModelOf
  cases hm : (w.assetDef a).modelURI with
  | none =>
    dsimp only
    refine ⟨fun e he => ⟨he, rfl⟩, fun _ h => (by cases h), fun h _ => ⟨h, rfl⟩,
      fun h => (by cases h)⟩
  | some uri' =>
    dsimp only
    cases hc : p.modelcache.find? uri' with
    | some e' =>
      obtain ⟨h1, h2, h3, h4⟩ := loadModel_hit w o uri' ra p e' hc hra
      rw [h1, h2]
      refine ⟨fun e he => ⟨he, rfl⟩, ?_, fun h _ => ⟨h, rfl⟩, ?_⟩
      · intro hn hu
        simp only [Option.some.injEq] at hu
        subst hu
        rw [hc] at hn; cases hn
      · intro hu
        simp only [Option.some.injEq] at hu
        subst hu
        exact ⟨e', hc, h3, h4⟩
    | none =>
      cases hd : w.getNode o uri' with
      | none =>
        obtain ⟨h1, h2⟩ := loadModel_fail w o uri' ra p hc hd
        have hne : uri' ≠ uri := by
          intro e; subst e; rw [hload] at hd; cases hd
        rw [h1, h2, count_getNode_append]
        simp only [hne, if_false, Nat.add_zero]
        refine ⟨fun e he => ⟨he, trivial⟩, ?_, fun h _ => ⟨h, trivial⟩, ?_⟩
        · intro _ hu
          simp only [Option.some.injEq] at hu
          exact absurd hu hne
        · intro hu
          simp only [Option.some.injEq] at hu
          exact absurd hu hne
      | some d =>
        obtain ⟨h1, h2, h3, h4⟩ := loadModel_load w o uri' ra p d hc hd hra
        rw [h1 uri, h2, count_getNode_append]
        by_cases hu : uri' = uri
        · subst hu
          rw [hload] at hd
          simp only [Option.some.injEq] at hd
          subst hd
          simp only [if_true]
          refine ⟨?_, fun _ _ => ⟨trivial, trivial⟩, ?_, ?_⟩
          · intro e he; rw [hc] at he; cases he
          · intro _ hne; exact absurd rfl hne
          · intro _; exact ⟨_, rfl, h3, h4⟩
        · simp only [hu, if_false, Nat.add_zero]
          refine ⟨fun e he => ⟨he, trivial⟩, ?_, fun h _ => ⟨h, trivial⟩, ?_⟩
          · intro _ hu'
            simp only [Option.some.injEq] at hu'
            exact absurd hu' hu
          · intro hu'
            simp only [Option.some.injEq] at hu'
            exact absurd hu' hu

theorem populate_keeps (w : World) (m : BiomeManager) (o : Options) (group : Nat)
    (a : ModelAsset) (p : Pass) :
    Pass.KeepsModel p.nextAddr (loadModelOf w o a p.nextAddr (createRecord a p))
      (populate w m o group a p).1 :=
  (loadBillboards_keeps w m o group a _ p.nextAddr _).keeps_trans (chonkify_keeps m p.nextAddr _)

/-- Effect of the population of a new record on the model cache, on the number of requests
of a loadable model URI, and on the new record. -/
theorem populate_summary (w : World) (m : BiomeManager) (o : Options) (group : Nat)
    (a : ModelAsset) (p : Pass) (uri : URI) (data : Nat) (hload : w.getNode o uri = some data) :
    (∀ e, p.modelcache.find? uri = some e →
        (populate w m o group a p).1.modelcache.find? uri = some e
          ∧ (populate w m o group a p).1.calls.count (.getNode uri)
              = p.calls.count (.getNode uri))
      ∧ (p.modelcache.find? uri = none → (w.assetDef a).modelURI = some uri →
          (∃ n, (populate w m o group a p).1.modelcache.find? uri
              = some ⟨some ⟨n, data⟩, w.computeBounds data⟩)
            ∧ (populate w m o group a p).1.calls.count (.getNode uri)
                = p.calls.count (.getNode uri) + 1)
      ∧ (p.modelcache.find? uri = none → (w.assetDef a).modelURI ≠ some uri →
          (populate w m o group a p).1.modelcache.find? uri = none
            ∧ (populate w m o group a p).1.calls.count (.getNode uri)
                = p.calls.count (.getNode uri))
      ∧ ((w.assetDef a).modelURI = some uri →
          ∃ e, (populate w m o group a p).1.modelcache.find? uri = some e
            ∧ ((populate w m o group a p).1.deref p.nextAddr).model = e._node
            ∧ ((populate w m o group a p).1.deref p.nextAddr).boundingBox = e._modelAABB) := by
  obtain ⟨hh, hmc, hcalls⟩ := createRecord_spec a p
  have hk := populate_keeps w m o group a p
  obtain ⟨s1, s2, s3, s4⟩ := loadModelOf_summary w o a p.nextAddr (createRecord a p) uri data
    hload (by rw [hh]; rfl)
  rw [hmc, hcalls] at s1 s2 s3
  rw [hk.modelcache_eq, hk.getNode_eq uri, hk.model_eq, hk.bbox_eq]
  exact ⟨s1, fun h1 h2 => ⟨⟨_, (s2 h1 h2).1⟩, (s2 h1 h2).2⟩, s3, s4⟩

theorem populate_modelInv (w : World) (m : BiomeManager) (o : Options) (group : Nat)
    (a' : ModelAsset) (p : Pass) (uri : URI) (data : Nat) (c0 : PtrMap ModelAsset Ptr)
    (hload : w.getNode o uri = some data) (hnone : p._residentModelAssets.find? a' = none)
    (hinv : ModelInv w uri data c0 p) :
    ModelInv w uri data c0 (populate w m o group a' p).1 := by
  obtain ⟨-, hc, -, hn, hh⟩ := populate_spec w m o group a' p
  obtain ⟨s1, s2, s3, s4⟩ := populate_summary w m o group a' p uri data hload
  have hfind : ∀ a, (populate w m o group a' p).1._residentModelAssets.find? a
      = if a' = a then some p.nextAddr else p._residentModelAssets.find? a := by
    intro a; rw [hc, PtrMap.find?_insert]
  refine ⟨?_, ?_, ?_, ?_, ?_⟩
  · have hcount := hinv.count
    cases hmc : p.modelcache.find? uri with
    | some e =>
      rw [(s1 e hmc).1, (s1 e hmc).2, hcount, hmc]
    | none =>
      rw [hmc] at hcount
      by_cases hu : (w.assetDef a').modelURI = some uri
      · obtain ⟨⟨n, h1⟩, h2⟩ := s2 hmc hu
        rw [h1, h2, hcount]; rfl
      · obtain ⟨h1, h2⟩ := s3 hmc hu
        rw [h1, h2, hcount]
  · intro e he
    cases hmc : p.modelcache.find? uri with
    | some e0 =>
      rw [(s1 e0 hmc).1] at he
      rw [← Option.some.inj he]
      exact hinv.entry e0 hmc
    | none =>
      by_cases hu : (w.assetDef a').modelURI = some uri
      · obtain ⟨⟨n, h1⟩, -⟩ := s2 hmc hu
        rw [h1] at he
        rw [← Option.some.inj he]
        exact ⟨⟨n, rfl⟩, rfl⟩
      · rw [(s3 hmc hu).1] at he
        cases he
  · intro a ptr hq hc0 hua
    rw [hfind] at hq
    by_cases haa : a' = a
    · subst haa
      simp only [if_true, Option.some.injEq] at hq
      subst hq
      exact s4 hua
    · simp only [haa, if_false] at hq
      obtain ⟨e, he, hm1, hm2⟩ := hinv.records a ptr hq hc0 hua
      have hlt := hinv.fresh a ptr hq hc0
      have hd : (populate w m o group a' p).1.deref ptr = p.deref ptr := by
        unfold Pass.deref
        rw [hh ptr (Nat.ne_of_lt hlt)]
      rw [hd]
      exact ⟨e, (s1 e he).1, hm1, hm2⟩
  · intro a ptr hq hc0
    rw [hfind] at hq
    by_cases haa : a' = a
    · simp only [haa, if_true, Option.some.injEq] at hq
      rw [← hq]; exact hn
    · simp only [haa, if_false] at hq
      exact Nat.lt_trans (hinv.fresh a ptr hq hc0) hn
  · intro a ptr h0
    have hp := hinv.old a ptr h0
    rw [hfind]
    by_cases haa : a' = a
    · subst haa; rw [hnone] at hp; cases hp
    · simpa [haa] using hp

theorem materializeEntry_modelInv (w : World) (m : BiomeManager) (o : Options) (group : Nat)
    (e : ModelAssetToUse) (p : Pass) (insts : ResidentModelAssetInstances) (uri : URI)
    (data : Nat) (c0 : PtrMap ModelAsset Ptr) (hload : w.getNode o uri = some data)
    (hinv : ModelInv w uri data c0 p) :
    ModelInv w uri data c0 (materializeEntry w m o group e p insts).1 := by
  cases ha : e.asset with
  | none =>
    unfold materializeEntry
    simp only [ha]
    exact hinv
  | some a =>
    rw [materializeEntry_fst w m o group e p insts a ha]
    unfold lookupOrPopulate
    split
    · exact hinv
    · rename_i hnone
      exact populate_modelInv w m o group a p uri data c0 hload hnone hinv

theorem materializeGroup_modelInv (w : World) (m : BiomeManager) (o : Options) (group : Nat)
    (uri : URI) (data : Nat) (c0 : PtrMap ModelAsset Ptr) (hload : w.getNode o uri = some data)
    (l : List ModelAssetToUse) :
    ∀ (p : Pass) (insts : ResidentModelAssetInstances), ModelInv w uri data c0 p →
      ModelInv w uri data c0 (materializeGroup w m o group l p insts).1 := by
  induction l with
  | nil => intro p insts h; exact h
  | cons e rest ih =>
    intro p insts h
    exact ih _ _ (materializeEntry_modelInv w m o group e p insts uri data c0 hload h)

theorem materializeBiome_modelInv (w : World) (m : BiomeManager) (o : Options) (biome : Biome)
    (uri : URI) (data : Nat) (c0 : PtrMap ModelAsset Ptr) (hload : w.getNode o uri = some data)
    (groups : List Nat) :
    ∀ p : Pass, ModelInv w uri data c0 p →
      ModelInv w uri data c0 (materializeBiome w m o biome groups p).1 := by
  induction groups with
  | nil => intro p h; exact h
  | cons g rest ih =>
    intro p h
    exact ih _ (materializeGroup_modelInv w m o g uri data c0 hload _ p [] h)

theorem materializeBiomes_modelInv (w : World) (m : BiomeManager) (o : Options)
    (uri : URI) (data : Nat) (c0 : PtrMap ModelAsset Ptr) (hload : w.getNode o uri = some data)
    (l : List (Biome × List ResidentModelAssetInstances)) :
    ∀ p : Pass, ModelInv w uri data c0 p →
      ModelInv w uri data c0 (materializeBiomes w m o l p).1 := by
  induction l with
  | nil => intro p h; exact h
  | cons x rest ih =>
    intro p h
    exact ih _ (materializeBiome_modelInv w m o x.1 uri data c0 hload _ p h)

theorem BiomeManager.startPass_modelInv (w : World) (m : BiomeManager) (uri : URI)
    (data : Nat) : ModelInv w uri data m._residentModelAssets m.startPass := by
  refine ⟨rfl, ?_, ?_, ?_, fun _ _ h => h⟩
  · intro e he; cases he
  · intro a ptr h1 h2
    have h1' : m._residentModelAssets.find? a = some ptr := h1
    rw [h2] at h1'; cases h1'
  · intro a ptr h1 h2
    have h1' : m._residentModelAssets.find? a = some ptr := h1
    rw [h2] at h1'; cases h1'

/-- C10: in one `materializeNewAssets` pass, let `uri` be a model URI the loader loads, used
by a definition `a₁` that a group list of a resident biome names and that has no record yet.
Then the model loader is invoked exactly once for `uri`, and there is one node, made from
the loaded content, such that every definition with this model URI that got its record in
this pass (every listed definition without a record does, so also a second, third, ...
distinct one) holds that very node and the box computed from it. -/
theorem model_uri_loaded_once (w : World) (m : BiomeManager) (o : Options) (uri : URI)
    (data : Nat) (hload : w.getNode o uri = some data) (a₁ : ModelAsset)
    (hlisted : ∃ b ∈ m._residentBiomes.keys, ∃ g ∈ List.range w.NUM_ASSET_GROUPS,
      ∃ e ∈ w.getModelAssetsToUse b g, e.asset = some a₁)
    (hnew : m._residentModelAssets.find? a₁ = none)
    (huri : (w.assetDef a₁).modelURI = some uri) :
    (m.loadCalls w o).count (.getNode uri) = 1
      ∧ ∃ node : Node, node.data = data
        ∧ (∀ a ptr, (m.materializeNewAssets w o)._residentModelAssets.find? a = some ptr →
            m._residentModelAssets.find? a = none → (w.assetDef a).modelURI = some uri →
              ((m.materializeNewAssets w o).deref ptr).model = some node
                ∧ ((m.materializeNewAssets w o).deref ptr).boundingBox = w.computeBounds data)
        ∧ (∀ a, (∃ b ∈ m._residentBiomes.keys, ∃ g ∈ List.range w.NUM_ASSET_GROUPS,
              ∃ e ∈ w.getModelAssetsToUse b g, e.asset = some a) →
            ∃ ptr, (m.materializeNewAssets w o)._residentModelAssets.find? a = some ptr) := by
  have hinv : ModelInv w uri data m._residentModelAssets (BiomeManager.runPass w m o).1 :=
    materializeBiomes_modelInv w m o uri data _ hload _ _
      (BiomeManager.startPass_modelInv w m uri data)
  have hcached : ∀ a, (∃ b ∈ m._residentBiomes.keys, ∃ g ∈ List.range w.NUM_ASSET_GROUPS,
      ∃ e ∈ w.getModelAssetsToUse b g, e.asset = some a) →
      ∃ ptr, (BiomeManager.runPass w m o).1._residentModelAssets.find? a = some ptr :=
    fun a ha => Option.isSome_iff_exists.mp
      (materializeBiomes_cached w m o a m._residentBiomes.entries m.startPass ha)
  obtain ⟨p₁, hp₁⟩ := hcached a₁ hlisted
  obtain ⟨e, he, -, -⟩ := hinv.records a₁ p₁ hp₁ hnew huri
  obtain ⟨⟨n, hn⟩, hbox⟩ := hinv.entry e he
  refine ⟨?_, ⟨n, data⟩, rfl, ?_, hcached⟩
  · have hc := hinv.count
    rw [he] at hc
    exact hc
  · intro a ptr hptr hnone hu
    obtain ⟨e', he', hm1, hm2⟩ := hinv.records a ptr hptr hnone hu
    rw [he] at he'
    rw [← Option.some.inj he'] at hm1 hm2
    exact ⟨hm1.trans hn, hm2.trans hbox⟩

/-- Witness of C10: biome 1 of the demo catalog, whose assets 10 and 11 share the model
`tree.osgb`, has been referenced and made resident, nothing is materialised yet. -/
theorem model_uri_loaded_once_witness :
    demoWorld.getNode 0 "tree.osgb" = some 7
      ∧ ((run demoWorld BiomeManager.new [.ref 1, .recalculateResidentBiomes]).loadCalls
          demoWorld 0).count (.getNode "tree.osgb") = 1 :=
  ⟨rfl,
    (model_uri_loaded_once demoWorld
      (run demoWorld BiomeManager.new [.ref 1, .recalculateResidentBiomes]) 0 "tree.osgb" 7 rfl
      10 ⟨1, by decide, 0, by decide, ⟨some 10, 1, 1⟩, by decide, rfl⟩ (by decide) rfl).1⟩

/-! ### Claims on configuration, reset and benign unref -/

/-- C12: `setLODTransitionPixelScale(v)`, in any state, empties the resident-asset cache (so
`getResidentAssets()` is empty), raises the revision by exactly one, makes
`getLODTransitionPixelScale()` return `v`, and leaves the reference table (hence every count)
and the key set of the resident-biome table as they were. -/
theorem setLODTransitionPixelScale_effect (m : BiomeManager) (v : float) :
    (m.setLODTransitionPixelScale v).getResidentAssets = []
      ∧ (m.setLODTransitionPixelScale v).getRevision = m.getRevision + 1
      ∧ (m.setLODTransitionPixelScale v).getLODTransitionPixelScale = v
      ∧ (m.setLODTransitionPixelScale v)._refs = m._refs
      ∧ (∀ b, (m.setLODTransitionPixelScale v).count b = m.count b)
      ∧ (m.setLODTransitionPixelScale v)._residentBiomes.keys = m._residentBiomes.keys :=
  ⟨rfl, rfl, rfl, rfl, fun _ => rfl, rfl⟩

/-- C14: `unref(b)` in a state where `b` has no reference-table entry or has count 0 returns
normally and leaves the whole manager state as it was (no entry is created, no count, the
revision and the resident data do not change). -/
theorem unref_without_reference_changes_nothing (m : BiomeManager) (b : Biome)
    (h : m.count b = 0) : m.unref b = m := by
  unfold BiomeManager.count at h
  unfold BiomeManager.unref
  cases hf : m._refs.find? b with
  | none => rfl
  | some c =>
    rw [hf] at h
    simp only [Option.getD_some] at h
    simp [h]

/-- Witness of C14: biome 1 was referenced once and released once, so its entry exists with
count 0; a second `unref(1)` changes nothing. -/
theorem unref_without_reference_changes_nothing_witness :
    (run demoWorld BiomeManager.new [.ref 1, .unref 1]).count 1 = 0
      ∧ (run demoWorld BiomeManager.new [.ref 1, .unref 1]).unref 1
          = run demoWorld BiomeManager.new [.ref 1, .unref 1] :=
  ⟨by decide, unref_without_reference_changes_nothing _ 1 (by decide)⟩

theorem PtrMap.entries_eq_nil {K V : Type} [DecidableEq K] (m : PtrMap K V)
    (h : ∀ k, m.find? k = none) : m.entries = [] := by
  have hk : m.entries.map Prod.fst = [] := by
    rw [List.eq_nil_iff_forall_not_mem]
    intro k
    exact (alFind_eq_none_iff k m.entries).mp (h k)
  exact List.map_eq_nil_iff.mp hk

/-- C13: in a state reachable from a fresh manager, `reset()` keeps the entries of the
reference table and sets the count of each to 0, raises the revision by exactly one (whether
or not a biome was active), and leaves nothing resident: `getActiveBiomes()` is empty, the
resident-biome table is empty and the resident-asset cache is empty. -/
theorem reset_releases_everything (w : World) (m : BiomeManager) (h : Reachable w m) :
    (m.reset w)._refs.keys = m._refs.keys
      ∧ (∀ b, (m.reset w)._refs.find? b = (m._refs.find? b).map (fun _ => 0))
      ∧ (m.reset w).getRevision = m.getRevision + 1
      ∧ (m.reset w).getActiveBiomes = []
      ∧ (m.reset w)._residentBiomes.entries = []
      ∧ (m.reset w).getResidentAssets = [] := by
  have hreset : m.reset w = m.resetCounts.recalculateResidentBiomes w := rfl
  have h0 : Inv w m.resetCounts := by
    refine h.inv.of_frame ?_ ⟨rfl, rfl, rfl⟩
    intro b hb
    rw [PtrMap.mem_keys_iff] at hb ⊢
    show ((m._refs.mapValues _).find? b).isSome = true
    rw [PtrMap.find?_mapValues]
    simpa using hb
  have hcount : ∀ b, ¬ 0 < m.resetCounts.count b := by
    intro b
    show ¬ 0 < ((m._refs.mapValues (fun _ _ => 0)).find? b).getD 0
    rw [PtrMap.find?_mapValues]
    cases m._refs.find? b <;> simp
  have hrb : (m.reset w)._residentBiomes.entries = [] := by
    apply PtrMap.entries_eq_nil
    intro b
    rw [hreset, h0.recalculate_find?]
    simp [hcount b]
  refine ⟨?_, ?_, rfl, ?_, hrb, ?_⟩
  · show (m._refs.mapValues (fun _ _ => 0)).keys = m._refs.keys
    simp [PtrMap.keys, PtrMap.mapValues, List.map_map, Function.comp_def]
  · intro b
    exact PtrMap.find?_mapValues m._refs (fun _ _ => 0) b
  · rw [List.eq_nil_iff_forall_not_mem]
    intro b hb
    exact hcount b ((BiomeManager.mem_active_iff _ b).mp hb)
  · have hc : (m.reset w)._residentModelAssets.entries = [] := by
      apply PtrMap.entries_eq_nil
      intro a
      cases hf : (m.reset w)._residentModelAssets.find? a with
      | none => rfl
      | some p =>
        rw [hreset] at hf
        obtain ⟨-, inst, hi, -⟩ := (h0.recalculate_cache a p).mp hf
        have hi' : inst ∈ BiomeManager.allInstances (m.reset w)._residentBiomes := hi
        unfold BiomeManager.allInstances at hi'
        rw [hrb] at hi'
        cases hi'
    show (m.reset w)._residentModelAssets.entries.map Prod.fst = []
    rw [hc]; rfl

/-- Witness of C13: biomes 1 and 2 are resident with their assets. -/
theorem reset_releases_everything_witness :
    Reachable demoWorld (run demoWorld BiomeManager.new [.ref 1, .ref 2, .getResidentBiomes 0])
      ∧ ((run demoWorld BiomeManager.new [.ref 1, .ref 2, .getResidentBiomes 0]).reset
          demoWorld).getResidentAssets = []
      ∧ ((run demoWorld BiomeManager.new [.ref 1, .ref 2, .getResidentBiomes 0]).reset
          demoWorld)._refs.keys = [1, 2] :=
  ⟨Reachable.run _ Reachable.new,
    (reset_releases_everything demoWorld _ (Reachable.run _ Reachable.new)).2.2.2.2.2,
    ((reset_releases_everything demoWorld _ (Reachable.run _ Reachable.new)).1).trans
      (by decide)⟩

/-! ### The chonk of a new record -/

namespace Pass

theorem keepsChonk_refl (ra : Ptr) (p : Pass) : KeepsChonk ra p p := rfl

theorem KeepsChonk.chonk_trans {ra : Ptr} {p q r : Pass} (h₁ : KeepsChonk ra p q)
    (h₂ : KeepsChonk ra q r) : KeepsChonk ra p r :=
  Eq.trans h₂ h₁

theorem keepsChonk_update (ra : Ptr) (p : Pass) (f : ResidentModelAsset → ResidentModelAsset)
    (hf : ∀ r, (f r).chonk = r.chonk) : KeepsChonk ra p (p.update ra f) := by
  unfold KeepsChonk
  rw [deref_update_self]
  unfold deref
  cases p.heap.find? ra <;> simp [hf]

theorem keepsChonk_call (ra : Ptr) (p : Pass) (c : LoadCall) : KeepsChonk ra p (p.call c) := rfl

theorem keepsChonk_alloc (ra : Ptr) (p : Pass) : KeepsChonk ra p p.alloc := rfl

theorem keepsChonk_texcache (ra : Ptr) (p : Pass) (t : PtrMap URI Ptr) :
    KeepsChonk ra p { p with texcache := t } := rfl

theorem keepsChonk_modelcache (ra : Ptr) (p : Pass) (t : PtrMap URI ModelCacheEntry) :
    KeepsChonk ra p { p with modelcache := t } := rfl

end Pass

theorem loadModel_keepsChonk (w : World) (o : Options) (uri : URI) (ra : Ptr) (p : Pass) :
    Pass.KeepsChonk ra p (loadModel w o uri ra p) := by
  unfold loadModel
  split
  · exact Pass.keepsChonk_update ra p _ (by intro _; rfl)
  · dsimp only
    split
    · exact (((((Pass.keepsChonk_call ra p _).chonk_trans (Pass.keepsChonk_alloc ra _)).chonk_trans
        (Pass.keepsChonk_update ra _ _ (by intro _; rfl))).chonk_trans
        (Pass.keepsChonk_modelcache ra _ _)).chonk_trans
        (Pass.keepsChonk_update ra _ _ (by intro _; rfl))).chonk_trans
        (Pass.keepsChonk_modelcache ra _ _)
    · exact (Pass.keepsChonk_call ra p _).chonk_trans
        (Pass.keepsChonk_update ra _ _ (by intro _; rfl))

theorem loadModelOf_keepsChonk (w : World) (o : Options) (a : ModelAsset) (ra : Ptr)
    (p : Pass) : Pass.KeepsChonk ra p (loadModelOf w o a ra p) := by
  unfold loadModelOf
  split
  · exact loadModel_keepsChonk w o _ ra p
  · exact Pass.keepsChonk_refl ra p

theorem loadNormalMap_keepsChonk (w : World) (o : Options) (uri : URI) (ra : Ptr) (p : Pass) :
    Pass.KeepsChonk ra p (loadNormalMap w o uri p).1 := by
  unfold loadNormalMap
  dsimp only
  split
  · exact (Pass.keepsChonk_call ra p _).chonk_trans (Pass.keepsChonk_alloc ra _)
  · split
    · exact ((Pass.keepsChonk_call ra p _).chonk_trans (Pass.keepsChonk_call ra _ _)).chonk_trans
        (Pass.keepsChonk_alloc ra _)
    · exact (Pass.keepsChonk_call ra p _).chonk_trans (Pass.keepsChonk_call ra _ _)

theorem loadSideBillboard_keepsChonk (w : World) (o : Options) (uri : URI) (ra : Ptr)
    (p : Pass) : Pass.KeepsChonk ra p (loadSideBillboard w o uri ra p) := by
  unfold loadSideBillboard
  split
  · exact (Pass.keepsChonk_update ra p _ (by intro _; rfl)).chonk_trans
      (Pass.keepsChonk_update ra _ _ (by intro _; rfl))
  · dsimp only
    split
    · have h := fun t => ((((Pass.keepsChonk_call ra p (.getImage uri)).chonk_trans
        (Pass.keepsChonk_alloc ra _)).chonk_trans
        (Pass.keepsChonk_update ra _ (fun r => { r with sideBillboardTex := some t })
          (by intro _; rfl))).chonk_trans
        (Pass.keepsChonk_texcache ra _ (p.texcache.insert uri ra))).chonk_trans
        (loadNormalMap_keepsChonk w o uri ra _)
      split
      · exact (h _).chonk_trans (Pass.keepsChonk_update ra _ _ (by intro _; rfl))
      · exact h _
    · exact Pass.keepsChonk_call ra p _

theorem loadTopBillboard_keepsChonk (w : World) (o : Options) (uri : URI) (ra : Ptr)
    (p : Pass) : Pass.KeepsChonk ra p (loadTopBillboard w o uri ra p) := by
  unfold loadTopBillboard
  split
  · exact (Pass.keepsChonk_update ra p _ (by intro _; rfl)).chonk_trans
      (Pass.keepsChonk_update ra _ _ (by intro _; rfl))
  · dsimp only
    split
    · have h := fun t => ((((Pass.keepsChonk_call ra p (.getImage uri)).chonk_trans
        (Pass.keepsChonk_alloc ra _)).chonk_trans
        (Pass.keepsChonk_update ra _ (fun r => { r with topBillboardTex := some t })
          (by intro _; rfl))).chonk_trans
        (Pass.keepsChonk_texcache ra _ (p.texcache.insert uri ra))).chonk_trans
        (loadNormalMap_keepsChonk w o uri ra _)
      split
      · exact (h _).chonk_trans (Pass.keepsChonk_update ra _ _ (by intro _; rfl))
      · exact h _
    · exact Pass.keepsChonk_call ra p _

theorem buildImpostor_keepsChonk (w : World) (m : BiomeManager) (group : Nat) (a : ModelAsset)
    (bbox : BoundingBox) (ra : Ptr) (p : Pass) :
    Pass.KeepsChonk ra p (buildImpostor w m group a bbox ra p) := by
  unfold buildImpostor
  dsimp only
  split
  · split
    · exact (Pass.keepsChonk_alloc ra p).chonk_trans
        (Pass.keepsChonk_update ra _ _ (by intro _; rfl))
    · exact Pass.keepsChonk_update ra p _ (by intro _; rfl)
  · exact Pass.keepsChonk_refl ra p

theorem loadBillboards_keepsChonk (w : World) (m : BiomeManager) (o : Options) (group : Nat)
    (a : ModelAsset) (bbox : BoundingBox) (ra : Ptr) (p : Pass) :
    Pass.KeepsChonk ra p (loadBillboards w m o group a bbox ra p) := by
  unfold loadBillboards
  dsimp only
  split
  · refine Pass.KeepsChonk.chonk_trans ?_ (buildImpostor_keepsChonk w m group a bbox ra _)
    split
    · exact (loadSideBillboard_keepsChonk w o _ ra p).chonk_trans
        (loadTopBillboard_keepsChonk w o _ ra _)
    · exact loadSideBillboard_keepsChonk w o _ ra p
  · exact Pass.keepsChonk_refl ra p

theorem chonkOK_of_fields (s : float) (ad : Option ModelAsset) (md : Option Node)
    (bb : BoundingBox) (st sn tt tn : Option Texture) (imp : Option Node) :
    ChonkOK s ⟨ad, md, bb, st, sn, tt, tn, imp,
      match md, imp with
      | some x, some y => some [⟨x, s, FLT_MAX⟩, ⟨y, 1, s⟩]
      | some x, none => some [⟨x, s, FLT_MAX⟩]
      | none, some y => some [⟨y, 1, FLT_MAX⟩]
      | none, none => none⟩ := by
  refine ⟨?_, ?_, ?_, ?_⟩
  · intro x y h1 h2
    simp only at h1 h2
    subst h1; subst h2; rfl
  · intro x h1 h2
    simp only at h1 h2
    subst h1; subst h2; rfl
  · intro y h1 h2
    simp only at h1 h2
    subst h1; subst h2; rfl
  · intro h1 h2
    simp only at h1 h2
    subst h1; subst h2; rfl

theorem chonkify_chonk (m : BiomeManager) (ra : Ptr) (p : Pass)
    (h : (p.deref ra).chonk = none) :
    ChonkOK m._lodTransitionPixelScale ((chonkify m ra p).deref ra) := by
  cases hf : p.heap.find? ra with
  | none =>
    have hd : p.deref ra = default := by unfold Pass.deref; rw [hf]; rfl
    have hm : (p.deref ra).model = none := by rw [hd]; rfl
    have hi : (p.deref ra).impostor = none := by rw [hd]; rfl
    unfold chonkify
    simp only [hm, hi]
    rw [hd]
    exact chonkOK_of_fields _ none none default none none none none none
  | some r =>
    have hd : p.deref ra = r := by unfold Pass.deref; rw [hf]; rfl
    rw [hd] at h
    obtain ⟨ad, md, bb, st, sn, tt, tn, imp, ch⟩ := r
    simp only at h
    subst h
    have key := chonkOK_of_fields m._lodTransitionPixelScale ad md bb st sn tt tn imp
    cases md <;> cases imp <;>
      simpa [chonkify, Pass.deref, Pass.update, PtrMap.find?_modify, hf, chonkAdd] using key

theorem populate_chonk (w : World) (m : BiomeManager) (o : Options) (group : Nat)
    (a : ModelAsset) (p : Pass) :
    ChonkOK m._lodTransitionPixelScale ((populate w m o group a p).1.deref p.nextAddr) := by
  have h0 : ((createRecord a p).deref p.nextAddr).chonk = none := by
    unfold Pass.deref
    rw [(createRecord_spec a p).1]
    rfl
  have h1 := (loadModelOf_keepsChonk w o a p.nextAddr (createRecord a p)).chonk_trans
    (loadBillboards_keepsChonk w m o group a
      (bboxOf w a p.nextAddr (loadModelOf w o a p.nextAddr (createRecord a p))) p.nextAddr _)
  exact chonkify_chonk m p.nextAddr _ (h1.trans h0)

/-! ### Properties of the records a pass makes -/

theorem populate_newRecords (w : World) (m : BiomeManager) (o : Options) (group : Nat)
    (a' : ModelAsset) (p : Pass) (Φ : ResidentModelAsset → Prop) (c0 : PtrMap ModelAsset Ptr)
    (hΦ : Φ ((populate w m o group a' p).1.deref p.nextAddr))
    (hnone : p._residentModelAssets.find? a' = none) (hinv : NewRecords Φ c0 p) :
    NewRecords Φ c0 (populate w m o group a' p).1 := by
  obtain ⟨-, hc, -, hn, hh⟩ := populate_spec w m o group a' p
  have hfind : ∀ a, (populate w m o group a' p).1._residentModelAssets.find? a
      = if a' = a then some p.nextAddr else p._residentModelAssets.find? a := by
    intro a; rw [hc, PtrMap.find?_insert]
  refine ⟨?_, ?_⟩
  · intro a ptr hq hc0
    rw [hfind] at hq
    by_cases haa : a' = a
    · simp only [haa, if_true, Option.some.injEq] at hq
      rw [← hq]
      exact ⟨hn, hΦ⟩
    · simp only [haa, if_false] at hq
      obtain ⟨hlt, hphi⟩ := hinv.holds a ptr hq hc0
      have hd : (populate w m o group a' p).1.deref ptr = p.deref ptr := by
        unfold Pass.deref
        rw [hh ptr (Nat.ne_of_lt hlt)]
      rw [hd]
      exact ⟨Nat.lt_trans hlt hn, hphi⟩
  · intro a ptr h0
    have hp := hinv.old a ptr h0
    rw [hfind]
    by_cases haa : a' = a
    · subst haa; rw [hnone] at hp; cases hp
    · simpa [haa] using hp

theorem materializeEntry_newRecords (w : World) (m : BiomeManager) (o : Options) (group : Nat)
    (e : ModelAssetToUse) (p : Pass) (insts : ResidentModelAssetInstances)
    (Φ : ResidentModelAsset → Prop) (c0 : PtrMap ModelAsset Ptr)
    (hΦ : ∀ g a q, Φ ((populate w m o g a q).1.deref q.nextAddr))
    (hinv : NewRecords Φ c0 p) :
    NewRecords Φ c0 (materializeEntry w m o group e p insts).1 := by
  cases ha : e.asset with
  | none =>
    unfold materializeEntry
    simp only [ha]
    exact hinv
  | some a =>
    rw [materializeEntry_fst w m o group e p insts a ha]
    unfold lookupOrPopulate
    split
    · exact hinv
    · rename_i hnone
      exact populate_newRecords w m o group a p Φ c0 (hΦ group a p) hnone hinv

theorem materializeGroup_newRecords (w : World) (m : BiomeManager) (o : Options) (group : Nat)
    (Φ : ResidentModelAsset → Prop) (c0 : PtrMap ModelAsset Ptr)
    (hΦ : ∀ g a q, Φ ((populate w m o g a q).1.deref q.nextAddr))
    (l : List ModelAssetToUse) :
    ∀ (p : Pass) (insts : ResidentModelAssetInstances), NewRecords Φ c0 p →
      NewRecords Φ c0 (materializeGroup w m o group l p insts).1 := by
  induction l with
  | nil => intro p insts h; exact h
  | cons e rest ih =>
    intro p insts h
    exact ih _ _ (materializeEntry_newRecords w m o group e p insts Φ c0 hΦ h)

theorem materializeBiome_newRecords (w : World) (m : BiomeManager) (o : Options)
    (biome : Biome) (Φ : ResidentModelAsset → Prop) (c0 : PtrMap ModelAsset Ptr)
    (hΦ : ∀ g a q, Φ ((populate w m o g a q).1.deref q.nextAddr))
    (groups : List Nat) :
    ∀ p : Pass, NewRecords Φ c0 p →
      NewRecords Φ c0 (materializeBiome w m o biome groups p).1 := by
  induction groups with
  | nil => intro p h; exact h
  | cons g rest ih =>
    intro p h
    exact ih _ (materializeGroup_newRecords w m o g Φ c0 hΦ _ p [] h)

theorem materializeBiomes_newRecords (w : World) (m : BiomeManager) (o : Options)
    (Φ : ResidentModelAsset → Prop) (c0 : PtrMap ModelAsset Ptr)
    (hΦ : ∀ g a q, Φ ((populate w m o g a q).1.deref q.nextAddr))
    (l : List (Biome × List ResidentModelAssetInstances)) :
    ∀ p : Pass, NewRecords Φ c0 p →
      NewRecords Φ c0 (materializeBiomes w m o l p).1 := by
  induction l with
  | nil => intro p h; exact h
  | cons x rest ih =>
    intro p h
    exact ih _ (materializeBiome_newRecords w m o x.1 Φ c0 hΦ _ p h)

theorem BiomeManager.runPass_newRecords (w : World) (m : BiomeManager) (o : Options)
    (Φ : ResidentModelAsset → Prop)
    (hΦ : ∀ g a q, Φ ((populate w m o g a q).1.deref q.nextAddr)) :
    NewRecords Φ m._residentModelAssets (BiomeManager.runPass w m o).1 := by
  refine materializeBiomes_newRecords w m o Φ _ hΦ _ _ ⟨?_, fun _ _ h => h⟩
  intro a ptr h1 h2
  have h1' : m._residentModelAssets.find? a = some ptr := h1
  rw [h2] at h1'; cases h1'

/-- C11: every asset definition that gets its record in a `materializeNewAssets` pass run
while the LOD transition pixel scale is `s` ends with a record whose chonk has the shape
`ChonkOK s`: the model, if it loaded, is added first with far `s` and near `FLT_MAX`; the
impostor, if one was built, is added after it with far 1 and near `s` when there is a model,
or near `FLT_MAX` when there is none; and there is no chonk when the record has neither. -/
theorem materialised_chonk_thresholds (w : World) (m : BiomeManager) (o : Options)
    (a : ModelAsset) (ptr : Ptr)
    (hc : (m.materializeNewAssets w o)._residentModelAssets.find? a = some ptr)
    (hnew : m._residentModelAssets.find? a = none) :
    ChonkOK m.getLODTransitionPixelScale ((m.materializeNewAssets w o).deref ptr) :=
  ((BiomeManager.runPass_newRecords w m o (ChonkOK m._lodTransitionPixelScale)
    (fun g a q => populate_chonk w m o g a q)).holds a ptr hc hnew).2

/-- Witness of C11: the scale is set to 16, group 0 gets an impostor callback, biome 1 of the
demo catalog becomes resident; asset 10 has a model and gets an impostor. -/
theorem materialised_chonk_thresholds_witness :
    ((run demoWorld BiomeManager.new
        [.setLODTransitionPixelScale 16, .setCreateFunction 0 (some (fun _ _ => some 9)),
          .ref 1, .recalculateResidentBiomes]).materializeNewAssets demoWorld
            0)._residentModelAssets.find? 10 = some 0
      ∧ (run demoWorld BiomeManager.new
        [.setLODTransitionPixelScale 16, .setCreateFunction 0 (some (fun _ _ => some 9)),
          .ref 1, .recalculateResidentBiomes])._residentModelAssets.find? 10 = none
      ∧ (((run demoWorld BiomeManager.new
        [.setLODTransitionPixelScale 16, .setCreateFunction 0 (some (fun _ _ => some 9)),
          .ref 1, .recalculateResidentBiomes]).materializeNewAssets demoWorld 0).deref
            0).chonk = some [⟨⟨1, 7⟩, 16, FLT_MAX⟩, ⟨⟨3, 9⟩, 1, 16⟩] :=
  ⟨by decide, by decide,
    (materialised_chonk_thresholds demoWorld _ 0 10 0 (by decide) (by decide)).both
      ⟨1, 7⟩ ⟨3, 9⟩ (by decide) (by decide)⟩

/-! ### After a change of the LOD transition pixel scale -/

namespace BiomeManager

end BiomeManager

namespace Rebuilt

end Rebuilt

namespace ListedInv

theorem listed_of_same {w : World} {m m' : BiomeManager} (h : ListedInv w m)
    (hrb : m'._residentBiomes = m._residentBiomes)
    (hc : m'._residentModelAssets = m._residentModelAssets) : ListedInv w m' := by
  refine ⟨?_⟩
  intro b groups insts inst a hb hg hi hca
  rw [hrb] at hb; rw [hc] at hca
  exact h.listed b groups insts inst a hb hg hi hca

theorem listed_recalculate {w : World} {m : BiomeManager} (h : ListedInv w m) :
    ListedInv w (m.recalculateResidentBiomes w) := by
  have hcache : ∀ a p, (m.recalculateResidentBiomes w)._residentModelAssets.find? a = some p →
      m._residentModelAssets.find? a = some p := by
    intro a p hp
    rw [BiomeManager.recalculateResidentBiomes_cache_find?] at hp
    split at hp
    · cases hp
    · exact hp
  refine ⟨?_⟩
  intro b groups insts inst a hb hg hi hc
  rw [BiomeManager.recalculateResidentBiomes_find?] at hb
  split at hb
  · cases hb
  · split at hb
    · cases hold : m._residentBiomes.find? b with
      | some old =>
        rw [hold] at hb
        simp only [Option.getD_some, Option.some.injEq] at hb
        subst hb
        exact h.listed b old insts inst a hold hg hi (hcache a _ hc)
      | none =>
        rw [hold] at hb
        simp only [Option.getD_none, Option.some.injEq] at hb
        subst hb
        rw [List.mem_replicate] at hg
        rw [hg.2] at hi
        cases hi
    · exact h.listed b groups insts inst a hb hg hi (hcache a _ hc)

theorem listed_materialize {w : World} {m : BiomeManager} (hi : Inv w m) (o : Options) :
    ListedInv w (m.materializeNewAssets w o) := by
  have hok : (BiomeManager.runPass w m o).1.CacheOK :=
    (BiomeManager.runPass_grows w m o).ok (BiomeManager.startPass_ok hi)
  refine ⟨?_⟩
  intro b groups insts inst a hb hg hii hc
  obtain ⟨g, hgr, e, he, hinst⟩ := hi.materialize_instance o b groups insts inst hb hg hii
  obtain ⟨a0, ha0, hf0, -⟩ := instanceOf_some hinst
  have : a = a0 := hok.inj a a0 _ hc hf0
  subst this
  exact ⟨g, hgr, e, he, ha0⟩

theorem listed_apply {w : World} {m : BiomeManager} (hi : Inv w m) (h : ListedInv w m)
    (op : Op) : ListedInv w (op.apply w m) := by
  cases op with
  | ref biome =>
    exact h.listed_of_same (BiomeManager.ref_frame m biome).1 (BiomeManager.ref_frame m biome).2.1
  | refTile biome key image =>
    exact h.listed_of_same (BiomeManager.ref_frame m biome).1 (BiomeManager.ref_frame m biome).2.1
  | unref biome =>
    exact h.listed_of_same (BiomeManager.unref_frame m biome).1
      (BiomeManager.unref_frame m biome).2.1
  | reset =>
    have h0 : ListedInv w m.resetCounts := h.listed_of_same rfl rfl
    exact h0.listed_recalculate
  | setLODTransitionPixelScale value =>
    exact ⟨fun b groups insts inst a _ _ _ hc => by cases hc⟩
  | recalculateResidentBiomes => exact h.listed_recalculate
  | materializeNewAssets o => exact listed_materialize hi o
  | getResidentBiomes o => exact listed_materialize hi.after_recalculate o
  | getActiveBiomes => exact h
  | getResidentAssets => exact h
  | setCreateFunction group func => exact h.listed_of_same rfl rfl

end ListedInv

theorem Reachable.listedInv {w : World} {m : BiomeManager} (h : Reachable w m) :
    ListedInv w m := by
  induction h with
  | new => exact ⟨fun b groups insts inst a hb => by cases hb⟩
  | step m op hm ih => exact ih.listed_apply hm.inv op

/-- Counterexample to C16 as stated: after `ref(1)` and `getResidentBiomes` on the catalog
`topOnlyWorld`, `getResidentAssets()` returns asset 10, and the returned table has no
instance at all. -/
theorem cached_asset_without_instance :
    topOnlyState.getResidentAssets = [10]
      ∧ (BiomeManager.getResidentBiomes topOnlyWorld (BiomeManager.new.ref 1) 0).2.entries
          = [(1, [[]])]
      ∧ BiomeManager.allInstances
          (BiomeManager.getResidentBiomes topOnlyWorld (BiomeManager.new.ref 1) 0).2 = [] := by
  decide

theorem getResidentBiomes_listed_iff {w : World} {m : BiomeManager} (hi : Inv w m)
    (hl : ListedInv w m) (o : Options) (a : ModelAsset) :
    a ∈ (m.getResidentBiomes w o).1.getResidentAssets
      ↔ listedBy w (m.getResidentBiomes w o).2 a := by
  have hi1 := hi.after_recalculate
  have hl1 := hl.listed_recalculate
  have hkeys : (m.getResidentBiomes w o).2.keys
      = (m.recalculateResidentBiomes w)._residentBiomes.keys :=
    BiomeManager.materializeNewAssets_keys w _ o
  unfold listedBy
  rw [hkeys]
  constructor
  · intro ha
    have ha' : ((BiomeManager.runPass w (m.recalculateResidentBiomes w)
        o).1._residentModelAssets.find? a).isSome := (PtrMap.mem_keys_iff _ a).mp ha
    rcases materializeBiomes_cache w _ o a _ _ ha' with h1 | h1
    · obtain ⟨p, hp⟩ := Option.isSome_iff_exists.mp h1
      have hp' : (m.recalculateResidentBiomes w)._residentModelAssets.find? a = some p := hp
      obtain ⟨-, inst, hin, hip⟩ := (hi.recalculate_cache a p).mp hp'
      obtain ⟨b, groups, insts, hf, hg, hii⟩ := (BiomeManager.mem_allInstances _ inst).mp hin
      obtain ⟨g, hgr, e, he, hea⟩ :=
        hl1.listed b groups insts inst a hf hg hii (by rw [hip]; exact hp')
      exact ⟨b, (PtrMap.mem_keys_iff _ b).mpr (by rw [hf]; rfl), g, hgr, e, he, hea⟩
    · exact h1
  · intro hlisted
    exact (PtrMap.mem_keys_iff _ a).mpr
      (materializeBiomes_cached w _ o a _ (BiomeManager.startPass _) hlisted)

/-! ### Lock discipline -/

theorem heldAfter_of_oneLockAtATime (events : List LockEvent) :
    ∀ (held : Option Mutex), oneLockAtATime held events = true →
      ∀ (done rest : List LockEvent), events = done ++ rest →
        (heldAfter held.toList done).length ≤ 1 := by
  induction events with
  | nil =>
    intro held _ done rest he
    have hd : done = [] := (List.append_eq_nil.mp he.symm).1
    subst hd
    cases held <;> simp [heldAfter]
  | cons ev evs ih =>
    intro held hok done rest he
    cases done with
    | nil => cases held <;> simp [heldAfter]
    | cons d ds =>
      simp only [List.cons_append, List.cons.injEq] at he
      obtain ⟨h1, h2⟩ := he
      subst h1
      cases held with
      | none =>
        cases ev with
        | acquire mu =>
          simp only [oneLockAtATime] at hok
          exact ih (some mu) hok ds rest h2
        | release mu => simp [oneLockAtATime] at hok
      | some hm =>
        cases ev with
        | acquire mu => simp [oneLockAtATime] at hok
        | release mu =>
          simp only [oneLockAtATime, Bool.and_eq_true, decide_eq_true_eq] at hok
          obtain ⟨h3, h4⟩ := hok
          subst h3
          have := ih none h4 ds rest h2
          simpa [heldAfter] using this

/-- C15: for every public operation, the sequence of lock events of its code acquires a mutex
only when none is held and releases exactly the mutex it holds, and ends with nothing held;
hence after any prefix of the sequence at most one of the two mutexes is held: the
reference-count lock and the resident-data lock are never held at the same time. -/
theorem locks_never_held_together (op : Op) :
    oneLockAtATime none op.lockEvents = true
      ∧ ∀ (done rest : List LockEvent), op.lockEvents = done ++ rest →
          (heldAfter [] done).length ≤ 1 := by
  have h : oneLockAtATime none op.lockEvents = true := by
    cases op <;> rfl
  exact ⟨h, heldAfter_of_oneLockAtATime op.lockEvents none h⟩

/-! ### Holders outside the manager -/

namespace BiomeManager

theorem use_countHeld_nil (rb : ResidentBiomes) (cache : PtrMap ModelAsset Ptr) (p : Ptr) :
    use_countHeld [] rb cache p = use_count rb cache p := by
  simp [use_countHeld]

theorem recalculateResidentBiomesHeld_nil (w : World) (m : BiomeManager) :
    m.recalculateResidentBiomesHeld [] w = m.recalculateResidentBiomes w := by
  unfold recalculateResidentBiomesHeld recalculateResidentBiomes
  simp only [use_countHeld_nil]

theorem getResidentBiomesHeld_nil (w : World) (m : BiomeManager) (o : Options) :
    m.getResidentBiomesHeld [] w o = m.getResidentBiomes w o := by
  unfold getResidentBiomesHeld getResidentBiomes
  rw [recalculateResidentBiomesHeld_nil]

theorem recalculateResidentBiomesHeld_table (held : List ResidentBiomes) (w : World)
    (m : BiomeManager) :
    (m.recalculateResidentBiomesHeld held w)._residentBiomes
      = (m.recalculateResidentBiomes w)._residentBiomes := rfl

theorem recalculateResidentBiomesHeld_cache_find? (held : List ResidentBiomes) (w : World)
    (m : BiomeManager) (a : ModelAsset) :
    (m.recalculateResidentBiomesHeld held w)._residentModelAssets.find? a
      = if (∃ p, m._residentModelAssets.find? a = some p ∧
            use_countHeld held (m.recalculateResidentBiomes w)._residentBiomes
              m._residentModelAssets p = 1)
        then none else m._residentModelAssets.find? a := by
  unfold recalculateResidentBiomesHeld
  dsimp only
  rw [PtrMap.find?_foldl_erase]
  simp only [PtrMap.mem_keys_filter, decide_eq_true_eq]
  rfl

theorem recalculateResidentBiomesHeld_cache_sub (held : List ResidentBiomes) (w : World)
    (m : BiomeManager) (a : ModelAsset) (p : Ptr)
    (hp : (m.recalculateResidentBiomesHeld held w)._residentModelAssets.find? a = some p) :
    m._residentModelAssets.find? a = some p := by
  rw [recalculateResidentBiomesHeld_cache_find?] at hp
  split at hp
  · cases hp
  · exact hp

end BiomeManager

theorem Op.applyHeld_nil (w : World) (m : BiomeManager) (op : Op) :
    op.applyHeld [] w m = op.apply w m := by
  cases op with
  | reset =>
    show BiomeManager.recalculateResidentBiomesHeld [] w m.resetCounts = _
    rw [BiomeManager.recalculateResidentBiomesHeld_nil]; rfl
  | recalculateResidentBiomes => exact BiomeManager.recalculateResidentBiomesHeld_nil w m
  | getResidentBiomes o =>
    show (m.getResidentBiomesHeld [] w o).1 = _
    rw [BiomeManager.getResidentBiomesHeld_nil]; rfl
  | _ => rfl

theorem Reachable.held {w : World} {m : BiomeManager} (h : Reachable w m) :
    ReachableHeld w m := by
  induction h with
  | new => exact ReachableHeld.new
  | step m op _ ih =>
    rw [← Op.applyHeld_nil]
    exact ReachableHeld.step m op [] ih

theorem Inv.after_recalculateHeld {w : World} {m : BiomeManager} (h : Inv w m)
    (held : List ResidentBiomes) : Inv w (m.recalculateResidentBiomesHeld held w) := by
  have hcache := BiomeManager.recalculateResidentBiomesHeld_cache_sub held w m
  refine ⟨?_, ?_, ?_, ?_⟩
  · intro b hb
    rw [BiomeManager.recalculateResidentBiomesHeld_table] at hb
    exact h.after_recalculate.resident_referenced b hb
  · intro a p hp
    exact h.cache_lt a p (hcache a p hp)
  · intro a a' p hp hp'
    exact h.cache_inj a a' p (hcache a p hp) (hcache a' p hp')
  · intro b groups insts inst a hb hg hi hc
    rw [BiomeManager.recalculateResidentBiomesHeld_table,
      BiomeManager.recalculateResidentBiomes_find?] at hb
    split at hb
    · cases hb
    · split at hb
      · cases hold : m._residentBiomes.find? b with
        | some old =>
          rw [hold] at hb
          simp only [Option.getD_some, Option.some.injEq] at hb
          subst hb
          exact h.instance_listed b old insts inst a hold hg hi (hcache a _ hc)
        | none =>
          rw [hold] at hb
          simp only [Option.getD_none, Option.some.injEq] at hb
          subst hb
          rw [List.mem_replicate] at hg
          rw [hg.2] at hi
          cases hi
      · exact h.instance_listed b groups insts inst a hb hg hi (hcache a _ hc)

theorem ListedInv.listed_recalculateHeld {w : World} {m : BiomeManager} (h : ListedInv w m)
    (held : List ResidentBiomes) : ListedInv w (m.recalculateResidentBiomesHeld held w) := by
  have hcache := BiomeManager.recalculateResidentBiomesHeld_cache_sub held w m
  refine ⟨?_⟩
  intro b groups insts inst a hb hg hi hc
  rw [BiomeManager.recalculateResidentBiomesHeld_table,
    BiomeManager.recalculateResidentBiomes_find?] at hb
  split at hb
  · cases hb
  · split at hb
    · cases hold : m._residentBiomes.find? b with
      | some old =>
        rw [hold] at hb
        simp only [Option.getD_some, Option.some.injEq] at hb
        subst hb
        exact h.listed b old insts inst a hold hg hi (hcache a _ hc)
      | none =>
        rw [hold] at hb
        simp only [Option.getD_none, Option.some.injEq] at hb
        subst hb
        rw [List.mem_replicate] at hg
        rw [hg.2] at hi
        cases hi
    · exact h.listed b groups insts inst a hb hg hi (hcache a _ hc)

theorem Inv.resetCounts_inv {w : World} {m : BiomeManager} (h : Inv w m) :
    Inv w m.resetCounts := by
  refine h.of_frame ?_ ⟨rfl, rfl, rfl⟩
  intro b hb
  rw [PtrMap.mem_keys_iff] at hb ⊢
  show ((m._refs.mapValues _).find? b).isSome = true
  rw [PtrMap.find?_mapValues]
  simpa using hb

theorem Inv.after_applyHeld {w : World} {m : BiomeManager} (h : Inv w m) (op : Op)
    (held : List ResidentBiomes) : Inv w (op.applyHeld held w m) := by
  cases op with
  | ref biome => exact h.after_apply (.ref biome)
  | refTile biome key image => exact h.after_apply (.refTile biome key image)
  | unref biome => exact h.after_apply (.unref biome)
  | reset => exact h.resetCounts_inv.after_recalculateHeld held
  | setLODTransitionPixelScale value => exact h.after_apply (.setLODTransitionPixelScale value)
  | recalculateResidentBiomes => exact h.after_recalculateHeld held
  | materializeNewAssets o => exact h.after_apply (.materializeNewAssets o)
  | getResidentBiomes o => exact (h.after_recalculateHeld held).after_materialize o
  | getActiveBiomes => exact h
  | getResidentAssets => exact h
  | setCreateFunction group func => exact h.after_apply (.setCreateFunction group func)

theorem ListedInv.listed_applyHeld {w : World} {m : BiomeManager} (hi : Inv w m)
    (h : ListedInv w m) (op : Op) (held : List ResidentBiomes) :
    ListedInv w (op.applyHeld held w m) := by
  cases op with
  | ref biome => exact h.listed_apply hi (.ref biome)
  | refTile biome key image => exact h.listed_apply hi (.refTile biome key image)
  | unref biome => exact h.listed_apply hi (.unref biome)
  | reset =>
    have h0 : ListedInv w m.resetCounts := h.listed_of_same rfl rfl
    exact h0.listed_recalculateHeld held
  | setLODTransitionPixelScale value =>
    exact h.listed_apply hi (.setLODTransitionPixelScale value)
  | recalculateResidentBiomes => exact h.listed_recalculateHeld held
  | materializeNewAssets o => exact h.listed_apply hi (.materializeNewAssets o)
  | getResidentBiomes o =>
    exact ListedInv.listed_materialize (hi.after_recalculateHeld held) o
  | getActiveBiomes => exact h
  | getResidentAssets => exact h
  | setCreateFunction group func => exact h.listed_apply hi (.setCreateFunction group func)

theorem ReachableHeld.inv_held {w : World} {m : BiomeManager} (h : ReachableHeld w m) :
    Inv w m ∧ ListedInv w m := by
  induction h with
  | new => exact ⟨Inv.init w, ⟨fun b groups insts inst a hb => by cases hb⟩⟩
  | step m op held _ ih =>
    exact ⟨ih.1.after_applyHeld op held, ih.2.listed_applyHeld ih.1 op held⟩

/-! ### `getResidentBiomes` and the tables callers hold -/

theorem Inv.getResidentBiomesHeld_keys {w : World} {m : BiomeManager} (h : Inv w m)
    (held : List ResidentBiomes) (o : Options) (b : Biome) :
    b ∈ (m.getResidentBiomesHeld held w o).2.keys ↔ 0 < m.count b := by
  have hkeys : (m.getResidentBiomesHeld held w o).2.keys
      = (m.recalculateResidentBiomes w)._residentBiomes.keys :=
    BiomeManager.materializeNewAssets_keys w _ o
  rw [hkeys]
  exact h.recalculate_keys b

/-- Counterexample to C6 as stated: on the demo catalog biome 1 has count 0; the caller keeps
the table returned by the first `getResidentBiomes` of the scenario; after `unref(1)` and the
second `getResidentBiomes` no biome is resident, and the assets 10 and 11 of biome 1 are
still in the resident-asset cache. -/
theorem kept_table_keeps_released_assets_cached :
    BiomeManager.new.count 1 = 0
      ∧ keptTableScenario.2.find? 1 = none
      ∧ keptTableScenario.2.entries = []
      ∧ keptTableScenario.1.getResidentAssets = [10, 11] := by
  decide

/-- C6, amended: whatever tables callers hold (`held`, `held'`), `getResidentBiomes(options)`
returns the resident-biome table as it stands after `recalculateResidentBiomes()` followed by
`materializeNewAssets(options)`, and in a reachable state the key set of the result is
exactly the set of biomes with a positive count. For a biome `A` with count 0, after
`ref(A)`, `getResidentBiomes`, `unref(A)`, `getResidentBiomes`, the second result has no
entry for `A`; and if no caller holds a returned table when the second call runs, every asset
definition left in the resident-asset cache is named by a group list (group index below
`NUM_ASSET_GROUPS`) of a resident biome other than `A`. -/
theorem getResidentBiomes_residency (w : World) (m : BiomeManager) (h : ReachableHeld w m)
    (o o' : Options) (held held' : List ResidentBiomes) :
    (m.getResidentBiomesHeld held w o).2
        = ((m.recalculateResidentBiomesHeld held w).materializeNewAssets w o)._residentBiomes
      ∧ m.getResidentBiomesHeld [] w o = m.getResidentBiomes w o
      ∧ (∀ b, b ∈ (m.getResidentBiomesHeld held w o).2.keys ↔ 0 < m.count b)
      ∧ (∀ A, m.count A = 0 →
          ((((m.ref A).getResidentBiomesHeld held w o).1.unref A).getResidentBiomesHeld held'
              w o').2.find? A = none
          ∧ ∀ a ∈ ((((m.ref A).getResidentBiomesHeld held w o).1.unref A).getResidentBiomes w
                o').1.getResidentAssets,
              ∃ b, b ≠ A
                ∧ b ∈ ((((m.ref A).getResidentBiomesHeld held w o).1.unref A).getResidentBiomes
                    w o').2.keys
                ∧ ∃ g ∈ List.range w.NUM_ASSET_GROUPS,
                    ∃ e ∈ w.getModelAssetsToUse b g, e.asset = some a) := by
  obtain ⟨hi, hl⟩ := h.inv_held
  refine ⟨rfl, BiomeManager.getResidentBiomesHeld_nil w m o,
    hi.getResidentBiomesHeld_keys held o, ?_⟩
  intro A hA
  have hi1 : Inv w ((m.ref A).getResidentBiomesHeld held w o).1 :=
    (hi.after_applyHeld (.ref A) held).after_applyHeld (.getResidentBiomes o) held
  have hl1 : ListedInv w ((m.ref A).getResidentBiomesHeld held w o).1 :=
    (hl.listed_applyHeld hi (.ref A) held).listed_applyHeld
      (hi.after_applyHeld (.ref A) held) (.getResidentBiomes o) held
  have hi2 : Inv w (((m.ref A).getResidentBiomesHeld held w o).1.unref A) :=
    hi1.after_applyHeld (.unref A) held
  have hl2 : ListedInv w (((m.ref A).getResidentBiomesHeld held w o).1.unref A) :=
    hl1.listed_applyHeld hi1 (.unref A) held
  have hc1 : ((m.ref A).getResidentBiomesHeld held w o).1.count A = 1 := by
    show (m.ref A).count A = 1
    rw [BiomeManager.count_ref, hA]; simp
  have hc2 : (((m.ref A).getResidentBiomesHeld held w o).1.unref A).count A = 0 := by
    rw [BiomeManager.count_unref _ A A (by rw [hc1]; decide), hc1]; simp
  refine ⟨?_, ?_⟩
  · have hnot : A ∉ ((((m.ref A).getResidentBiomesHeld held w o).1.unref
        A).getResidentBiomesHeld held' w o').2.keys := by
      rw [hi2.getResidentBiomesHeld_keys held' o' A, hc2]; decide
    exact (alFind_eq_none_iff A _).mpr hnot
  · intro a ha
    have hnot : A ∉ ((((m.ref A).getResidentBiomesHeld held w o).1.unref
        A).getResidentBiomes w o').2.keys := by
      rw [hi2.getResidentBiomes_keys o' A, hc2]; decide
    obtain ⟨b, hb, g, hg, e, he, hea⟩ := (getResidentBiomes_listed_iff hi2 hl2 o' a).mp ha
    refine ⟨b, ?_, hb, g, hg, e, he, hea⟩
    intro hbA
    rw [hbA] at hb
    exact hnot hb

/-- Witness of C6 (amended): biome 2 of the demo catalog is resident with its assets, biome 1
is the biome `A`; the caller keeps the table of the first call during the second. -/
theorem getResidentBiomes_residency_witness :
    ReachableHeld demoWorld (run demoWorld BiomeManager.new [.ref 2, .getResidentBiomes 0])
      ∧ (run demoWorld BiomeManager.new [.ref 2, .getResidentBiomes 0]).count 1 = 0
      ∧ (((((run demoWorld BiomeManager.new [.ref 2, .getResidentBiomes 0]).ref
            1).getResidentBiomesHeld [] demoWorld 0).1.unref 1).getResidentBiomesHeld
              [((((run demoWorld BiomeManager.new [.ref 2, .getResidentBiomes 0]).ref
                1).getResidentBiomesHeld [] demoWorld 0).2)] demoWorld 0).2.find? 1 = none :=
  ⟨(Reachable.run _ Reachable.new).held, by decide,
    ((getResidentBiomes_residency demoWorld _ (Reachable.run _ Reachable.new).held 0 0 []
      [((((run demoWorld BiomeManager.new [.ref 2, .getResidentBiomes 0]).ref
        1).getResidentBiomesHeld [] demoWorld 0).2)]).2.2.2 1 (by decide)).1⟩

/-- C16, amended: after `getResidentBiomes(options)` from a reachable state, whatever tables
callers hold (`held`): (1) every asset definition named by a group list of a biome of the
returned table is returned by `getResidentAssets()`, and when no caller holds a returned
table `getResidentAssets()` returns exactly these definitions; (2) every instance of the
returned table carries the record the cache holds for such a definition; (3) the record
cached for such a definition is carried by an instance of the returned table exactly when it
has a side billboard texture or a model (a definition whose record has neither is cached
without any instance). -/
theorem getResidentBiomes_cache_and_instances (w : World) (m : BiomeManager)
    (h : ReachableHeld w m) (o : Options) (held : List ResidentBiomes) :
    (∀ a, listedBy w (m.getResidentBiomesHeld held w o).2 a →
        a ∈ (m.getResidentBiomesHeld held w o).1.getResidentAssets)
      ∧ (∀ a, a ∈ (m.getResidentBiomes w o).1.getResidentAssets
          ↔ listedBy w (m.getResidentBiomes w o).2 a)
      ∧ (∀ inst ∈ BiomeManager.allInstances (m.getResidentBiomesHeld held w o).2,
          ∃ a, (m.getResidentBiomesHeld held w o).1._residentModelAssets.find? a
                = some inst.residentAsset
            ∧ listedBy w (m.getResidentBiomesHeld held w o).2 a)
      ∧ (∀ a, listedBy w (m.getResidentBiomesHeld held w o).2 a →
          ∃ ptr, (m.getResidentBiomesHeld held w o).1._residentModelAssets.find? a = some ptr
            ∧ ((∃ inst ∈ BiomeManager.allInstances (m.getResidentBiomesHeld held w o).2,
                  inst.residentAsset = ptr)
              ↔ (((m.getResidentBiomesHeld held w o).1.deref ptr).sideBillboardTex.isSome
                  || ((m.getResidentBiomesHeld held w o).1.deref ptr).model.isSome)
                    = true)) := by
  obtain ⟨hi, hl⟩ := h.inv_held
  have hi1 := hi.after_recalculateHeld held
  have hkeys : (m.getResidentBiomesHeld held w o).2.keys
      = (m.recalculateResidentBiomesHeld held w)._residentBiomes.keys :=
    BiomeManager.materializeNewAssets_keys w _ o
  have hcached : ∀ a, listedBy w (m.getResidentBiomesHeld held w o).2 a →
      ∃ ptr, (m.getResidentBiomesHeld held w o).1._residentModelAssets.find? a = some ptr := by
    intro a hlisted
    unfold listedBy at hlisted
    rw [hkeys] at hlisted
    exact Option.isSome_iff_exists.mp
      (materializeBiomes_cached w _ o a _ (BiomeManager.startPass _) hlisted)
  have hinstance : ∀ inst ∈ BiomeManager.allInstances (m.getResidentBiomesHeld held w o).2,
      ∃ a, (m.getResidentBiomesHeld held w o).1._residentModelAssets.find? a
            = some inst.residentAsset
        ∧ listedBy w (m.getResidentBiomesHeld held w o).2 a
        ∧ (((m.getResidentBiomesHeld held w o).1.deref inst.residentAsset).sideBillboardTex.isSome
            || ((m.getResidentBiomesHeld held w o).1.deref inst.residentAsset).model.isSome)
              = true := by
    intro inst hin
    obtain ⟨b, groups, insts, hb, hg, hii⟩ := (BiomeManager.mem_allInstances _ inst).mp hin
    obtain ⟨g, hgr, e, he, hio⟩ := hi1.materialize_instance o b groups insts inst hb hg hii
    obtain ⟨a, hea, hf, -, -, hcond⟩ := instanceOf_some hio
    exact ⟨a, hf, ⟨b, (PtrMap.mem_keys_iff _ b).mpr (by rw [hb]; rfl), g, hgr, e, he, hea⟩,
      hcond⟩
  refine ⟨?_, getResidentBiomes_listed_iff hi hl o, ?_, ?_⟩
  · intro a hlisted
    obtain ⟨ptr, hptr⟩ := hcached a hlisted
    exact (PtrMap.mem_keys_iff _ a).mpr (by rw [hptr]; rfl)
  · intro inst hin
    obtain ⟨a, hf, hlisted, -⟩ := hinstance inst hin
    exact ⟨a, hf, hlisted⟩
  · intro a hlisted
    obtain ⟨ptr, hptr⟩ := hcached a hlisted
    refine ⟨ptr, hptr, ?_, ?_⟩
    · rintro ⟨inst, hin, hip⟩
      obtain ⟨-, -, -, hcond⟩ := hinstance inst hin
      rw [hip] at hcond
      exact hcond
    · intro hcond
      obtain ⟨b, hb, g, hg, e, he, hea⟩ := hlisted
      have hio : instanceOf (BiomeManager.runPass w (m.recalculateResidentBiomesHeld held w)
          o).1 e = some ⟨ptr, e.weight, e.coverage⟩ := by
        have hptr' : (BiomeManager.runPass w (m.recalculateResidentBiomesHeld held w)
            o).1._residentModelAssets.find? a = some ptr := hptr
        have hcond' : (((BiomeManager.runPass w (m.recalculateResidentBiomesHeld held w)
            o).1.deref ptr).sideBillboardTex.isSome
              || ((BiomeManager.runPass w (m.recalculateResidentBiomesHeld held w) o).1.deref
                ptr).model.isSome) = true := hcond
        unfold instanceOf
        rw [hea]
        dsimp only
        rw [hptr']
        dsimp only
        rw [if_pos hcond']
      have hb' : b ∈ (m.recalculateResidentBiomesHeld held w)._residentBiomes.keys := by
        rw [← hkeys]; exact hb
      obtain ⟨x, hx⟩ := Option.isSome_iff_exists.mp ((PtrMap.mem_keys_iff _ b).mp hb')
      have htab : (m.getResidentBiomesHeld held w o).2.find? b
          = some (instancesOfBiome w (BiomeManager.runPass w
              (m.recalculateResidentBiomesHeld held w) o).1 b
                (List.range w.NUM_ASSET_GROUPS)) := by
        show ((m.recalculateResidentBiomesHeld held w).materializeNewAssets w
          o)._residentBiomes.find? b = _
        rw [BiomeManager.materializeNewAssets_find? hi1, hx]
        rfl
      refine ⟨⟨ptr, e.weight, e.coverage⟩, ?_, rfl⟩
      rw [BiomeManager.mem_allInstances]
      exact ⟨b, _, _, htab, List.mem_map.mpr ⟨g, hg, rfl⟩,
        List.mem_filterMap.mpr ⟨e, he, hio⟩⟩

/-- Witness of C16 (amended): biomes 1 and 2 of the demo catalog are referenced; asset 12 is
named by group 1 of biome 2. -/
theorem getResidentBiomes_cache_and_instances_witness :
    ReachableHeld demoWorld (run demoWorld BiomeManager.new [.ref 1, .ref 2])
      ∧ (12 ∈ ((run demoWorld BiomeManager.new [.ref 1, .ref 2]).getResidentBiomes demoWorld
            0).1.getResidentAssets
          ↔ listedBy demoWorld
              ((run demoWorld BiomeManager.new [.ref 1, .ref 2]).getResidentBiomes demoWorld
                0).2 12) :=
  ⟨(Reachable.run _ Reachable.new).held,
    (getResidentBiomes_cache_and_instances demoWorld _ (Reachable.run _ Reachable.new).held 0
      []).2.1 12⟩

/-! ### Side billboard textures in a pass -/

namespace Pass

theorem deref_update_other (p : Pass) (ra x : Ptr) (f : ResidentModelAsset → ResidentModelAsset)
    (h : x ≠ ra) : (p.update ra f).deref x = p.deref x := by
  unfold deref update
  simp [PtrMap.find?_modify, h.symm]

theorem KeepsSide.side_refl (u : URI) (p : Pass) : KeepsSide u p p :=
  ⟨rfl, fun _ => rfl, fun _ h => h⟩

theorem KeepsSide.side_trans {u : URI} {p q r : Pass} (h₁ : KeepsSide u p q)
    (h₂ : KeepsSide u q r) : KeepsSide u p r :=
  ⟨h₂.texcache_eq.trans h₁.texcache_eq, fun x => (h₂.side_eq x).trans (h₁.side_eq x),
    fun x h => h₂.present x (h₁.present x h)⟩

theorem KeepsSide.side_update (u : URI) (ra : Ptr) (p : Pass)
    (f : ResidentModelAsset → ResidentModelAsset)
    (hs : ∀ r, (f r).sideBillboardTex = r.sideBillboardTex) :
    KeepsSide u p (p.update ra f) := by
  refine ⟨rfl, ?_, ?_⟩
  · intro x
    by_cases hx : x = ra
    · subst hx
      rw [deref_update_self]
      unfold deref
      cases p.heap.find? x <;> simp [hs]
    · rw [deref_update_other p ra x f hx]
  · intro x hx
    show ((p.heap.modify ra f).find? x).isSome
    rw [PtrMap.find?_modify]
    split
    · simpa using hx
    · exact hx

theorem KeepsSide.side_call (u : URI) (p : Pass) (c : LoadCall) : KeepsSide u p (p.call c) :=
  ⟨rfl, fun _ => rfl, fun _ h => h⟩

theorem KeepsSide.side_alloc (u : URI) (p : Pass) : KeepsSide u p p.alloc :=
  ⟨rfl, fun _ => rfl, fun _ h => h⟩

theorem KeepsSide.side_modelcache (u : URI) (p : Pass) (t : PtrMap URI ModelCacheEntry) :
    KeepsSide u p { p with modelcache := t } :=
  ⟨rfl, fun _ => rfl, fun _ h => h⟩

theorem KeepsSide.side_texcache (u t : URI) (ra : Ptr) (p : Pass) (h : t ≠ u) :
    KeepsSide u p { p with texcache := p.texcache.insert t ra } := by
  refine ⟨?_, fun _ => rfl, fun _ h => h⟩
  show (p.texcache.insert t ra).find? u = _
  rw [PtrMap.find?_insert]
  simp [h]

theorem TexOK.of_keeps {u : URI} {img : Nat} {bound : Addr} {p q : Pass}
    (h : p.TexOK u img bound) (hk : KeepsSide u p q) : q.TexOK u img bound := by
  intro ic hic
  rw [hk.texcache_eq] at hic
  obtain ⟨hlt, n, hn⟩ := h ic hic
  exact ⟨hlt, n, by rw [hk.side_eq]; exact hn⟩

theorem TexOK.mono {u : URI} {img : Nat} {b b' : Addr} {p : Pass}
    (h : p.TexOK u img b) (hb : b ≤ b') : p.TexOK u img b' := by
  intro ic hic
  obtain ⟨hlt, hn⟩ := h ic hic
  exact ⟨Nat.lt_of_lt_of_le hlt hb, hn⟩

end Pass

theorem loadModel_keepsSide (w : World) (o : Options) (u uri : URI) (ra : Ptr) (p : Pass) :
    Pass.KeepsSide u p (loadModel w o uri ra p) := by
  unfold loadModel
  split
  · exact Pass.KeepsSide.side_update u ra p _ (by intro _; rfl)
  · dsimp only
    split
    · exact (((((Pass.KeepsSide.side_call u p _).side_trans
        (Pass.KeepsSide.side_alloc u _)).side_trans
        (Pass.KeepsSide.side_update u ra _ _ (by intro _; rfl))).side_trans
        (Pass.KeepsSide.side_modelcache u _ _)).side_trans
        (Pass.KeepsSide.side_update u ra _ _ (by intro _; rfl))).side_trans
        (Pass.KeepsSide.side_modelcache u _ _)
    · exact (Pass.KeepsSide.side_call u p _).side_trans
        (Pass.KeepsSide.side_update u ra _ _ (by intro _; rfl))

theorem loadModelOf_keepsSide (w : World) (o : Options) (u : URI) (a : ModelAsset) (ra : Ptr)
    (p : Pass) : Pass.KeepsSide u p (loadModelOf w o a ra p) := by
  unfold loadModelOf
  split
  · exact loadModel_keepsSide w o u _ ra p
  · exact Pass.KeepsSide.side_refl u p

theorem loadNormalMap_keepsSide (w : World) (o : Options) (u uri : URI) (p : Pass) :
    Pass.KeepsSide u p (loadNormalMap w o uri p).1 := by
  unfold loadNormalMap
  dsimp only
  split
  · exact (Pass.KeepsSide.side_call u p _).side_trans (Pass.KeepsSide.side_alloc u _)
  · split
    · exact ((Pass.KeepsSide.side_call u p _).side_trans
        (Pass.KeepsSide.side_call u _ _)).side_trans (Pass.KeepsSide.side_alloc u _)
    · exact (Pass.KeepsSide.side_call u p _).side_trans (Pass.KeepsSide.side_call u _ _)

theorem loadTopBillboard_keepsSide (w : World) (o : Options) (u uri : URI) (ra : Ptr)
    (p : Pass) (hne : p.texcache.find? uri = none → uri ≠ u) :
    Pass.KeepsSide u p (loadTopBillboard w o uri ra p) := by
  unfold loadTopBillboard
  split
  · exact (Pass.KeepsSide.side_update u ra p _ (by intro _; rfl)).side_trans
      (Pass.KeepsSide.side_update u ra _ _ (by intro _; rfl))
  · rename_i hnone
    dsimp only
    split
    · have h := fun t => ((((Pass.KeepsSide.side_call u p (.getImage uri)).side_trans
        (Pass.KeepsSide.side_alloc u _)).side_trans
        (Pass.KeepsSide.side_update u ra _ (fun r => { r with topBillboardTex := some t })
          (by intro _; rfl))).side_trans
        (Pass.KeepsSide.side_texcache u uri ra _ (hne hnone))).side_trans
        (loadNormalMap_keepsSide w o u uri _)
      split
      · exact (h _).side_trans (Pass.KeepsSide.side_update u ra _ _ (by intro _; rfl))
      · exact h _
    · exact Pass.KeepsSide.side_call u p _

theorem buildImpostor_keepsSide (w : World) (m : BiomeManager) (u : URI) (group : Nat)
    (a : ModelAsset) (bbox : BoundingBox) (ra : Ptr) (p : Pass) :
    Pass.KeepsSide u p (buildImpostor w m group a bbox ra p) := by
  unfold buildImpostor
  dsimp only
  split
  · split
    · exact (Pass.KeepsSide.side_alloc u p).side_trans
        (Pass.KeepsSide.side_update u ra _ _ (by intro _; rfl))
    · exact Pass.KeepsSide.side_update u ra p _ (by intro _; rfl)
  · exact Pass.KeepsSide.side_refl u p

theorem chonkify_keepsSide (m : BiomeManager) (u : URI) (ra : Ptr) (p : Pass) :
    Pass.KeepsSide u p (chonkify m ra p) := by
  unfold chonkify
  have h1 : Pass.KeepsSide u p (match (p.deref ra).model with
      | some model => p.update ra (fun r =>
          { r with chonk := chonkAdd r.chonk model m._lodTransitionPixelScale FLT_MAX })
      | none => p) := by
    split
    · exact Pass.KeepsSide.side_update u ra p _ (by intro _; rfl)
    · exact Pass.KeepsSide.side_refl u p
  dsimp only
  split
  · exact h1.side_trans (Pass.KeepsSide.side_update u ra _ _ (by intro _; rfl))
  · exact h1

theorem loadSideBillboard_hit (w : World) (o : Options) (s : URI) (ra ic : Ptr) (p : Pass)
    (r : ResidentModelAsset) (hr : p.heap.find? ra = some r)
    (hic : p.texcache.find? s = some ic) :
    (loadSideBillboard w o s ra p).texcache = p.texcache
      ∧ ((loadSideBillboard w o s ra p).deref ra).sideBillboardTex
          = (p.deref ic).sideBillboardTex
      ∧ ((loadSideBillboard w o s ra p).heap.find? ra).isSome := by
  unfold loadSideBillboard
  rw [hic]
  dsimp only
  refine ⟨rfl, ?_, ?_⟩
  · simp [Pass.deref, Pass.update, PtrMap.find?_modify, hr]
  · simp [Pass.update, PtrMap.find?_modify, hr]

theorem loadSideBillboard_fail (w : World) (o : Options) (s : URI) (ra : Ptr) (p : Pass)
    (hic : p.texcache.find? s = none) (hg : w.getImage o s = none) :
    loadSideBillboard w o s ra p = p.call (.getImage s) := by
  unfold loadSideBillboard
  rw [hic]
  dsimp only
  rw [hg]

theorem loadSideBillboard_load (w : World) (o : Options) (s u : URI) (ra : Ptr) (p : Pass)
    (r : ResidentModelAsset) (image : Nat) (hr : p.heap.find? ra = some r)
    (hic : p.texcache.find? s = none) (hg : w.getImage o s = some image) :
    ∃ q : Pass, Pass.KeepsSide u q (loadSideBillboard w o s ra p)
      ∧ q.texcache = p.texcache.insert s ra
      ∧ (q.deref ra).sideBillboardTex = some ⟨p.nextAddr, image⟩
      ∧ (q.heap.find? ra).isSome := by
  refine ⟨{ ((p.call (.getImage s)).alloc.update ra
      (fun r => { r with sideBillboardTex := some ⟨p.nextAddr, image⟩ })) with
        texcache := p.texcache.insert s ra }, ?_, rfl, ?_, ?_⟩
  · unfold loadSideBillboard
    rw [hic]
    dsimp only
    rw [hg]
    dsimp only
    split
    · exact (loadNormalMap_keepsSide w o u s _).side_trans
        (Pass.KeepsSide.side_update u ra _ _ (by intro _; rfl))
    · exact loadNormalMap_keepsSide w o u s _
  · simp [Pass.deref, Pass.update, Pass.call, Pass.alloc, PtrMap.find?_modify, hr]
  · simp [Pass.update, Pass.call, Pass.alloc, PtrMap.find?_modify, hr]

/-- Effect of the side-billboard block on the texture-cache entry of a loadable URI `u` and
on the record at `ra`. -/
theorem loadSideBillboard_side (w : World) (o : Options) (s u : URI) (img : Nat) (ra : Ptr)
    (p : Pass) (hpres : (p.heap.find? ra).isSome) (himg : w.getImage o u = some img)
    (htex : p.TexOK u img ra) :
    (loadSideBillboard w o s ra p).TexOK u img (ra + 1)
      ∧ ((loadSideBillboard w o s ra p).heap.find? ra).isSome
      ∧ (s = u → (∃ n, ((loadSideBillboard w o s ra p).deref ra).sideBillboardTex
            = some ⟨n, img⟩)
          ∧ ((loadSideBillboard w o s ra p).texcache.find? u).isSome) := by
  obtain ⟨r, hr⟩ := Option.isSome_iff_exists.mp hpres
  have hfr := loadSideBillboard_frame w o s ra p
  have hother : ∀ x, x ≠ ra → (loadSideBillboard w o s ra p).deref x = p.deref x := by
    intro x hx
    unfold Pass.deref
    rw [hfr.heap_other x hx]
  cases hic : p.texcache.find? s with
  | some ic =>
    obtain ⟨h1, h2, h3⟩ := loadSideBillboard_hit w o s ra ic p r hr hic
    refine ⟨?_, h3, ?_⟩
    · intro jc hjc
      rw [h1] at hjc
      obtain ⟨hlt, n, hn⟩ := htex jc hjc
      exact ⟨Nat.lt_succ_of_lt hlt, n, by rw [hother jc (Nat.ne_of_lt hlt)]; exact hn⟩
    · intro hsu
      subst hsu
      obtain ⟨-, n, hn⟩ := htex ic hic
      exact ⟨⟨n, by rw [h2]; exact hn⟩, by rw [h1, hic]; rfl⟩
  | none =>
    cases hg : w.getImage o s with
    | none =>
      rw [loadSideBillboard_fail w o s ra p hic hg]
      refine ⟨fun jc hjc => ?_, hpres, ?_⟩
      · obtain ⟨hlt, hn⟩ := htex jc hjc
        exact ⟨Nat.lt_succ_of_lt hlt, hn⟩
      · intro hsu
        subst hsu
        rw [himg] at hg
        cases hg
    | some image =>
      obtain ⟨q, hk, ht, hside, hq⟩ := loadSideBillboard_load w o s u ra p r image hr hic hg
      refine ⟨?_, hk.present ra hq, ?_⟩
      · intro jc hjc
        rw [hk.texcache_eq, ht, PtrMap.find?_insert] at hjc
        by_cases hsu : s = u
        · simp only [hsu, if_true, Option.some.injEq] at hjc
          subst hjc
          rw [hsu, himg] at hg
          rw [← Option.some.inj hg] at hside
          exact ⟨Nat.lt_succ_self _, p.nextAddr, by rw [hk.side_eq]; exact hside⟩
        · simp only [hsu, if_false] at hjc
          obtain ⟨hlt, n, hn⟩ := htex jc hjc
          exact ⟨Nat.lt_succ_of_lt hlt, n, by rw [hother jc (Nat.ne_of_lt hlt)]; exact hn⟩
      · intro hsu
        have hg' := hg
        rw [hsu, himg] at hg'
        rw [← Option.some.inj hg'] at hside
        refine ⟨⟨p.nextAddr, by rw [hk.side_eq]; exact hside⟩, ?_⟩
        rw [hk.texcache_eq, ht, PtrMap.find?_insert, if_pos hsu]
        rfl

theorem loadBillboards_side (w : World) (m : BiomeManager) (o : Options) (group : Nat)
    (a : ModelAsset) (bbox : BoundingBox) (u : URI) (img : Nat) (ra : Ptr) (p : Pass)
    (hpres : (p.heap.find? ra).isSome) (himg : w.getImage o u = some img)
    (htop : topBB w a = u → sideBB w a = u) (htex : p.TexOK u img ra) :
    (loadBillboards w m o group a bbox ra p).TexOK u img (ra + 1)
      ∧ (sideBB w a = u → u ≠ "" →
          ∃ n, ((loadBillboards w m o group a bbox ra p).deref ra).sideBillboardTex
            = some ⟨n, img⟩) := by
  unfold loadBillboards
  dsimp only
  split
  · obtain ⟨t1, -, t3⟩ := loadSideBillboard_side w o (sideBB w a) u img ra p hpres himg htex
    have hk : Pass.KeepsSide u (loadSideBillboard w o (sideBB w a) ra p)
        (buildImpostor w m group a bbox ra
          (if topBB w a ≠ "" then
            loadTopBillboard w o (topBB w a) ra (loadSideBillboard w o (sideBB w a) ra p)
          else loadSideBillboard w o (sideBB w a) ra p)) := by
      refine Pass.KeepsSide.side_trans ?_ (buildImpostor_keepsSide w m u group a bbox ra _)
      split
      · apply loadTopBillboard_keepsSide
        intro hnone htu
        have hs := (t3 (htop htu)).2
        rw [← htu, hnone] at hs
        cases hs
      · exact Pass.KeepsSide.side_refl u _
    refine ⟨t1.of_keeps hk, fun hsu _ => ?_⟩
    obtain ⟨n, hn⟩ := (t3 hsu).1
    exact ⟨n, by rw [hk.side_eq]; exact hn⟩
  · rename_i hempty
    refine ⟨htex.mono (Nat.le_succ _), fun hsu hu => ?_⟩
    rw [hsu] at hempty
    exact absurd hu hempty

theorem createRecord_other (a : ModelAsset) (p : Pass) (x : Ptr) (hx : x ≠ p.nextAddr) :
    (createRecord a p).deref x = p.deref x := by
  unfold Pass.deref
  show (((p.heap.insert p.nextAddr ResidentModelAsset.create).modify p.nextAddr _).find?
    x).getD default = _
  rw [PtrMap.find?_modify, PtrMap.find?_insert]
  simp [hx.symm]

/-- Effect of the population of a new record on the texture-cache entry of a loadable URI
`u` and on the side texture of the new record. -/
theorem populate_side (w : World) (m : BiomeManager) (o : Options) (group : Nat)
    (a : ModelAsset) (p : Pass) (u : URI) (img : Nat) (himg : w.getImage o u = some img)
    (htop : topBB w a = u → sideBB w a = u) (htex : p.TexOK u img p.nextAddr) :
    (populate w m o group a p).1.TexOK u img (populate w m o group a p).1.nextAddr
      ∧ (sideBB w a = u → u ≠ "" →
          ∃ n, ((populate w m o group a p).1.deref p.nextAddr).sideBillboardTex
            = some ⟨n, img⟩) := by
  have h1 : (createRecord a p).TexOK u img p.nextAddr := by
    intro ic hic
    obtain ⟨hlt, n, hn⟩ := htex ic hic
    exact ⟨hlt, n, by rw [createRecord_other a p ic (Nat.ne_of_lt hlt)]; exact hn⟩
  have hk2 := loadModelOf_keepsSide w o u a p.nextAddr (createRecord a p)
  have hpres : ((loadModelOf w o a p.nextAddr (createRecord a p)).heap.find?
      p.nextAddr).isSome :=
    hk2.present _ (by rw [(createRecord_spec a p).1]; rfl)
  obtain ⟨t1, t2⟩ := loadBillboards_side w m o group a
    (bboxOf w a p.nextAddr (loadModelOf w o a p.nextAddr (createRecord a p))) u img
    p.nextAddr _ hpres himg htop (h1.of_keeps hk2)
  have hk3 := chonkify_keepsSide m u p.nextAddr (loadBillboards w m o group a
    (bboxOf w a p.nextAddr (loadModelOf w o a p.nextAddr (createRecord a p))) p.nextAddr
    (loadModelOf w o a p.nextAddr (createRecord a p)))
  have hn := (populate_spec w m o group a p).2.2.2.1
  refine ⟨(t1.of_keeps hk3).mono hn, fun hsu hu => ?_⟩
  obtain ⟨n, hn⟩ := t2 hsu hu
  exact ⟨n, (hk3.side_eq p.nextAddr).trans hn⟩

theorem populate_sideInv (w : World) (m : BiomeManager) (o : Options) (group : Nat)
    (a' : ModelAsset) (p : Pass) (u : URI) (img : Nat) (c0 : PtrMap ModelAsset Ptr)
    (hu : u ≠ "") (himg : w.getImage o u = some img)
    (htop : topBB w a' = u → sideBB w a' = u)
    (hnone : p._residentModelAssets.find? a' = none) (hinv : SideInv w u img c0 p) :
    SideInv w u img c0 (populate w m o group a' p).1 := by
  obtain ⟨-, hc, -, hn, hh⟩ := populate_spec w m o group a' p
  obtain ⟨s1, s2⟩ := populate_side w m o group a' p u img himg htop hinv.tex
  have hfind : ∀ a, (populate w m o group a' p).1._residentModelAssets.find? a
      = if a' = a then some p.nextAddr else p._residentModelAssets.find? a := by
    intro a; rw [hc, PtrMap.find?_insert]
  refine ⟨s1, ?_, ?_⟩
  · intro a ptr hq hc0 hua
    rw [hfind] at hq
    by_cases haa : a' = a
    · subst haa
      simp only [if_true, Option.some.injEq] at hq
      subst hq
      exact ⟨hn, s2 hua hu⟩
    · simp only [haa, if_false] at hq
      obtain ⟨hlt, hside⟩ := hinv.records a ptr hq hc0 hua
      have hd : (populate w m o group a' p).1.deref ptr = p.deref ptr := by
        unfold Pass.deref
        rw [hh ptr (Nat.ne_of_lt hlt)]
      rw [hd]
      exact ⟨Nat.lt_trans hlt hn, hside⟩
  · intro a ptr h0
    have hp := hinv.old a ptr h0
    rw [hfind]
    by_cases haa : a' = a
    · subst haa; rw [hnone] at hp; cases hp
    · simpa [haa] using hp

theorem materializeEntry_sideInv (w : World) (m : BiomeManager) (o : Options) (group : Nat)
    (e : ModelAssetToUse) (p : Pass) (insts : ResidentModelAssetInstances) (u : URI)
    (img : Nat) (c0 : PtrMap ModelAsset Ptr) (hu : u ≠ "")
    (himg : w.getImage o u = some img)
    (htop : ∀ a, e.asset = some a → topBB w a = u → sideBB w a = u)
    (hinv : SideInv w u img c0 p) :
    SideInv w u img c0 (materializeEntry w m o group e p insts).1 := by
  cases ha : e.asset with
  | none =>
    unfold materializeEntry
    simp only [ha]
    exact hinv
  | some a =>
    rw [materializeEntry_fst w m o group e p insts a ha]
    unfold lookupOrPopulate
    split
    · exact hinv
    · rename_i hnone
      exact populate_sideInv w m o group a p u img c0 hu himg (htop a ha) hnone hinv

theorem materializeGroup_sideInv (w : World) (m : BiomeManager) (o : Options) (group : Nat)
    (u : URI) (img : Nat) (c0 : PtrMap ModelAsset Ptr) (hu : u ≠ "")
    (himg : w.getImage o u = some img) (l : List ModelAssetToUse) :
    ∀ (p : Pass) (insts : ResidentModelAssetInstances),
      (∀ e ∈ l, ∀ a, e.asset = some a → topBB w a = u → sideBB w a = u) →
      SideInv w u img c0 p →
        SideInv w u img c0 (materializeGroup w m o group l p insts).1 := by
  induction l with
  | nil => intro p insts _ h; exact h
  | cons e rest ih =>
    intro p insts htop h
    exact ih _ _ (fun e' he' => htop e' (List.mem_cons_of_mem _ he'))
      (materializeEntry_sideInv w m o group e p insts u img c0 hu himg
        (htop e (List.mem_cons_self _ _)) h)

theorem materializeBiome_sideInv (w : World) (m : BiomeManager) (o : Options) (biome : Biome)
    (u : URI) (img : Nat) (c0 : PtrMap ModelAsset Ptr) (hu : u ≠ "")
    (himg : w.getImage o u = some img) (groups : List Nat) :
    ∀ p : Pass,
      (∀ g ∈ groups, ∀ e ∈ w.getModelAssetsToUse biome g, ∀ a, e.asset = some a →
        topBB w a = u → sideBB w a = u) →
      SideInv w u img c0 p →
        SideInv w u img c0 (materializeBiome w m o biome groups p).1 := by
  induction groups with
  | nil => intro p _ h; exact h
  | cons g rest ih =>
    intro p htop h
    exact ih _ (fun g' hg' => htop g' (List.mem_cons_of_mem _ hg'))
      (materializeGroup_sideInv w m o g u img c0 hu himg _ p []
        (htop g (List.mem_cons_self _ _)) h)

theorem materializeBiomes_sideInv (w : World) (m : BiomeManager) (o : Options)
    (u : URI) (img : Nat) (c0 : PtrMap ModelAsset Ptr) (hu : u ≠ "")
    (himg : w.getImage o u = some img)
    (l : List (Biome × List ResidentModelAssetInstances)) :
    ∀ p : Pass,
      (∀ b ∈ l.map Prod.fst, ∀ g ∈ List.range w.NUM_ASSET_GROUPS,
        ∀ e ∈ w.getModelAssetsToUse b g, ∀ a, e.asset = some a →
          topBB w a = u → sideBB w a = u) →
      SideInv w u img c0 p →
        SideInv w u img c0 (materializeBiomes w m o l p).1 := by
  induction l with
  | nil => intro p _ h; exact h
  | cons x rest ih =>
    intro p htop h
    exact ih _ (fun b hb => htop b (by rw [List.map_cons]; exact List.mem_cons_of_mem _ hb))
      (materializeBiome_sideInv w m o x.1 u img c0 hu himg _ p
        (htop x.1 (by rw [List.map_cons]; exact List.mem_cons_self _ _)) h)

theorem BiomeManager.runPass_sideInv (w : World) (m : BiomeManager) (o : Options) (u : URI)
    (img : Nat) (hu : u ≠ "") (himg : w.getImage o u = some img)
    (htop : ∀ a, listedBy w m._residentBiomes a → topBB w a = u → sideBB w a = u) :
    SideInv w u img m._residentModelAssets (BiomeManager.runPass w m o).1 := by
  refine materializeBiomes_sideInv w m o u img _ hu himg _ _ ?_ ⟨?_, ?_, fun _ _ h => h⟩
  · intro b hb g hg e he a hea
    exact htop a ⟨b, hb, g, hg, e, he, hea⟩
  · intro ic hic
    cases hic
  · intro a ptr h1 h2
    have h1' : m._residentModelAssets.find? a = some ptr := h1
    rw [h2] at h1'; cases h1'

theorem instanceOf_of_cond {pf : Pass} {e : ModelAssetToUse} {a : ModelAsset} {ptr : Ptr}
    (hea : e.asset = some a) (hptr : pf._residentModelAssets.find? a = some ptr)
    (hcond : ((pf.deref ptr).sideBillboardTex.isSome || (pf.deref ptr).model.isSome) = true) :
    instanceOf pf e = some ⟨ptr, e.weight, e.coverage⟩ := by
  unfold instanceOf
  rw [hea]
  dsimp only
  rw [hptr]
  dsimp only
  rw [if_pos hcond]

/-- Evaluation on the catalog `crossWorld`: the image `x.png`, which loads, is first
requested for the top billboard of asset 10; asset 11, whose model does not load and whose
side billboard is `x.png`, then takes the (absent) side texture of asset 10, and the pass
appends no instance for it. -/
theorem side_uri_cached_by_top_slot_yields_no_instance :
    crossWorld.getModelAssetsToUse 1 0 = [⟨some 10, 1, 1⟩, ⟨some 11, 1, 1⟩]
      ∧ crossWorld.getImage 0 (sideBB crossWorld 11) = some 7
      ∧ topBB crossWorld 10 = sideBB crossWorld 11
      ∧ sideBB crossWorld 10 ≠ sideBB crossWorld 11
      ∧ (run crossWorld BiomeManager.new
          [.ref 1, .getResidentBiomes 0])._residentModelAssets.find? 11 = some 2
      ∧ ((run crossWorld BiomeManager.new
          [.ref 1, .getResidentBiomes 0]).deref 2).sideBillboardTex = none
      ∧ (run crossWorld BiomeManager.new
          [.ref 1, .getResidentBiomes 0])._residentBiomes.find? 1 = some [[]] := by
  decide

/-- C8, amended: in a `materializeNewAssets` pass from a reachable state (whatever tables
callers hold), for a resident biome `b`:
(1) the instance list of each group is, in the order of the group's configured list, what
`instanceOf` gives entry by entry;
(2) an entry with a null asset yields nothing;
(3) an entry with a non-null asset yields exactly one instance, carrying the record cached
for the asset and the entry's weight and coverage, if that record has a side billboard
texture or a model, and nothing otherwise (a top billboard texture does not count);
(4) in particular an asset that gets its record in this pass and whose side billboard URI is
non-empty and loads yields exactly one instance per entry, whether or not its model loads,
provided every listed asset that uses this URI as top billboard also uses it as side
billboard;
(5) and an asset that gets its record in this pass and whose model URI loads yields exactly
one instance per entry. -/
theorem materializeNewAssets_appends_instances (w : World) (m : BiomeManager)
    (h : ReachableHeld w m) (o : Options) (b : Biome) (hb : b ∈ m._residentBiomes.keys) :
    (m.materializeNewAssets w o)._residentBiomes.find? b
        = some ((List.range w.NUM_ASSET_GROUPS).map (fun g =>
            (w.getModelAssetsToUse b g).filterMap
              (instanceOf (BiomeManager.runPass w m o).1)))
      ∧ (∀ e, e.asset = none → instanceOf (BiomeManager.runPass w m o).1 e = none)
      ∧ (∀ g ∈ List.range w.NUM_ASSET_GROUPS, ∀ e ∈ w.getModelAssetsToUse b g,
          ∀ a, e.asset = some a →
            ∃ ptr, (m.materializeNewAssets w o)._residentModelAssets.find? a = some ptr
              ∧ instanceOf (BiomeManager.runPass w m o).1 e
                  = if ((m.materializeNewAssets w o).deref ptr).sideBillboardTex.isSome
                      || ((m.materializeNewAssets w o).deref ptr).model.isSome
                    then some ⟨ptr, e.weight, e.coverage⟩ else none)
      ∧ (∀ g ∈ List.range w.NUM_ASSET_GROUPS, ∀ e ∈ w.getModelAssetsToUse b g,
          ∀ a img, e.asset = some a → m._residentModelAssets.find? a = none →
            sideBB w a ≠ "" → w.getImage o (sideBB w a) = some img →
            (∀ a', listedBy w m._residentBiomes a' →
              topBB w a' = sideBB w a → sideBB w a' = sideBB w a) →
            ∃ ptr n, (m.materializeNewAssets w o)._residentModelAssets.find? a = some ptr
              ∧ ((m.materializeNewAssets w o).deref ptr).sideBillboardTex = some ⟨n, img⟩
              ∧ instanceOf (BiomeManager.runPass w m o).1 e
                  = some ⟨ptr, e.weight, e.coverage⟩)
      ∧ (∀ g ∈ List.range w.NUM_ASSET_GROUPS, ∀ e ∈ w.getModelAssetsToUse b g,
          ∀ a uri data, e.asset = some a → m._residentModelAssets.find? a = none →
            (w.assetDef a).modelURI = some uri → w.getNode o uri = some data →
            ∃ ptr n, (m.materializeNewAssets w o)._residentModelAssets.find? a = some ptr
              ∧ ((m.materializeNewAssets w o).deref ptr).model = some ⟨n, data⟩
              ∧ instanceOf (BiomeManager.runPass w m o).1 e
                  = some ⟨ptr, e.weight, e.coverage⟩) := by
  have hi := h.inv_held.1
  have hcached : ∀ g ∈ List.range w.NUM_ASSET_GROUPS, ∀ e ∈ w.getModelAssetsToUse b g,
      ∀ a, e.asset = some a →
        ∃ ptr, (BiomeManager.runPass w m o).1._residentModelAssets.find? a = some ptr :=
    fun g hg e he a ha => Option.isSome_iff_exists.mp
      (materializeBiomes_cached w m o a m._residentBiomes.entries m.startPass
        ⟨b, hb, g, hg, e, he, ha⟩)
  refine ⟨?_, ?_, ?_, ?_, ?_⟩
  · rw [BiomeManager.materializeNewAssets_find? hi]
    obtain ⟨x, hx⟩ := Option.isSome_iff_exists.mp ((PtrMap.mem_keys_iff _ b).mp hb)
    rw [hx]
    rfl
  · intro e he
    unfold instanceOf
    rw [he]
  · intro g hg e he a ha
    obtain ⟨ptr, hptr⟩ := hcached g hg e he a ha
    refine ⟨ptr, hptr, ?_⟩
    unfold instanceOf
    rw [ha]
    dsimp only
    rw [hptr]
    rfl
  · intro g hg e he a img ha hnew hne himg htop
    obtain ⟨ptr, hptr⟩ := hcached g hg e he a ha
    have hinv := BiomeManager.runPass_sideInv w m o (sideBB w a) img hne himg htop
    obtain ⟨-, n, hn⟩ := hinv.records a ptr hptr hnew rfl
    exact ⟨ptr, n, hptr, hn, instanceOf_of_cond ha hptr (by rw [hn]; rfl)⟩
  · intro g hg e he a uri data ha hnew huri hload
    obtain ⟨ptr, hptr⟩ := hcached g hg e he a ha
    have hinv : ModelInv w uri data m._residentModelAssets (BiomeManager.runPass w m o).1 :=
      materializeBiomes_modelInv w m o uri data _ hload _ _
        (BiomeManager.startPass_modelInv w m uri data)
    obtain ⟨x, hx, hmodel, -⟩ := hinv.records a ptr hptr hnew huri
    obtain ⟨⟨n, hnode⟩, -⟩ := hinv.entry x hx
    have hm : ((BiomeManager.runPass w m o).1.deref ptr).model = some ⟨n, data⟩ :=
      hmodel.trans hnode
    exact ⟨ptr, n, hptr, hm, instanceOf_of_cond ha hptr (by rw [hm]; simp)⟩

/-- Witness of C8 (amended): biomes 1 and 2 of the demo catalog are resident; asset 12, named
by group 1 of biome 2, has no model and the side billboard `grass.png`, which loads and is
no asset's top billboard. -/
theorem materializeNewAssets_appends_instances_witness :
    ReachableHeld demoWorld
        (run demoWorld BiomeManager.new [.ref 1, .ref 2, .recalculateResidentBiomes])
      ∧ 2 ∈ (run demoWorld BiomeManager.new
          [.ref 1, .ref 2, .recalculateResidentBiomes])._residentBiomes.keys
      ∧ (demoWorld.assetDef 12).modelURI = none
      ∧ demoWorld.getImage 0 (sideBB demoWorld 12) = some 3
      ∧ ∃ ptr n, ((run demoWorld BiomeManager.new
            [.ref 1, .ref 2, .recalculateResidentBiomes]).materializeNewAssets demoWorld
              0)._residentModelAssets.find? 12 = some ptr
          ∧ (((run demoWorld BiomeManager.new
            [.ref 1, .ref 2, .recalculateResidentBiomes]).materializeNewAssets demoWorld
              0).deref ptr).sideBillboardTex = some ⟨n, 3⟩
          ∧ instanceOf (BiomeManager.runPass demoWorld (run demoWorld BiomeManager.new
              [.ref 1, .ref 2, .recalculateResidentBiomes]) 0).1 ⟨some 12, 3, 1⟩
                = some ⟨ptr, 3, 1⟩ :=
  ⟨(Reachable.run _ Reachable.new).held, by decide, by decide, by decide,
    (materializeNewAssets_appends_instances demoWorld _ (Reachable.run _ Reachable.new).held
      0 2 (by decide)).2.2.2.1 1 (by decide) ⟨some 12, 3, 1⟩ (by decide) 12 3 rfl (by decide)
      (by decide) (by decide) (by
        intro a' _ ht
        have h1 : topBB demoWorld a' = "missing.png" := by
          unfold topBB demoWorld
          dsimp only
          split_ifs <;> rfl
        rw [h1] at ht
        exact absurd ht (by decide))⟩

end osgEarth
